import Mathlib

/-!
# overlord: executor routing, Redis node connections and Redis Cluster

A shallow embedding of `proxy/executor.go` (server-list parsing, hash-tag
trimming, key routing, batch dispatch, the round-robin batch channel, the
open/closed state, the pinger loop), of `proto/redis/node_conn.go` (batch
write and read, close), and of `proto/redis/cluster` (`cluster.go`: slot
lookup, seed set, slot table; `slot.go`: parsing of `CLUSTER NODES`;
`node_conn.go`: MOVED/ASK redirection), followed by the properties proved
about them.

Conventions.
* A Go `string` is a Lean `String`; a Go `[]byte` key is a `List UInt8`; a
  `[]byte` that holds protocol text is a `String`.
* Go integers are `Int`; `int32` arithmetic wraps explicitly (`wrapInt32`),
  and so does the 64-bit `int` where a sum can leave its range
  (`wrapInt64`).
* A Go run-time panic is the result `none` (`Run.panic` where a run can
  also exhaust its budget of steps, `Run.outOfFuel`).
* Functions of packages that are not part of the embedded files
  (`conv.Btoi`, `hashkit.Crc16`, the hash ring lookup, the RESP connection,
  the backends) are parameters.
-/

set_option autoImplicit false

namespace gostd

/-- Go `bytes.IndexByte(b, c)`: the index of the first `c` in `b`, or `-1`. -/
def IndexByte (b : List UInt8) (c : UInt8) : Int :=
  match b with
  | [] => -1
  | x :: xs =>
    if x = c then 0
    else
      let r := IndexByte xs c
      if r = -1 then -1 else r + 1

/-- Go slice expression `s[lo:hi]` for bounds `0 ≤ lo ≤ hi ≤ len(s)`. -/
def slice {α : Type} (s : List α) (lo hi : Int) : List α :=
  (s.drop lo.toNat).take (hi.toNat - lo.toNat)

/-- Pieces of a character list cut at every occurrence of `sep`. -/
def splitChars (sep : Char) : List Char → List (List Char)
  | [] => [[]]
  | c :: cs =>
    if c = sep then [] :: splitChars sep cs
    else
      match splitChars sep cs with
      | [] => [[c]]
      | piece :: pieces => (c :: piece) :: pieces

/-- Go `strings.Split(s, sep)` for a separator of one ASCII character (the
source only splits on `" "` and `":"`): all substrings between separators;
a string without separator gives the one-element list `[s]`. -/
def Split (s : String) (sep : Char) : List String :=
  (splitChars sep s.data).map String.mk

/-- Go `strings.Contains(s, sep)` for a one-character `sep`. -/
def Contains (s : String) (sep : Char) : Bool :=
  s.data.contains sep

/-- Go `net.JoinHostPort(host, port)`: `host:port`, and `[host]:port` when
`host` contains a colon. -/
def JoinHostPort (host port : String) : String :=
  if Contains host ':' then "[" ++ host ++ "]:" ++ port
  else host ++ ":" ++ port

/-- Value of an `int32` after wrap-around: the representative of `x`
modulo `2^32` in `[-2^31, 2^31)`. -/
def wrapInt32 (x : Int) : Int :=
  (x + 2 ^ 31) % 2 ^ 32 - 2 ^ 31

/-- ASCII bytes of a string literal, for writing keys. -/
def bytesOf (s : String) : List UInt8 :=
  s.data.map (fun c => c.toNat.toUInt8)

end gostd

namespace proxy

open gostd

/-- The package-level error values of `proxy/executor.go`. -/
inductive Error where
  | ErrConfigServerFormat
  | ErrExecutorHashNoNode
  | ErrExecutorClosed
  deriving DecidableEq, Repr

/-- Constant `executorStateOpening = int32(0)`. -/
def executorStateOpening : Int := 0

/-- Constant `executorStateClosed = int32(1)`. -/
def executorStateClosed : Int := 1

/-! ### parseServers -/

/-- The five results of `parseServers`; on an error the slices hold what
had been appended before the `return`. -/
structure Servers where
  addrs : List String
  ws : List Int
  ans : List String
  /-- Go result `alias` (a reserved word here). -/
  aliased : Bool
  err : Option Error
  deriving DecidableEq, Repr

/-- The `for _, svr := range svrs` loop of `parseServers`, started with the
current values of the named results. `Btoi` stands for `conv.Btoi`
(`none` is its error result). -/
def parseServersLoop (Btoi : String → Option Int) :
    List String → List String → List Int → List String → Bool → Servers
  | [], addrs, ws, ans, aliased => ⟨addrs, ws, ans, aliased, none⟩
  | svr :: rest, addrs, ws, ans, aliased =>
    let hasSpace := Contains svr ' '
    if !hasSpace && aliased then
      ⟨addrs, ws, ans, aliased, some Error.ErrConfigServerFormat⟩
    else
      let aliased := hasSpace || aliased
      let split1 : Option (String × List String) :=
        if aliased then
          match Split svr ' ' with
          | [a, b] => some (a, ans ++ [b])
          | _ => none
        else some (svr, ans)
      match split1 with
      | none => ⟨addrs, ws, ans, aliased, some Error.ErrConfigServerFormat⟩
      | some (addrW, ans) =>
        match Split addrW ':' with
        | [host, port, weight] =>
          let addrs := addrs ++ [JoinHostPort host port]
          match Btoi weight with
          | none => ⟨addrs, ws, ans, aliased, some Error.ErrConfigServerFormat⟩
          | some w =>
            if w ≤ 0 then
              ⟨addrs, ws, ans, aliased, some Error.ErrConfigServerFormat⟩
            else parseServersLoop Btoi rest addrs (ws ++ [w]) ans aliased
        | _ => ⟨addrs, ws, ans, aliased, some Error.ErrConfigServerFormat⟩

/-- Function `parseServers(svrs)`: all named results start at their zero
value. -/
def parseServers (Btoi : String → Option Int) (svrs : List String) : Servers :=
  parseServersLoop Btoi svrs [] [] [] false

/-- Value of a decimal digit character. -/
def digitVal (c : Char) : Option Int :=
  if '0' ≤ c ∧ c ≤ '9' then some ((c.toNat : Int) - 48) else none

/-- Decimal digits read left to right onto the accumulator `acc`. -/
def readDigits : List Char → Int → Option Int
  | [], acc => some acc
  | c :: cs, acc =>
    match digitVal c with
    | none => none
    | some d => readDigits cs (acc * 10 + d)

/-- Modelled from the spec: `conv.Btoi` (package `lib/conv`) is not among
the embedded files; the server entry's weight is a decimal integer, so this
instance reads a non-empty string of decimal digits and rejects anything
else. It only instantiates the `Btoi` parameter at concrete inputs. -/
def decimalBtoi (s : String) : Option Int :=
  match s.data with
  | [] => none
  | cs => readDigits cs 0

/-! ### trimHashTag and getAddr -/

/-- Method `trimHashTag` of `defaultExecutor`, as a function of the
`hashTag` field and the key. -/
def trimHashTag (hashTag : List UInt8) (key : List UInt8) : List UInt8 :=
  match hashTag with
  | [o, c] =>
    let bidx := IndexByte key o
    if bidx = -1 then key
    else
      let eidx := IndexByte (slice key (bidx + 1) key.length) c
      if eidx = -1 then key
      else slice key (bidx + 1) (bidx + 1 + eidx)
  | _ => key

/-- Modelled from the spec: the part of a `proto.Message` that routing
reads, its key (`Request().Key()`), with an identity to tell messages
apart. -/
structure Msg where
  id : Nat
  key : List UInt8
  deriving DecidableEq, Repr

/-- Modelled from the spec: `proto.Message` (package `proto`) is not among
the embedded files. A message has its request, an optional list of
sub-messages when it is composite, and an error slot. -/
structure Message where
  req : Msg
  subs : Option (List Msg)
  err : Option Error
  deriving DecidableEq, Repr

/-- Modelled from the spec: `Message.IsBatch()`, true for a composite
message. -/
def Message.IsBatch (m : Message) : Bool :=
  m.subs.isSome

/-- Modelled from the spec: `Message.Batch()`, the sub-messages. -/
def Message.Batch (m : Message) : List Msg :=
  m.subs.getD []

/-- Modelled from the spec: `Message.WithError(err)` fills the error slot. -/
def Message.WithError (m : Message) (err : Error) : Message :=
  { m with err := some err }

/-- Modelled from the spec: `proto.MsgBatch`, an ordered collection of
messages bound for one backend node. -/
abbrev MsgBatch := List Msg

/-- Modelled from the spec: `MsgBatch.Count()` equals the number of
messages. -/
def MsgBatch.Count (mb : MsgBatch) : Int :=
  mb.length

/-- Modelled from the spec: `proto.MsgBatchAllocator`, a mapping backend
address → `MsgBatch`, kept as an association list with one entry per
address. -/
abbrev MsgBatchAllocator := List (String × MsgBatch)

/-- Modelled from the spec: `MsgBatchAllocator.AddMsg(addr, m)` appends `m`
to the batch of `addr`, creating the batch when the address has none. -/
def AddMsg : MsgBatchAllocator → String → Msg → MsgBatchAllocator
  | [], addr, m => [(addr, [m])]
  | (a, mb) :: rest, addr, m =>
    if a = addr then (a, mb ++ [m]) :: rest
    else (a, mb) :: AddMsg rest addr m

/-- Modelled from the spec: `MsgBatchAllocator.MsgBatchs()`, the address →
batch mapping that `Execute` ranges over. -/
def MsgBatchs (mba : MsgBatchAllocator) : List (String × MsgBatch) :=
  mba

/-- Type `batchChan`: the `int32` counter `idx`, the `int32` queue count
`cnt`, and the channels `chs`, each held as the list of batches sent on it
(oldest first; the capacity bound of a channel is a matter of blocking and
is not represented). -/
structure batchChan where
  idx : Int
  cnt : Int
  chs : List (List MsgBatch)
  deriving DecidableEq, Repr

/-- Function `newBatchChan(n)`; `make` with a negative length panics. -/
def newBatchChan (n : Int) : Option batchChan :=
  if n < 0 then none
  else some { idx := 0, cnt := n, chs := List.replicate n.toNat [] }

/-- Queue index computed by `push`: `i % c.cnt` for the wrapped,
incremented counter `i`; Go's `%` truncates toward zero (`Int.tmod`). -/
def pushIndex (c : batchChan) : Int :=
  Int.tmod (wrapInt32 (c.idx + 1)) c.cnt

/-- Method `batchChan.push(m)`: `i := atomic.AddInt32(&c.idx, 1)` then
`c.chs[i%c.cnt] <- m`. Division by zero and an index outside `chs` are
run-time panics. -/
def batchChan.push (c : batchChan) (m : MsgBatch) : Option batchChan :=
  let i := wrapInt32 (c.idx + 1)
  if c.cnt = 0 then none
  else
    let j := Int.tmod i c.cnt
    if 0 ≤ j ∧ j.toNat < c.chs.length then
      some { c with idx := i, chs := c.chs.modify (fun q => q ++ [m]) j.toNat }
    else none

/-- Type `defaultExecutor`, the fields read by routing and dispatch:
`ring` is `e.ring.GetNode` at the current ring state (the hash ring is in
package `hashkit`), `aliasMap` and `nodeChan` are the Go maps (`none` for an
absent key), `aliased` is the Go field `alias`. -/
structure defaultExecutor where
  ring : List UInt8 → String × Bool
  hashTag : List UInt8
  aliased : Bool
  aliasMap : String → Option String
  nodeChan : String → Option batchChan
  state : Int

/-- Go map read `addr, ok = m[key]`: the zero value and `false` for an
absent key. -/
def mapLookup (m : String → Option String) (key : String) : String × Bool :=
  match m key with
  | some v => (v, true)
  | none => ("", false)

/-- Method `getAddr` of `defaultExecutor`. -/
def getAddr (e : defaultExecutor) (key : List UInt8) : String × Bool :=
  let r := e.ring (trimHashTag e.hashTag key)
  if !r.2 then r
  else if e.aliased then mapLookup e.aliasMap r.1
  else r

/-- The loop `for idx, aname := range ans { e.aliasMap[aname] = addrs[idx] }`
of `newDefaultExecutor`, from index `idx` on; `addrs[idx]` out of range is a
panic. -/
def fillAliasMap : List String → Nat → List String →
    (String → Option String) → Option (String → Option String)
  | [], _, _, m => some m
  | aname :: rest, idx, addrs, m =>
    match addrs[idx]? with
    | none => none
    | some a => fillAliasMap rest (idx + 1) addrs (fun k => if k = aname then some a else m k)

/-! ### Execute and Close -/

/-- The inner loop `for _, subm := range m.Batch()` of `Execute`: the
allocator after the additions made, and `false` when a key found no node
(the additions before it stay). -/
def placeSubs (e : defaultExecutor) :
    MsgBatchAllocator → List Msg → MsgBatchAllocator × Bool
  | mba, [] => (mba, true)
  | mba, subm :: rest =>
    let r := getAddr e subm.key
    if !r.2 then (mba, false)
    else placeSubs e (AddMsg mba r.1 subm) rest

/-- The first loop of `Execute`, `for _, m := range msgs`: the messages
(the failing one marked by `WithError`), the allocator, and `false` when
the loop left through `return ErrExecutorHashNoNode`. -/
def placeMsgs (e : defaultExecutor) :
    MsgBatchAllocator → List Message → List Message × MsgBatchAllocator × Bool
  | mba, [] => ([], mba, true)
  | mba, m :: rest =>
    if m.IsBatch then
      let r := placeSubs e mba m.Batch
      if !r.2 then (m.WithError Error.ErrExecutorHashNoNode :: rest, r.1, false)
      else
        let t := placeMsgs e r.1 rest
        (m :: t.1, t.2.1, t.2.2)
    else
      let r := getAddr e m.req.key
      if !r.2 then (m.WithError Error.ErrExecutorHashNoNode :: rest, mba, false)
      else
        let t := placeMsgs e (AddMsg mba r.1 m.req) rest
        (m :: t.1, t.2.1, t.2.2)

/-- The second loop of `Execute`, `for addr, mb := range mba.MsgBatchs()`,
over the entries in list order (Go leaves the order of a map range open):
the `nodeChan` map after the pushes; `e.nodeChan[addr]` absent is a nil
dereference, hence a panic. -/
def pushBatches : (String → Option batchChan) → List (String × MsgBatch) →
    Option (String → Option batchChan)
  | nc, [] => some nc
  | nc, (addr, mb) :: rest =>
    if mb.Count > 0 then
      match nc addr with
      | none => none
      | some c =>
        match c.push mb with
        | none => none
        | some c1 => pushBatches (fun a => if a = addr then some c1 else nc a) rest
    else pushBatches nc rest

/-- What a call of `Execute` leaves behind: the returned error, the
messages, the allocator and the executor. -/
structure Outcome where
  err : Option Error
  msgs : List Message
  mba : MsgBatchAllocator
  e : defaultExecutor

/-- Method `Execute(mba, msgs)` of `defaultExecutor`; `none` is a panic. -/
def Execute (e : defaultExecutor) (mba : MsgBatchAllocator) (msgs : List Message) :
    Option Outcome :=
  if e.state = executorStateClosed then
    some ⟨some Error.ErrExecutorClosed, msgs, mba, e⟩
  else
    let t := placeMsgs e mba msgs
    if !t.2.2 then some ⟨some Error.ErrExecutorHashNoNode, t.1, t.2.1, e⟩
    else
      match pushBatches e.nodeChan (MsgBatchs t.2.1) with
      | none => none
      | some nc => some ⟨none, t.1, t.2.1, { e with nodeChan := nc }⟩

/-- Method `Close()` of `defaultExecutor`: the returned error (always
`nil`) and the executor after `CompareAndSwapInt32(&e.state,
executorStateOpening, executorStateClosed)`. -/
def Close (e : defaultExecutor) : Option Error × defaultExecutor :=
  if e.state = executorStateOpening then (none, { e with state := executorStateClosed })
  else (none, e)

/-! ### Vocabulary of the statements -/

/-- A server entry taken apart: the fields between the colons, the alias
name, and the value of the weight. -/
structure Entry where
  host : String
  port : String
  weight : String
  name : String
  w : Int
  deriving DecidableEq, Repr

/-- The bare form `host:port:weight` of an entry. -/
def Entry.bare (x : Entry) : String :=
  x.host ++ ":" ++ x.port ++ ":" ++ x.weight

/-- The aliased form `host:port:weight alias` of an entry. -/
def Entry.named (x : Entry) : String :=
  x.bare ++ " " ++ x.name

/-- The address `host:port` of an entry. -/
def Entry.addr (x : Entry) : String :=
  x.host ++ ":" ++ x.port

/-- A well-formed entry: no field contains a colon or a blank, the alias
name contains no blank, and `Btoi` reads the weight as the positive
integer `w`. -/
def Entry.WellFormed (Btoi : String → Option Int) (x : Entry) : Prop :=
  ':' ∉ x.host.data ∧ ' ' ∉ x.host.data ∧ ':' ∉ x.port.data ∧ ' ' ∉ x.port.data ∧
  ':' ∉ x.weight.data ∧ ' ' ∉ x.weight.data ∧ ' ' ∉ x.name.data ∧
  Btoi x.weight = some x.w ∧ 0 < x.w

instance (Btoi : String → Option Int) (x : Entry) : Decidable (x.WellFormed Btoi) := by
  unfold Entry.WellFormed
  infer_instance

/-- Whether `Execute` meets, in message `m`, a key for which `getAddr`
finds no node: a key of a sub-message when `m` is composite, the key of
`m` itself otherwise. -/
def noNode (e : defaultExecutor) (m : Message) : Bool :=
  if m.IsBatch then m.Batch.any (fun subm => !(getAddr e subm.key).2)
  else !(getAddr e m.req.key).2

/-- Successive calls `c.push(m)` for the batches of a list, first to last. -/
def pushAll : batchChan → List MsgBatch → Option batchChan
  | c, [] => some c
  | c, m :: ms =>
    match c.push m with
    | none => none
    | some c1 => pushAll c1 ms

/-- Successive calls of `Execute` on one executor, each call on the
executor the previous call left; the list of their outcomes, cut at the
first panic. -/
def callsFrom : defaultExecutor → List (MsgBatchAllocator × List Message) →
    List (Option Outcome)
  | _, [] => []
  | e, (mba, msgs) :: rest =>
    match Execute e mba msgs with
    | none => [none]
    | some o => some o :: callsFrom o.e rest

/-- An executor over an empty ring (no key finds a node), with the given
state. -/
def emptyRingExecutor (state : Int) : defaultExecutor :=
  { ring := fun _ => ("", false), hashTag := [], aliased := false,
    aliasMap := fun _ => none, nodeChan := fun _ => none, state := state }

/-- An open executor over one backend `10.0.0.1:6379` that every key
routes to, whose batch channel is `c`. -/
def oneNodeExecutor (c : batchChan) : defaultExecutor :=
  { ring := fun _ => ("10.0.0.1:6379", true), hashTag := [], aliased := false,
    aliasMap := fun _ => none,
    nodeChan := fun a => if a = "10.0.0.1:6379" then some c else none,
    state := executorStateOpening }

/-- An open executor with aliases: keys starting with `a` hash to the ring
node `east`, other keys to `west`; `east` is the alias of `10.0.0.1:6379`
and `west` the alias of `10.0.0.2:6379`. -/
def twoAliasExecutor : defaultExecutor :=
  { ring := fun k => if k.head? = some 97 then ("east", true) else ("west", true),
    hashTag := bytesOf "\x7b\x7d", aliased := true,
    aliasMap := fun a =>
      if a = "east" then some "10.0.0.1:6379"
      else if a = "west" then some "10.0.0.2:6379" else none,
    nodeChan := fun a =>
      if a = "10.0.0.1:6379" then some ⟨0, 2, [[], []]⟩
      else if a = "10.0.0.2:6379" then some ⟨0, 2, [[], []]⟩ else none,
    state := executorStateOpening }

/-- The requests `Execute` routes, in submission order: the sub-messages of
a composite message, the message itself otherwise. -/
def routed : List Message → List Msg
  | [] => []
  | m :: rest => (if m.IsBatch then m.Batch else [m.req]) ++ routed rest

/-- The batch an allocator holds for an address (empty when it holds
none). -/
def batchAt : MsgBatchAllocator → String → MsgBatch
  | [], _ => []
  | (a, mb) :: rest, addr => if a = addr then mb else batchAt rest addr

/-- A batch channel in its working range: a non-negative counter that the
next increment does not overflow, and `cnt ≥ 1` channels, as many as
`chs` holds. -/
def batchChan.Ready (c : batchChan) : Prop :=
  0 ≤ c.idx ∧ c.idx + 1 < 2147483648 ∧ 0 < c.cnt ∧ (c.chs.length : Int) = c.cnt

instance (c : batchChan) : Decidable c.Ready := by
  unfold batchChan.Ready
  infer_instance

end proxy

namespace cluster

/-- Constant `musk = 0x3fff`. -/
def musk : Nat := 0x3fff

/-- Constant `slotSize = musk + 1`. -/
def slotSize : Nat := musk + 1

/-- The two published values of type `cluster`: what `c.nodes.Load()` and
`c.slotN.Load()` return. -/
structure Snapshot where
  nodes : List String
  slotN : List Int
  deriving DecidableEq, Repr

/-- Method `GetNode(key)` of `cluster`. `Crc16` stands for `hashkit.Crc16`
(an unsigned 16-bit result, read as a natural number). The named results
start as `("", false)`; indexing `nodes` with a negative `n` is a panic
(`none`). -/
def GetNode (Crc16 : List UInt8 → Nat) (c : Snapshot) (key : List UInt8) :
    Option (String × Bool) :=
  let slot := Crc16 key &&& musk
  let sn := c.slotN
  if (slot : Int) ≥ sn.length then some ("", false)
  else
    let n := sn.getD slot 0
    if n = -1 then some ("", false)
    else
      let nodes := c.nodes
      if n ≥ nodes.length then some ("", false)
      else if n < 0 then none
      else some (nodes.getD n.toNat "", true)

end cluster

/-! ## `proto/redis/node_conn.go` -/

namespace redis

/-- Constant `closed = uint32(0)`. -/
def closed : Nat := 0

/-- Constant `opened = uint32(1)`. -/
def opened : Nat := 1

/-- Errors seen by the Redis node connection: the package value
`ErrBadAssert`, and the errors the RESP connection and the socket return
(told apart by a code). -/
inductive Err where
  | ErrBadAssert
  | io (code : Nat)
  deriving DecidableEq, Repr

/-- Modelled from the spec: the lifecycle marks of a `proto.Message`
(package `proto` is not among the embedded files): written, read, and
done with an error. -/
inductive Mark where
  | MarkWrite
  | MarkRead
  | DoneWithError (err : Err)
  deriving DecidableEq, Repr

/-- Type `Command` as `node_conn.go` uses it: the RESP object to encode and
the `reply` slot (`none` while no reply is assigned). The payloads are
text. -/
structure Command where
  respObj : String
  reply : Option String
  deriving DecidableEq, Repr

/-- Modelled from the spec: a `proto.Message` as the Redis node
connection sees it. `cmd` is the outcome of the type assertion
`m.Request().(*Command)` (`none` when it fails); `marks` are the lifecycle
marks received so far, oldest first. -/
structure Message where
  id : Nat
  cmd : Option Command
  marks : List Mark
  deriving DecidableEq, Repr

/-- Modelled from the spec: `Message.MarkWrite()`. -/
def Message.MarkWrite (m : Message) : Message :=
  { m with marks := m.marks ++ [Mark.MarkWrite] }

/-- Modelled from the spec: `Message.MarkRead()`. -/
def Message.MarkRead (m : Message) : Message :=
  { m with marks := m.marks ++ [Mark.MarkRead] }

/-- Modelled from the spec: `Message.DoneWithError(err)`. -/
def Message.DoneWithError (m : Message) (err : Err) : Message :=
  { m with marks := m.marks ++ [Mark.DoneWithError err] }

/-- The operations of the RESP connection `rc` (type `respConn`, not among
the embedded files) on its state `ρ`: `encode`, `Flush`, and
`decodeCount`, each returning the new state and its result. -/
structure RespConn (ρ : Type) where
  encode : ρ → String → ρ × Option Err
  Flush : ρ → ρ × Option Err
  decodeCount : ρ → Int → ρ × Option Err × List String

/-- A call made on the RESP connection or its reader, as recorded in the
connection's history. -/
inductive Op where
  | encode (respObj : String)
  | flush
  | resetBuffer (toBatch : Bool)
  | decodeCount (count : Int)
  deriving DecidableEq, Repr

/-- Type `nodeConn`: the RESP connection state `rc`, the `uint32` field
`state`, and two histories: `ops`, the calls made on `rc` (oldest first),
and `socketCloses`, the number of calls of `conn.Close()`. -/
structure nodeConn (ρ : Type) where
  cluster : String
  addr : String
  rc : ρ
  state : Nat
  ops : List Op
  socketCloses : Nat
  deriving DecidableEq, Repr

/-- Function `newNodeConn(cluster, addr, conn)`; `rc` is the state of
`newRespConn(conn)`. -/
def newNodeConn {ρ : Type} (cluster addr : String) (rc : ρ) : nodeConn ρ :=
  { cluster := cluster, addr := addr, rc := rc, state := closed, ops := [], socketCloses := 0 }

/-- Method `write(m)`: the connection, the message and the returned
error. -/
def nodeConn.write {ρ : Type} (R : RespConn ρ) (nc : nodeConn ρ) (m : Message) :
    nodeConn ρ × Message × Option Err :=
  match m.cmd with
  | none => (nc, m.DoneWithError Err.ErrBadAssert, some Err.ErrBadAssert)
  | some cmd =>
    let r := R.encode nc.rc cmd.respObj
    ({ nc with rc := r.1, ops := nc.ops ++ [Op.encode cmd.respObj] }, m, r.2)

/-- The loop `for _, m := range mb.Msgs()` of `WriteBatch`: the
connection, the messages (those gone through first, then the untouched
rest) and `some err` when the loop left through `return err`. -/
def nodeConn.writeLoop {ρ : Type} (R : RespConn ρ) :
    nodeConn ρ → List Message → nodeConn ρ × List Message × Option Err
  | nc, [] => (nc, [], none)
  | nc, m :: rest =>
    let r := nc.write R m
    match r.2.2 with
    | some err => (r.1, r.2.1.DoneWithError err :: rest, some err)
    | none =>
      let t := nodeConn.writeLoop R r.1 rest
      (t.1, r.2.1.MarkWrite :: t.2.1, t.2.2)

/-- Method `WriteBatch(mb)`: the connection, the messages of the batch and
the returned error. -/
def nodeConn.WriteBatch {ρ : Type} (R : RespConn ρ) (nc : nodeConn ρ) (mb : List Message) :
    nodeConn ρ × List Message × Option Err :=
  let t := nodeConn.writeLoop R nc mb
  match t.2.2 with
  | some err => (t.1, t.2.1, some err)
  | none =>
    let f := R.Flush t.1.rc
    ({ t.1 with rc := f.1, ops := t.1.ops ++ [Op.flush] }, t.2.1, f.2)

/-- The loop `for i, msg := range mb.Msgs()` of `ReadBatch` from index
`i` on: the messages and the returned error; `resps[i]` out of range is a
panic (`none`). -/
def readLoop (resps : List String) : Nat → List Message → Option (List Message × Option Err)
  | _, [] => some ([], none)
  | i, msg :: rest =>
    match msg.cmd with
    | none => some (msg :: rest, some Err.ErrBadAssert)
    | some cmd =>
      match resps[i]? with
      | none => none
      | some reply =>
        match readLoop resps (i + 1) rest with
        | none => none
        | some t =>
          some (({ msg with cmd := some { cmd with reply := some reply } } : Message).MarkRead :: t.1,
            t.2)

/-- Modelled from the spec: `MsgBatch.Count()` equals the number of
messages of the batch. -/
def Count (mb : List Message) : Int :=
  mb.length

/-- Method `ReadBatch(mb)`: the connection, the messages and the returned
error; `none` is a panic. The deferred `ResetBuffer(nil)` runs on every
return. -/
def nodeConn.ReadBatch {ρ : Type} (R : RespConn ρ) (nc : nodeConn ρ) (mb : List Message) :
    Option (nodeConn ρ × List Message × Option Err) :=
  let count := Count mb
  let d := R.decodeCount nc.rc count
  let nc1 : nodeConn ρ :=
    { nc with rc := d.1,
              ops := nc.ops ++ [Op.resetBuffer true, Op.decodeCount count, Op.resetBuffer false] }
  match d.2.1 with
  | some err => some (nc1, mb, some err)
  | none =>
    match readLoop d.2.2 0 mb with
    | none => none
    | some t => some (nc1, t.1, t.2)

/-- Method `Close()`; `closeErr` is what `nc.conn.Close()` returns. -/
def nodeConn.Close {ρ : Type} (closeErr : Option Err) (nc : nodeConn ρ) :
    Option Err × nodeConn ρ :=
  if nc.state = opened then
    (closeErr, { nc with state := closed, socketCloses := nc.socketCloses + 1 })
  else (none, nc)

/-- The connection after `n` successive calls of `Close()`. -/
def closeTimes {ρ : Type} (closeErr : Option Err) : Nat → nodeConn ρ → nodeConn ρ
  | 0, nc => nc
  | n + 1, nc => closeTimes closeErr n (nodeConn.Close closeErr nc).2

end redis

/-! ## The pinger loop of `proxy/executor.go` -/

namespace proxy

/-- Outcome of one `p.ping.Ping()`: `ok` for a nil error, otherwise a
failure; `temporary` tells whether the error is a `net.Error` with
`Temporary()` true. -/
inductive PingResult where
  | ok
  | fail (temporary : Bool)
  deriving DecidableEq, Repr

/-- A call on the hash ring made by the pinger loop. -/
inductive RingOp where
  | AddNode (node : String) (weight : Int)
  | DelNode (node : String)
  deriving DecidableEq, Repr

/-- Type `pinger`, its data fields (Go `int` counters are integers without
bound here). -/
structure pinger where
  node : String
  weight : Int
  failure : Int
  retries : Int
  deriving DecidableEq, Repr

/-- What the loop of `processPing` holds between two iterations: the
pinger, the local `del`, and two histories: the ring calls made so far
(oldest first) and the number of times the ping connection was replaced. -/
structure PingLoop where
  p : pinger
  del : Bool
  ringOps : List RingOp
  reconnects : Nat
  deriving DecidableEq, Repr

/-- The pinger `newDefaultExecutor` builds for the address `addr` with
weight `w = ws[idx]`, at the start of `processPing` (`del := false`). -/
def startPing (addr : String) (w : Int) : PingLoop :=
  { p := { node := addr, weight := w, failure := 0, retries := 0 },
    del := false, ringOps := [], reconnects := 0 }

/-- One iteration of the `for` loop of `processPing`, for the ping outcome
`r`; `autoEject` and `limit` are `e.cc.PingAutoEject` and
`e.cc.PingFailLimit`. -/
def pingTick (autoEject : Bool) (limit : Int) (s : PingLoop) (r : PingResult) : PingLoop :=
  let s1 : PingLoop :=
    match r with
    | PingResult.fail temporary =>
      { s with p := { s.p with failure := s.p.failure + 1, retries := 0 },
               reconnects := if temporary then s.reconnects else s.reconnects + 1 }
    | PingResult.ok =>
      if s.del then
        { s with p := { s.p with failure := 0 },
                 ringOps := s.ringOps ++ [RingOp.AddNode s.p.node s.p.weight],
                 del := false }
      else { s with p := { s.p with failure := 0 } }
  let s2 : PingLoop :=
    if autoEject ∧ s1.p.failure ≥ limit then
      { s1 with ringOps := s1.ringOps ++ [RingOp.DelNode s1.p.node], del := true }
    else s1
  { s2 with p := { s2.p with retries := s2.p.retries + 1 } }

/-- The loop of `processPing` run over a list of ping outcomes. -/
def pingRun (autoEject : Bool) (limit : Int) (s : PingLoop) (rs : List PingResult) : PingLoop :=
  rs.foldl (pingTick autoEject limit) s

/-- Modelled from the spec: whether `node` is on the hash ring (package
`hashkit`) after a history of ring calls, starting from `start`:
`AddNode` puts it on the ring, `DelNode` removes it. -/
def onRing (node : String) (start : Bool) (ops : List RingOp) : Bool :=
  ops.foldl (fun b op =>
    match op with
    | RingOp.AddNode n _ => if n = node then true else b
    | RingOp.DelNode n => if n = node then false else b) start

end proxy

/-! ## The seed set and the slot table of `proto/redis/cluster/cluster.go` -/

namespace cluster

/-- Type `cluster`, the seed map `addrm` (`map[string]struct{}` as the list
of its keys, `none` for the nil map) and whether `once.Do` has started
`fetchNodes`. -/
structure Cluster where
  addrm : Option (List String)
  fetching : Bool
  deriving DecidableEq, Repr

/-- Variable `defaultCluster = &cluster{}`: every field at its zero value,
so `addrm` is the nil map. -/
def defaultCluster : Cluster :=
  { addrm := none, fetching := false }

/-- Method `add(addr)`: `c.addrm[addr] = struct{}{}` panics on the nil map
(`none`); then `once.Do` starts `fetchNodes`. -/
def Cluster.add (c : Cluster) (addr : String) : Option Cluster :=
  match c.addrm with
  | none => none
  | some m => some { addrm := some (if addr ∈ m then m else m ++ [addr]), fetching := true }

/-- Constant `roleMaster`. -/
def roleMaster : String := "master"

/-- Constant `roleSlave`. -/
def roleSlave : String := "slave"

/-- Type `node`. -/
structure node where
  ID : String
  addr : String
  gossipAddr : String
  role : String
  flags : List String
  slaveOf : String
  pingSent : Int
  pongRecv : Int
  configEpoch : Int
  linkState : String
  slots : List Int
  deriving DecidableEq, Repr

/-- The loop `for _, slot := range n.slots { slotN[slot] = m }` of
`fetchNodes`; an index outside `slotN` is a panic. -/
def assignSlots (m : Int) : List Int → List Int → Option (List Int)
  | slotN, [] => some slotN
  | slotN, slot :: rest =>
    if 0 ≤ slot ∧ slot.toNat < slotN.length then
      assignSlots m (slotN.set slot.toNat m) rest
    else none

/-- The loop `for _, n := range nm` of `fetchNodes` over the nodes of the
map in the order of the list (Go leaves the order of a map range open),
with the current `nodes`, `slotN` and `m`. -/
def collectMasters : List node → List String → List Int → Int → Option (List String × List Int)
  | [], nodes, slotN, _ => some (nodes, slotN)
  | n :: rest, nodes, slotN, m =>
    if n.role = roleMaster then
      match assignSlots m slotN n.slots with
      | none => none
      | some slotN1 => collectMasters rest (nodes ++ [n.addr]) slotN1 (m + 1)
    else collectMasters rest nodes slotN m

/-- One refresh of `fetchNodes` after a successful `fetch`: the pair
`(nodes, slotN)` it stores, from the node map `nm`. -/
def buildSnapshot (nm : List node) : Option Snapshot :=
  match collectMasters nm [] (List.replicate slotSize (-1)) 0 with
  | none => none
  | some r => some { nodes := r.1, slotN := r.2 }

end cluster

namespace cluster

/-- Type `nodeConn` of package `cluster`: the cluster name and the
address; `pnc`, the plain Redis connection to that address, is held by the
backends. -/
structure nodeConn where
  cluster : String
  addr : String
  deriving DecidableEq, Repr

/-- Function `NewNodeConn(cluster, addr, ...)` acting on the default
cluster `c`: it builds the connection (the dial of
`redis.NewNodeConn` is taken to return) and calls `defaultCluster.add`. -/
def NewNodeConn (c : Cluster) (clusterName addr : String) : Option (nodeConn × Cluster) :=
  match c.add addr with
  | none => none
  | some c1 => some ({ cluster := clusterName, addr := addr }, c1)

end cluster

namespace cluster

/-- A node record with the given address, role and slots, the other fields
at their zero value. -/
def nodeOf (addr role : String) (slots : List Int) : node :=
  { ID := "", addr := addr, gossipAddr := "", role := role, flags := [], slaveOf := "",
    pingSent := 0, pongRecv := 0, configEpoch := 0, linkState := "", slots := slots }

end cluster

namespace redis

/-- The `encode` calls that writing the messages of a list makes, in
order: one for each message whose request is a `*Command`. -/
def encodeOps (msgs : List Message) : List Op :=
  msgs.filterMap (fun m => m.cmd.map (fun c => Op.encode c.respObj))

/-- The connection after `write` has been called on each message of a list
in turn. -/
def connAfter {ρ : Type} (R : RespConn ρ) : nodeConn ρ → List Message → nodeConn ρ
  | nc, [] => nc
  | nc, m :: rest => connAfter R (nc.write R m).1 rest

/-- Every message of the list is written without error, each on the
connection the writes before it left. -/
def allWritten {ρ : Type} (R : RespConn ρ) : nodeConn ρ → List Message → Prop
  | _, [] => True
  | nc, m :: rest => (nc.write R m).2.2 = none ∧ allWritten R (nc.write R m).1 rest

/-- A message after `ReadBatch` has given it the reply `reply`: the reply
is in the command and the message is marked read. -/
def withReply (m : Message) (reply : String) : Message :=
  ({ m with cmd := m.cmd.map (fun c => { c with reply := some reply }) } : Message).MarkRead

/-- A RESP connection without state that encodes and flushes without
error and decodes the given replies. -/
def fixedReplies (replies : List String) : RespConn Unit :=
  { encode := fun _ _ => ((), none),
    Flush := fun _ => ((), none),
    decodeCount := fun _ _ => ((), none, replies) }

/-- A RESP connection whose state counts the `encode` calls made and whose
`encode` fails with `io 7` from the third call on. -/
def failingThird : RespConn Nat :=
  { encode := fun k _ => (k + 1, if 2 ≤ k then some (Err.io 7) else none),
    Flush := fun k => (k, none),
    decodeCount := fun k _ => (k, some (Err.io 9), []) }

end redis

/-! ## Text operations of the Go standard library used by the cluster files

A `[]byte` that holds protocol text (the `CLUSTER NODES` payload, the data
of a reply) is a `String` here, like a Go `string`. -/

namespace gostd

/-- Go `unicode.IsSpace`. -/
def isSpace (c : Char) : Bool :=
  c = '\t' || c = '\n' || c.toNat = 11 || c.toNat = 12 || c = '\r' || c = ' ' ||
  c.toNat = 0x85 || c.toNat = 0xA0 || c.toNat = 0x1680 ||
  (0x2000 ≤ c.toNat && c.toNat ≤ 0x200a) || c.toNat = 0x2028 || c.toNat = 0x2029 ||
  c.toNat = 0x202f || c.toNat = 0x205f || c.toNat = 0x3000

/-- The fields of a character list, `cur` being the field under way. -/
def fieldsFrom : List Char → List Char → List (List Char)
  | [], cur => if cur.isEmpty then [] else [cur]
  | c :: cs, cur =>
    if isSpace c then
      if cur.isEmpty then fieldsFrom cs [] else cur :: fieldsFrom cs []
    else fieldsFrom cs (cur ++ [c])

/-- Go `strings.Fields(s)` and `bytes.Fields(s)`: the pieces of `s` between
runs of white space, none of them empty. -/
def Fields (s : String) : List String :=
  (fieldsFrom s.data []).map String.mk

/-- Go `strings.TrimSpace(s)` and `bytes.TrimSpace(s)`. -/
def TrimSpace (s : String) : String :=
  String.mk ((s.data.dropWhile isSpace).reverse.dropWhile isSpace).reverse

/-- Go `bytes.HasPrefix(s, prefix)`. -/
def HasPrefix (s pre : String) : Bool :=
  pre.data.isPrefixOf s.data

/-- Whether `sub` occurs in the character list as a contiguous run. -/
def hasInfix (sub : List Char) : List Char → Bool
  | [] => sub.isEmpty
  | c :: cs => sub.isPrefixOf (c :: cs) || hasInfix sub cs

/-- Go `strings.Contains(s, substr)`. -/
def ContainsStr (s sub : String) : Bool :=
  hasInfix sub.data s.data

/-- Pieces of a character list cut at every `"\r\n"`, found left to
right. -/
def splitCRLF : List Char → List (List Char)
  | [] => [[]]
  | [c] => [[c]]
  | c :: d :: rest =>
    if c = '\r' ∧ d = '\n' then [] :: splitCRLF rest
    else
      match splitCRLF (d :: rest) with
      | [] => [[c]]
      | piece :: pieces => (c :: piece) :: pieces

/-- Go `bytes.Split(s, []byte("\r\n"))`. -/
def SplitCRLF (s : String) : List String :=
  (splitCRLF s.data).map String.mk

/-- The part of a character list before the first `sep` and the part after
it, when `sep` occurs. -/
def cutFirst (sep : Char) : List Char → Option (List Char × List Char)
  | [] => none
  | c :: cs =>
    if c = sep then some ([], cs)
    else
      match cutFirst sep cs with
      | none => none
      | some (a, b) => some (c :: a, b)

/-- Go `strings.SplitN(s, sep, 2)` for a separator of one character: `s`
cut at the first `sep`, or `[s]` when there is none. -/
def SplitN2 (s : String) (sep : Char) : List String :=
  match cutFirst sep s.data with
  | none => [s]
  | some (a, b) => [String.mk a, String.mk b]

/-- The value of a list of decimal digits read onto `acc`; `none` when a
character is not a digit. -/
def decValue : List Char → Nat → Option Nat
  | [], acc => some acc
  | c :: cs, acc =>
    if '0' ≤ c ∧ c ≤ '9' then decValue cs (acc * 10 + (c.toNat - 48)) else none

/-- How the digit loop of Go `strconv.ParseUint(s, 10, 64)` ends: with the
value, with a syntax error, or with a range error. -/
inductive Scan where
  | value (n : Nat)
  | syntaxErr
  | rangeErr
  deriving DecidableEq, Repr

/-- The digit loop of Go `strconv.ParseUint(s, 10, 64)` with `n` read so
far: a character that is not a digit is a syntax error; `n >= cutoff`
(`cutoff = maxUint64/10 + 1`) or a sum above `maxUint64` is a range error,
reported at once. -/
def scanUint : List Char → Nat → Scan
  | [], n => Scan.value n
  | c :: cs, n =>
    if '0' ≤ c ∧ c ≤ '9' then
      if 1844674407370955162 ≤ n then Scan.rangeErr
      else if n * 10 + (c.toNat - 48) > 18446744073709551615 then Scan.rangeErr
      else scanUint cs (n * 10 + (c.toNat - 48))
    else Scan.syntaxErr

/-- Go `strconv.Atoi(s)` for a 64-bit `int`: the value and whether the
error is nil. An optional sign, then at least one decimal digit, read as
`strconv.ParseInt(s, 10, 0)` does (the fast path for short strings gives
the same results): a syntax error gives `0`, a range error the nearest
bound. -/
def Atoi (s : String) : Int × Bool :=
  let body : Bool × List Char :=
    match s.data with
    | '-' :: cs => (true, cs)
    | '+' :: cs => (false, cs)
    | cs => (false, cs)
  if body.2.isEmpty then (0, false)
  else
    match scanUint body.2 0 with
    | Scan.syntaxErr => (0, false)
    | Scan.rangeErr =>
      if body.1 then (-9223372036854775808, false) else (9223372036854775807, false)
    | Scan.value n =>
      if body.1 then
        if n > 9223372036854775808 then (-9223372036854775808, false) else (-(n : Int), true)
      else
        if n ≥ 9223372036854775808 then (9223372036854775807, false) else ((n : Int), true)

/-- Value of a 64-bit `int` after wrap-around: the representative of `x`
modulo `2^64` in `[-2^63, 2^63)`. -/
def wrapInt64 (x : Int) : Int :=
  (x + 2 ^ 63) % 2 ^ 64 - 2 ^ 63

/-- The largest 64-bit `int`. -/
def maxInt64 : Int := 9223372036854775807

end gostd

/-! ## `proto/redis/cluster/slot.go` -/

namespace cluster

open gostd

/-- How a run ends: with a result, with a panic, or still under way when
the budget of steps is used up. -/
inductive Run (α : Type) where
  | done (a : α)
  | panic
  | outOfFuel
  deriving DecidableEq, Repr

/-- The errors seen in package `cluster`: the package value
`errNodesRespType`, the error of `conv.Btoi`, and the errors of the
backend connections (told apart by a code). -/
inductive Err where
  | errNodesRespType
  | conv
  | io (code : Nat)
  deriving DecidableEq, Repr

/-- The loop `for i := begin; i <= end; i++ { slots = append(slots, i) }`
of `parseSlotField` with `end = e`; `i++` wraps as a 64-bit `int` does.
`room` is the number of elements the slice can still take: the runtime
grants a `[]int` no more than `maxCap` elements, and an `append` beyond
that panics (`growslice: cap out of range`). -/
def slotLoop (e : Int) : Nat → Int → List Int → Run (List Int)
  | 0, i, slots => if i ≤ e then Run.panic else Run.done slots
  | room + 1, i, slots =>
    if i ≤ e then slotLoop e room (wrapInt64 (i + 1)) (slots ++ [i]) else Run.done slots

/-- Function `parseSlotField(val)`: the slots and `ok`; the nil slice is
the empty list. `maxCap` is the largest capacity the Go runtime grants a
`[]int` where the program runs: at most `maxAlloc` over the element size
(the bound of `makeslice`, a constant of the platform), less when memory
is short. `make([]int, 0, end-begin+1)` panics when the `int`
`end-begin+1` has wrapped to a negative number or is above `maxCap`. -/
def parseSlotField (maxCap : Nat) (val : String) : Run (List Int × Bool) :=
  if val.length = 0 ∨ val = "-" then Run.done ([], false)
  else
    let vsp := SplitN2 val '-'
    let b := Atoi (vsp.getD 0 "")
    if !b.2 then Run.done ([], false)
    else if vsp.length = 1 then Run.done ([b.1], true)
    else
      let e := Atoi (vsp.getD 1 "")
      if !e.2 then Run.done ([], false)
      else if e.1 < b.1 then Run.done ([], false)
      else if wrapInt64 (e.1 - b.1 + 1) < 0 ∨ (maxCap : Int) < wrapInt64 (e.1 - b.1 + 1) then
        Run.panic
      else
        match slotLoop e.1 maxCap b.1 [] with
        | Run.done slots => Run.done (slots, true)
        | Run.panic => Run.panic
        | Run.outOfFuel => Run.outOfFuel

/-- The loop `for _, val := range vals` of `setSlots`, with the `slots`
appended so far. -/
def setSlotsFrom (maxCap : Nat) : List String → List Int → Run (List Int)
  | [], slots => Run.done slots
  | val :: rest, slots =>
    match parseSlotField maxCap val with
    | Run.done r => setSlotsFrom maxCap rest (if r.2 then slots ++ r.1 else slots)
    | Run.panic => Run.panic
    | Run.outOfFuel => Run.outOfFuel

/-- Method `setSlots(vals...)`: the value stored in `n.slots`. -/
def setSlots (maxCap : Nat) (vals : List String) : Run (List Int) :=
  setSlotsFrom maxCap vals []

/-- Method `setAddr(val)`: the values stored in `n.addr` and
`n.gossipAddr`. -/
def setAddr (val : String) : String × String :=
  let trimed := TrimSpace val
  let splited := Split trimed '@'
  let addr := splited.getD 0 ""
  if splited.length = 2 then
    let asp := Split addr ':'
    (addr, asp.getD 0 "" ++ splited.getD 1 "")
  else (addr, "")

/-- Method `setFlags(val)`: the values stored in `n.flags` and `n.role`. -/
def setFlags (val : String) : List String × String :=
  (Split val ',',
    if ContainsStr val roleMaster then roleMaster
    else if ContainsStr val roleSlave then roleSlave
    else "")

/-- Function `parseNode(line)`; the result `none` is the one with
`errNodesRespType`. `maxCap` is handed on to `parseSlotField`. -/
def parseNode (maxCap : Nat) (line : String) : Run (Option node) :=
  if (TrimSpace line).length = 0 then Run.done none
  else
    match Fields line with
    | f0 :: f1 :: f2 :: f3 :: f4 :: f5 :: f6 :: f7 :: more =>
      match setSlots maxCap more with
      | Run.done slots =>
        Run.done (some { ID := TrimSpace f0,
                         addr := (setAddr f1).1,
                         gossipAddr := (setAddr f1).2,
                         flags := (setFlags f2).1,
                         role := (setFlags f2).2,
                         slaveOf := f3,
                         pingSent := (Atoi f4).1,
                         pongRecv := (Atoi f5).1,
                         configEpoch := (Atoi f6).1,
                         linkState := f7,
                         slots := slots })
      | Run.panic => Run.panic
      | Run.outOfFuel => Run.outOfFuel
    | _ => Run.done none

/-- Go map write `nm[n.addr] = n` on the map held as the list of its
values. -/
def putNode : List node → node → List node
  | [], n => [n]
  | x :: rest, n => if x.addr = n.addr then n :: rest else x :: putNode rest n

/-- The loop `for _, line := range lines` of `parseSlots`, with the map
built so far. -/
def parseLines (maxCap : Nat) : List String → List node → Run (List node × Option Err)
  | [], nm => Run.done (nm, none)
  | line :: rest, nm =>
    match parseNode maxCap line with
    | Run.done none => Run.done (nm, some Err.errNodesRespType)
    | Run.done (some n) => parseLines maxCap rest (putNode nm n)
    | Run.panic => Run.panic
    | Run.outOfFuel => Run.outOfFuel

/-- Function `parseSlots(data)`. -/
def parseSlots (maxCap : Nat) (data : String) : Run (List node × Option Err) :=
  parseLines maxCap (SplitCRLF data) []

end cluster

/-! ## `proto/redis/cluster/node_conn.go` -/

namespace cluster

open gostd

/-- Constant `respError = '-'`. -/
def respError : Char := '-'

/-- Variable `movedBytes`. -/
def movedBytes : String := "MOVED"

/-- Variable `askBytes`. -/
def askBytes : String := "ASK"

/-- Modelled from the spec: constant `proto.CacheTypeRedisCluster`, the
cache type `redis_cluster`. -/
def CacheTypeRedisCluster : String := "redis_cluster"

/-- Modelled from the spec: the reply (`resp`) of a Redis request, its type
byte `Type()` and its data `Data()` (`none` for nil); package `redis` is
seen here only through these. -/
structure Reply where
  rTp : Char
  data : Option String
  deriving DecidableEq, Repr

/-- Modelled from the spec: a `redis.Request`, its command body (the RESP
text to send) and its reply. -/
structure Request where
  body : String
  reply : Reply
  deriving DecidableEq, Repr

/-- Modelled from the spec: `redis.GetReq()` hands out a request without
command body and without reply. -/
def GetReq : Request :=
  { body := "", reply := { rTp := Char.ofNat 0, data := none } }

/-- Modelled from the spec: a `proto.Message` as the cluster connection
sees it: an identity, its `Type` and its request, which `ReadBatch`
asserts (unchecked) to be a `*redis.Request`. -/
structure Message where
  id : Nat
  tp : String
  req : Request
  deriving DecidableEq, Repr

/-- Modelled from the spec: `proto.GetMsg()` hands out a blank message. -/
def GetMsg : Message :=
  { id := 0, tp := "", req := GetReq }

/-- The behaviour of the backends: `WriteBatch` and `ReadBatch` of the
plain Redis connection `pnc` to an address, acting on a state `σ` of the
network. `ReadBatch` returns the replies it assigns, in batch order. -/
structure Backends (σ : Type) where
  WriteBatch : σ → String → List Message → σ × Option Err
  ReadBatch : σ → String → List Message → σ × Option Err × List Reply

/-- What a call of the cluster connection acts on: the network, the
default cluster, and the history of the addresses `NewNodeConn` was called
with (oldest first). -/
structure World (σ : Type) where
  net : σ
  dc : Cluster
  dials : List String
  deriving DecidableEq, Repr

/-- What `ReadBatch` leaves: the world, the messages of the batch, the
returned error, and the history of the one-off batches this call wrote
with the address of each (oldest first). -/
structure Result (σ : Type) where
  w : World σ
  msgs : List Message
  err : Option Err
  reissued : List (String × List Message)
  deriving DecidableEq, Repr

/-- The messages after the underlying read has assigned its replies, the
i-th reply to the i-th message. -/
def assign : List Message → List Reply → List Message
  | [], _ => []
  | ms, [] => ms
  | m :: ms, r :: rs => { m with req := { m.req with reply := r } } :: assign ms rs

/-- What lines 52-67 of `ReadBatch` decide for a message: `skip` for the
`continue` before `conv.Btoi`, `badSlot` for the `continue` after a failed
`conv.Btoi` (which leaves its error in `err`), `go` for a redirection, with
the outcome of `bytes.Equal(fields[0], askBytes)` and `string(fields[2])`. -/
inductive Verdict where
  | skip
  | badSlot
  | go (ask : Bool) (addr : String)
  deriving DecidableEq, Repr

/-- Lines 52-67 of `ReadBatch` for the message `m`; `Btoi` stands for
`conv.Btoi`. -/
def examine (Btoi : String → Option Int) (m : Message) : Verdict :=
  let resp := m.req.reply
  match resp.data with
  | none => Verdict.skip
  | some data =>
    if resp.rTp ≠ respError then Verdict.skip
    else if !HasPrefix data movedBytes && !HasPrefix data askBytes then Verdict.skip
    else
      match Fields data with
      | [f0, f1, f2] =>
        match Btoi f1 with
        | none => Verdict.badSlot
        | some _ => Verdict.go (decide (f0 = askBytes)) f2
      | _ => Verdict.skip

/-- Lines 70-76 of `ReadBatch`: the message `askM`. -/
def askM : Message :=
  { GetMsg with tp := CacheTypeRedisCluster, req := GetReq }

/-- Lines 68-79 of `ReadBatch`: the one-off batch `redirect`. -/
def redirectBatch (ask : Bool) (m : Message) : List Message :=
  (if ask then [askM] else []) ++ [m]

/-- The loop `for _, m := range mb.Msgs()` of `ReadBatch` on the connection
of cluster `cn`: `seen` are the messages gone through, then the messages
to go, the current `err`, and the one-off batches written so far. `again`
is `ReadBatch` of the connection `NewNodeConn` returns. -/
def redirectLoop {σ : Type} (B : Backends σ) (Btoi : String → Option Int) (cn : String)
    (again : World σ → String → List Message → Run (Result σ)) :
    World σ → List Message → List Message → Option Err → List (String × List Message) →
      Run (Result σ)
  | w, seen, [], err, re => Run.done ⟨w, seen, err, re⟩
  | w, seen, m :: rest, err, re =>
    match examine Btoi m with
    | Verdict.skip => redirectLoop B Btoi cn again w (seen ++ [m]) rest err re
    | Verdict.badSlot => redirectLoop B Btoi cn again w (seen ++ [m]) rest (some Err.conv) re
    | Verdict.go ask addr =>
      let redirect := redirectBatch ask m
      match NewNodeConn w.dc cn addr with
      | none => Run.panic
      | some nconn =>
        let wr := B.WriteBatch w.net addr redirect
        let w1 : World σ := { net := wr.1, dc := nconn.2, dials := w.dials ++ [addr] }
        let re1 := re ++ [(addr, redirect)]
        match wr.2 with
        | some e => Run.done ⟨w1, seen ++ m :: rest, some e, re1⟩
        | none =>
          match again w1 addr redirect with
          | Run.panic => Run.panic
          | Run.outOfFuel => Run.outOfFuel
          | Run.done r =>
            let m1 := r.msgs.getLast?.getD m
            match r.err with
            | some e => Run.done ⟨r.w, seen ++ m1 :: rest, some e, re1⟩
            | none => redirectLoop B Btoi cn again r.w (seen ++ [m1]) rest none re1

/-- Method `ReadBatch(mb)` of the cluster `nodeConn` for the address `addr`
in cluster `cn`, with a budget for the depth of the calls of `ReadBatch`
on the connections it opens. -/
def ReadBatch {σ : Type} (B : Backends σ) (Btoi : String → Option Int) (cn : String) :
    Nat → World σ → String → List Message → Run (Result σ)
  | 0 => fun _ _ _ => Run.outOfFuel
  | fuel + 1 => fun w addr mb =>
    let rd := B.ReadBatch w.net addr mb
    let msgs := assign mb rd.2.2
    let w1 : World σ := { w with net := rd.1 }
    match rd.2.1 with
    | some e => Run.done ⟨w1, msgs, some e, []⟩
    | none => redirectLoop B Btoi cn (ReadBatch B Btoi cn fuel) w1 [] msgs none []

/-- Whether lines 52-67 of `ReadBatch` lead to a redirection of `m`. -/
def qualifies (Btoi : String → Option Int) (m : Message) : Bool :=
  match examine Btoi m with
  | Verdict.go _ _ => true
  | _ => false

/-- The redirection of `m`, when there is one: the address and the one-off
batch. -/
def planOf (Btoi : String → Option Int) (m : Message) : Option (String × List Message) :=
  match examine Btoi m with
  | Verdict.go ask addr => some (addr, redirectBatch ask m)
  | _ => none

/-- A message with the given identity and error reply text, its command
body being `body`. -/
def msgWith (id : Nat) (body : String) (rTp : Char) (data : String) : Message :=
  { id := id, tp := CacheTypeRedisCluster,
    req := { body := body, reply := { rTp := rTp, data := some data } } }

/-- Backends on which every write fails with `io 1`, and a read gives every
message the reply `-MOVED <id> b:<id>`-like text `replyOf id`. -/
def failingWrites (replyOf : Nat → String) : Backends Unit :=
  { WriteBatch := fun _ _ _ => ((), some (Err.io 1)),
    ReadBatch := fun _ _ mb => ((), none, mb.map (fun m => ⟨'-', some (replyOf m.id)⟩)) }

/-- Backends whose writes succeed and whose reads answer by address:
every message read at `addr` gets the reply `answer addr`. -/
def answering (answer : String → Reply) : Backends Unit :=
  { WriteBatch := fun _ _ _ => ((), none),
    ReadBatch := fun _ addr mb => ((), none, mb.map (fun _ => answer addr)) }

/-- A chain of three nodes: `a` answers MOVED to `b`, `b` answers MOVED to
`c`, and every other node answers `+OK`. -/
def chainAnswer (addr : String) : Reply :=
  if addr = "a:7000" then ⟨'-', some "MOVED 3999 b:7001"⟩
  else if addr = "b:7001" then ⟨'-', some "MOVED 3999 c:7002"⟩
  else ⟨'+', some "OK"⟩

/-- A world whose seed map has been made and is empty. -/
def readyWorld : World Unit :=
  { net := (), dc := { addrm := some [], fetching := false }, dials := [] }

end cluster

namespace cluster

/-- What `ReadBatch` on a batch of the single message `m1` makes of the
outcome of `ReadBatch` on the connection it re-issued `m1` on: the same
world and error, the message as that call left it, and the one one-off
batch written. -/
def hopResult {σ : Type} (m1 : Message) (plan : String × List Message) :
    Run (Result σ) → Run (Result σ)
  | Run.done r => Run.done ⟨r.w, [r.msgs.getLast?.getD m1], r.err, [plan]⟩
  | Run.panic => Run.panic
  | Run.outOfFuel => Run.outOfFuel

/-- Backends that answer every read with `-MOVED 3999 b:7001`. -/
def alwaysMoved : Backends Unit :=
  answering (fun _ => ⟨'-', some "MOVED 3999 b:7001"⟩)

end cluster

/-! ## Vocabulary for the properties of slot parsing and redirection -/

namespace cluster

open gostd

/-- The number a text of decimal digits writes; `none` for the empty text
and for a text with another character. -/
def decimal (cs : List Char) : Option Nat :=
  if cs.isEmpty then none else decValue cs 0

/-- The slot number a text writes: decimal digits after an optional sign,
the value being non-negative and at most the largest `int`. -/
def slotNumber (s : String) : Option Nat :=
  let v : Option Nat :=
    match s.data with
    | '+' :: ds => decimal ds
    | '-' :: ds => if decimal ds = some 0 then some 0 else none
    | ds => decimal ds
  match v with
  | some n => if (n : Int) ≤ maxInt64 then some n else none
  | none => none

/-- The run of slots `x, x+1, ..., y`; empty when `y < x`. -/
def slotRun (x y : Nat) : List Int :=
  (List.range (y + 1 - x)).map (fun (k : Nat) => (x : Int) + (k : Int))

/-- The slots `setSlots` takes from a field: those `parseSlotField`
returns with `ok`, none otherwise. -/
def acceptedSlots (maxCap : Nat) (val : String) : List Int :=
  match parseSlotField maxCap val with
  | Run.done (slots, true) => slots
  | _ => []

/-- Whether lines 52-67 of `ReadBatch` leave the message at the `continue`
after a failed `conv.Btoi`. -/
def slotUnread (Btoi : String → Option Int) (m : Message) : Bool :=
  decide (examine Btoi m = Verdict.badSlot)

end cluster

/-! ## Properties -/

namespace gostd

theorem splitChars_of_not_mem (sep : Char) (a : List Char) (h : sep ∉ a) :
    splitChars sep a = [a] := by
  induction a with
  | nil => rfl
  | cons x xs ih =>
    have hx : x ≠ sep := fun hh => h (by simp [hh])
    have hxs : sep ∉ xs := fun hh => h (by simp [hh])
    simp [splitChars, hx, ih hxs]

theorem splitChars_append_sep (sep : Char) (a b : List Char) (h : sep ∉ a) :
    splitChars sep (a ++ sep :: b) = a :: splitChars sep b := by
  induction a with
  | nil => simp [splitChars]
  | cons x xs ih =>
    have hx : x ≠ sep := fun hh => h (by simp [hh])
    have hxs : sep ∉ xs := fun hh => h (by simp [hh])
    simp [splitChars, hx, ih hxs]

theorem IndexByte_of_not_mem (key : List UInt8) (o : UInt8) (h : o ∉ key) :
    IndexByte key o = -1 := by
  induction key with
  | nil => rfl
  | cons x xs ih =>
    have hx : x ≠ o := fun hh => h (by simp [hh])
    have hxs : o ∉ xs := fun hh => h (by simp [hh])
    simp [IndexByte, hx, ih hxs]

theorem IndexByte_range (key : List UInt8) (o : UInt8) :
    IndexByte key o = -1 ∨ (0 ≤ IndexByte key o ∧ IndexByte key o < key.length) := by
  induction key with
  | nil => exact Or.inl rfl
  | cons x xs ih =>
    by_cases hx : x = o
    · right
      rw [IndexByte, if_pos hx]
      simp only [List.length_cons, Nat.cast_add, Nat.cast_one]
      omega
    · rw [IndexByte, if_neg hx]
      rcases ih with h | ⟨h0, h1⟩
      · left
        simp only [h, if_true]
      · right
        have hne : IndexByte xs o ≠ -1 := by omega
        simp only [if_neg hne, List.length_cons, Nat.cast_add, Nat.cast_one]
        omega

theorem IndexByte_append (pre rest : List UInt8) (o : UInt8) (h : o ∉ pre) :
    IndexByte (pre ++ o :: rest) o = pre.length := by
  induction pre with
  | nil => simp [IndexByte]
  | cons x xs ih =>
    have hx : x ≠ o := fun hh => h (by simp [hh])
    have hxs : o ∉ xs := fun hh => h (by simp [hh])
    have hne : (xs.length : Int) ≠ -1 := by omega
    rw [List.cons_append, IndexByte, if_neg hx]
    simp only [ih hxs, if_neg hne, List.length_cons]
    push_cast
    rfl

theorem slice_after (pre rest : List UInt8) (o : UInt8) :
    slice (pre ++ o :: rest) ((pre.length : Int) + 1) ((pre ++ o :: rest).length : Int) = rest := by
  have h1 : ((pre.length : Int) + 1).toNat = pre.length + 1 := by omega
  have h2 : (((pre ++ o :: rest).length : Nat) : Int).toNat = (pre ++ o :: rest).length := by omega
  unfold slice
  rw [h1, h2]
  have : List.drop (pre.length + 1) (pre ++ o :: rest) = rest := by
    rw [show pre ++ o :: rest = (pre ++ [o]) ++ rest by simp]
    exact List.drop_left' (by simp)
  rw [this]
  apply List.take_of_length_le
  simp; omega

theorem slice_between (pre mid post : List UInt8) (o c : UInt8) :
    slice (pre ++ o :: (mid ++ c :: post)) ((pre.length : Int) + 1)
      ((pre.length : Int) + 1 + mid.length) = mid := by
  have h1 : ((pre.length : Int) + 1).toNat = pre.length + 1 := by omega
  have h2 : ((pre.length : Int) + 1 + mid.length).toNat = pre.length + 1 + mid.length := by omega
  unfold slice
  rw [h1, h2]
  have : List.drop (pre.length + 1) (pre ++ o :: (mid ++ c :: post)) = mid ++ c :: post := by
    rw [show pre ++ o :: (mid ++ c :: post) = (pre ++ [o]) ++ (mid ++ c :: post) by simp]
    exact List.drop_left' (by simp)
  rw [this]
  simp

theorem wrapInt32_of_range (x : Int) (h0 : -2147483648 ≤ x) (h1 : x < 2147483648) :
    wrapInt32 x = x := by
  unfold wrapInt32
  norm_num
  omega

end gostd

namespace proxy

open gostd

/-! ### parseServers -/

theorem Contains_iff (s : String) (c : Char) : Contains s c = true ↔ c ∈ s.data := by
  simp [Contains]

theorem parseServersLoop_step_err (Btoi : String → Option Int) (svr : String)
    (rest : List String) (addrs : List String) (ws : List Int) (ans : List String) (al : Bool) :
    (parseServersLoop Btoi (svr :: rest) addrs ws ans al).err =
        some Error.ErrConfigServerFormat ∨
      ∃ addrs1 ws1 ans1, parseServersLoop Btoi (svr :: rest) addrs ws ans al =
        parseServersLoop Btoi rest addrs1 ws1 ans1 (Contains svr ' ' || al) := by
  simp only [parseServersLoop]
  split
  · exact Or.inl rfl
  · split
    · exact Or.inl rfl
    · split
      · split
        · exact Or.inl rfl
        · split
          · exact Or.inl rfl
          · exact Or.inr ⟨_, _, _, rfl⟩
      · exact Or.inl rfl

theorem parseServersLoop_aliased_bare (Btoi : String → Option Int) (svrs : List String)
    (addrs : List String) (ws : List Int) (ans : List String)
    (h : ∃ s ∈ svrs, Contains s ' ' = false) :
    (parseServersLoop Btoi svrs addrs ws ans true).err = some Error.ErrConfigServerFormat := by
  induction svrs generalizing addrs ws ans with
  | nil => simp at h
  | cons svr rest ih =>
    cases hc : Contains svr ' ' with
    | false => simp [parseServersLoop, hc]
    | true =>
      have hrest : ∃ s ∈ rest, Contains s ' ' = false := by
        obtain ⟨s, hs, hsc⟩ := h
        rcases List.mem_cons.mp hs with rfl | hs
        · rw [hc] at hsc; cases hsc
        · exact ⟨s, hs, hsc⟩
      rcases parseServersLoop_step_err Btoi svr rest addrs ws ans true with herr | ⟨a1, w1, n1, heq⟩
      · exact herr
      · rw [heq, hc]
        exact ih a1 w1 n1 hrest

theorem parseServersLoop_append_err (Btoi : String → Option Int) (pre rest : List String)
    (hrest : ∀ addrs ws ans al,
      (parseServersLoop Btoi rest addrs ws ans al).err = some Error.ErrConfigServerFormat)
    (addrs : List String) (ws : List Int) (ans : List String) (al : Bool) :
    (parseServersLoop Btoi (pre ++ rest) addrs ws ans al).err =
      some Error.ErrConfigServerFormat := by
  induction pre generalizing addrs ws ans al with
  | nil => exact hrest addrs ws ans al
  | cons svr more ih =>
    rcases parseServersLoop_step_err Btoi svr (more ++ rest) addrs ws ans al with
      herr | ⟨a1, w1, n1, heq⟩
    · exact herr
    · rw [List.cons_append, heq]
      exact ih a1 w1 n1 _

/-- The guarded order: a list in which a bare entry (no blank) comes
anywhere after an entry with a blank is rejected with
`ErrConfigServerFormat`. -/
theorem parseServers_aliased_then_bare (Btoi : String → Option Int)
    (pre mid post : List String) (a b : String)
    (ha : Contains a ' ' = true) (hb : Contains b ' ' = false) :
    (parseServers Btoi (pre ++ a :: (mid ++ b :: post))).err =
      some Error.ErrConfigServerFormat := by
  unfold parseServers
  apply parseServersLoop_append_err
  intro addrs ws ans al
  rcases parseServersLoop_step_err Btoi a (mid ++ b :: post) addrs ws ans al with
    herr | ⟨a1, w1, n1, heq⟩
  · exact herr
  · rw [heq, ha, Bool.true_or]
    exact parseServersLoop_aliased_bare Btoi _ a1 w1 n1 ⟨b, by simp, hb⟩

/-- C1: on the mixed list `["127.0.0.1:7001:2", "127.0.0.1:7000:1 abc"]`
(a bare entry before an aliased one) `parseServers` returns no error:
two addresses and two weights, one alias name and `alias = true`; the
alias loop of `newDefaultExecutor` then maps `abc` to the address of the
bare entry. -/
theorem parseServers_bare_then_aliased :
    parseServers decimalBtoi ["127.0.0.1:7001:2", "127.0.0.1:7000:1 abc"] =
        ⟨["127.0.0.1:7001", "127.0.0.1:7000"], [2, 1], ["abc"], true, none⟩ ∧
      (fillAliasMap ["abc"] 0 ["127.0.0.1:7001", "127.0.0.1:7000"] (fun _ => none)).map
        (fun m => m "abc") = some (some "127.0.0.1:7001") := by
  decide

theorem Entry.bare_data (x : Entry) :
    x.bare.data = x.host.data ++ ':' :: (x.port.data ++ ':' :: x.weight.data) := by
  simp [Entry.bare, String.data_append]

theorem Entry.named_data (x : Entry) :
    x.named.data = x.bare.data ++ ' ' :: x.name.data := by
  simp [Entry.named, String.data_append]

theorem Entry.split_bare (Btoi : String → Option Int) (x : Entry) (h : x.WellFormed Btoi) :
    Split x.bare ':' = [x.host, x.port, x.weight] := by
  obtain ⟨h1, _, h3, _, h5, _⟩ := h
  simp [Split, Entry.bare_data, splitChars_append_sep _ _ _ h1, splitChars_append_sep _ _ _ h3,
    splitChars_of_not_mem _ _ h5]

theorem Entry.bare_no_blank (Btoi : String → Option Int) (x : Entry) (h : x.WellFormed Btoi) :
    ' ' ∉ x.bare.data := by
  obtain ⟨_, h2, _, h4, _, h6, _⟩ := h
  simp [Entry.bare_data, h2, h4, h6]

theorem Entry.split_named (Btoi : String → Option Int) (x : Entry) (h : x.WellFormed Btoi) :
    Split x.named ' ' = [x.bare, x.name] := by
  have hb := Entry.bare_no_blank Btoi x h
  obtain ⟨_, _, _, _, _, _, h7, _⟩ := h
  simp [Split, Entry.named_data, splitChars_append_sep _ _ _ hb, splitChars_of_not_mem _ _ h7]

theorem Entry.join (Btoi : String → Option Int) (x : Entry) (h : x.WellFormed Btoi) :
    JoinHostPort x.host x.port = x.addr := by
  obtain ⟨h1, _⟩ := h
  have : Contains x.host ':' = false := by
    rw [← Bool.not_eq_true, Contains_iff]; exact h1
  simp [JoinHostPort, this, Entry.addr]

theorem parseServersLoop_bare (Btoi : String → Option Int) (es : List Entry)
    (h : ∀ x ∈ es, x.WellFormed Btoi) (addrs : List String) (ws : List Int) (ans : List String) :
    parseServersLoop Btoi (es.map Entry.bare) addrs ws ans false =
      ⟨addrs ++ es.map Entry.addr, ws ++ es.map Entry.w, ans, false, none⟩ := by
  induction es generalizing addrs ws with
  | nil => simp [parseServersLoop]
  | cons x xs ih =>
    have hx := h x (by simp)
    have hxs : ∀ y ∈ xs, y.WellFormed Btoi := fun y hy => h y (by simp [hy])
    have hc : Contains x.bare ' ' = false := by
      rw [← Bool.not_eq_true, Contains_iff]; exact Entry.bare_no_blank Btoi x hx
    have hw : ¬ x.w ≤ 0 := by have := hx.2.2.2.2.2.2.2.2; omega
    simp only [List.map_cons, parseServersLoop, hc]
    simp [ih hxs, Entry.split_bare Btoi x hx, Entry.join Btoi x hx, hx.2.2.2.2.2.2.2.1, hw]

theorem parseServersLoop_named (Btoi : String → Option Int) (es : List Entry)
    (h : ∀ x ∈ es, x.WellFormed Btoi) (addrs : List String) (ws : List Int) (ans : List String)
    (al : Bool) :
    parseServersLoop Btoi (es.map Entry.named) addrs ws ans al =
      ⟨addrs ++ es.map Entry.addr, ws ++ es.map Entry.w, ans ++ es.map Entry.name,
        al || !es.isEmpty, none⟩ := by
  induction es generalizing addrs ws ans al with
  | nil => simp [parseServersLoop]
  | cons x xs ih =>
    have hx := h x (by simp)
    have hxs : ∀ y ∈ xs, y.WellFormed Btoi := fun y hy => h y (by simp [hy])
    have hc : Contains x.named ' ' = true := by
      rw [Contains_iff, Entry.named_data]; simp
    have hw : ¬ x.w ≤ 0 := by have := hx.2.2.2.2.2.2.2.2; omega
    simp only [List.map_cons, parseServersLoop, hc]
    simp [ih hxs, Entry.split_named Btoi x hx, Entry.split_bare Btoi x hx, Entry.join Btoi x hx,
      hx.2.2.2.2.2.2.2.1, hw]

/-- C2: for a list of well-formed entries, `parseServers` on their bare
forms returns no error, the addresses `host:port` and the weights in input
order, no alias names and `alias = false`; on their aliased forms (a
non-empty list) it returns no error, the same addresses and weights, the
alias names in input order and `alias = true`. -/
theorem parseServers_well_formed (Btoi : String → Option Int) (es : List Entry)
    (h : ∀ x ∈ es, x.WellFormed Btoi) :
    parseServers Btoi (es.map Entry.bare) =
        ⟨es.map Entry.addr, es.map Entry.w, [], false, none⟩ ∧
      (es ≠ [] → parseServers Btoi (es.map Entry.named) =
        ⟨es.map Entry.addr, es.map Entry.w, es.map Entry.name, true, none⟩) := by
  constructor
  · simpa [parseServers] using parseServersLoop_bare Btoi es h [] [] []
  · intro hne
    have := parseServersLoop_named Btoi es h [] [] [] false
    cases es with
    | nil => exact absurd rfl hne
    | cons x xs => simpa [parseServers] using this

theorem parseServers_well_formed_witness :
    parseServers decimalBtoi ["10.0.0.1:11211:1", "cache-b:11212:20"] =
        ⟨["10.0.0.1:11211", "cache-b:11212"], [1, 20], [], false, none⟩ ∧
      parseServers decimalBtoi ["10.0.0.1:11211:1 east", "cache-b:11212:20 west"] =
        ⟨["10.0.0.1:11211", "cache-b:11212"], [1, 20], ["east", "west"], true, none⟩ := by
  have h := parseServers_well_formed decimalBtoi
    [⟨"10.0.0.1", "11211", "1", "east", 1⟩, ⟨"cache-b", "11212", "20", "west", 20⟩]
    (by decide)
  exact ⟨h.1, h.2 (by decide)⟩

/-! ### trimHashTag and getAddr -/

/-- C3: when the key is `pre ++ o :: mid ++ c :: post` with no `o` in `pre`
(so this `o` is the first) and no `c` in `mid` (so this `c` is the first
after it), `trimHashTag` with the tag `(o, c)` returns exactly `mid`, the
bytes strictly between them; in particular whenever `mid` is non-empty. -/
theorem trimHashTag_between (o c : UInt8) (pre mid post : List UInt8)
    (ho : o ∉ pre) (hc : c ∉ mid) :
    trimHashTag [o, c] (pre ++ o :: (mid ++ c :: post)) = mid := by
  have hb : IndexByte (pre ++ o :: (mid ++ c :: post)) o = pre.length :=
    IndexByte_append pre _ o ho
  have hne : ((pre.length : Nat) : Int) ≠ -1 := by omega
  have hne2 : ((mid.length : Nat) : Int) ≠ -1 := by omega
  simp only [trimHashTag, hb, if_neg hne, slice_after, IndexByte_append mid post c hc,
    if_neg hne2, slice_between]

theorem trimHashTag_between_witness :
    trimHashTag (bytesOf "\x7b\x7d") (bytesOf "user:\x7b42\x7d:name") = bytesOf "42" :=
  trimHashTag_between 123 125 (bytesOf "user:") (bytesOf "42") (bytesOf ":name")
    (by decide) (by decide)

/-- C4, refuted as stated: with the tag `{}` the key `foo{}bar`, whose
content between the tag bytes is empty, is trimmed to the empty byte
string, not returned whole. -/
theorem trimHashTag_empty_content :
    trimHashTag (bytesOf "\x7b\x7d") (bytesOf "foo\x7b\x7dbar") = [] ∧
      trimHashTag (bytesOf "\x7b\x7d") (bytesOf "foo\x7b\x7dbar") ≠ bytesOf "foo\x7b\x7dbar" := by
  decide

/-- C4, amended: `trimHashTag` returns the whole key when the hash tag is
not two bytes long, when the first tag byte does not occur in the key, and
when the second tag byte does not occur after the first occurrence of the
first; when the second tag byte directly follows the first occurrence of
the first, it returns the empty byte string. -/
theorem trimHashTag_whole_key (tag key : List UInt8) :
    (tag.length ≠ 2 → trimHashTag tag key = key) ∧
    (∀ o c, tag = [o, c] → o ∉ key → trimHashTag tag key = key) ∧
    (∀ o c pre rest, tag = [o, c] → key = pre ++ o :: rest → o ∉ pre → c ∉ rest →
      trimHashTag tag key = key) ∧
    (∀ o c pre post, tag = [o, c] → key = pre ++ o :: c :: post → o ∉ pre →
      trimHashTag tag key = []) := by
  refine ⟨?_, ?_, ?_, ?_⟩
  · intro h
    match tag, h with
    | [], _ => rfl
    | [_], _ => rfl
    | [_, _], h => exact absurd rfl h
    | _ :: _ :: _ :: _, _ => rfl
  · intro o c ht ho
    subst ht
    simp [trimHashTag, IndexByte_of_not_mem key o ho]
  · intro o c pre rest ht hk ho hc
    subst ht hk
    have hne : ((pre.length : Nat) : Int) ≠ -1 := by omega
    simp only [trimHashTag, IndexByte_append pre rest o ho, if_neg hne, slice_after,
      IndexByte_of_not_mem rest c hc, if_true]
  · intro o c pre post ht hk ho
    subst ht hk
    simpa using trimHashTag_between o c pre [] post ho (by simp)

theorem trimHashTag_whole_key_witness :
    trimHashTag (bytesOf "\x7b") (bytesOf "a\x7bb\x7dc") = bytesOf "a\x7bb\x7dc" ∧
    trimHashTag (bytesOf "\x7b\x7d") (bytesOf "plain") = bytesOf "plain" ∧
    trimHashTag (bytesOf "\x7b\x7d") (bytesOf "a\x7d\x7bbc") = bytesOf "a\x7d\x7bbc" ∧
    trimHashTag (bytesOf "\x7b\x7d") (bytesOf "foo\x7b\x7dbar") = [] :=
  ⟨(trimHashTag_whole_key (bytesOf "\x7b") (bytesOf "a\x7bb\x7dc")).1 (by decide),
   (trimHashTag_whole_key (bytesOf "\x7b\x7d") (bytesOf "plain")).2.1 123 125 (by decide)
     (by decide),
   (trimHashTag_whole_key (bytesOf "\x7b\x7d") (bytesOf "a\x7d\x7bbc")).2.2.1 123 125
     (bytesOf "a\x7d") (bytesOf "bc") (by decide) (by decide) (by decide) (by decide),
   (trimHashTag_whole_key (bytesOf "\x7b\x7d") (bytesOf "foo\x7b\x7dbar")).2.2.2 123 125
     (bytesOf "foo") (bytesOf "bar") (by decide) (by decide) (by decide)⟩

/-- C5: `getAddr` is the ring lookup of the trimmed key when no alias is
configured, and the alias-map entry of that node when aliases are
configured; `ok` is false when the ring has no node or the alias is
unknown; keys with the same trimmed content get the same result. -/
theorem getAddr_spec (e : defaultExecutor) (k : List UInt8) :
    (e.aliased = false → getAddr e k = e.ring (trimHashTag e.hashTag k)) ∧
    (e.aliased = true → (e.ring (trimHashTag e.hashTag k)).2 = true →
      getAddr e k = mapLookup e.aliasMap (e.ring (trimHashTag e.hashTag k)).1) ∧
    (e.aliased = true → (e.ring (trimHashTag e.hashTag k)).2 = true →
      ∀ a, e.aliasMap (e.ring (trimHashTag e.hashTag k)).1 = some a → getAddr e k = (a, true)) ∧
    (e.aliased = true → e.aliasMap (e.ring (trimHashTag e.hashTag k)).1 = none →
      (getAddr e k).2 = false) ∧
    ((e.ring (trimHashTag e.hashTag k)).2 = false → (getAddr e k).2 = false) ∧
    (∀ k2, trimHashTag e.hashTag k2 = trimHashTag e.hashTag k → getAddr e k2 = getAddr e k) := by
  refine ⟨?_, ?_, ?_, ?_, ?_, ?_⟩
  · intro h
    simp [getAddr, h]
  · intro h hok
    simp [getAddr, h, hok]
  · intro h hok a ha
    simp [getAddr, h, hok, mapLookup, ha]
  · intro h hn
    cases hok : (e.ring (trimHashTag e.hashTag k)).2 <;> simp [getAddr, h, hok, mapLookup, hn]
  · intro hok
    simp [getAddr, hok]
  · intro k2 hk
    simp [getAddr, hk]

theorem getAddr_spec_witness :
    getAddr twoAliasExecutor (bytesOf "x\x7bab\x7d") = ("10.0.0.1:6379", true) ∧
    getAddr twoAliasExecutor (bytesOf "y\x7bab\x7dz") =
      getAddr twoAliasExecutor (bytesOf "x\x7bab\x7d") ∧
    getAddr (oneNodeExecutor ⟨0, 1, [[]]⟩) (bytesOf "k") = ("10.0.0.1:6379", true) ∧
    (getAddr (emptyRingExecutor 0) (bytesOf "k")).2 = false :=
  ⟨(getAddr_spec twoAliasExecutor (bytesOf "x\x7bab\x7d")).2.2.1 (by decide) (by decide)
      "10.0.0.1:6379" (by decide),
   (getAddr_spec twoAliasExecutor (bytesOf "x\x7bab\x7d")).2.2.2.2.2 (bytesOf "y\x7bab\x7dz")
      (by decide),
   (getAddr_spec (oneNodeExecutor ⟨0, 1, [[]]⟩) (bytesOf "k")).1 (by decide),
   (getAddr_spec (emptyRingExecutor 0) (bytesOf "k")).2.2.2.2.1 (by decide)⟩

/-! ### Execute without a node, and Close -/

theorem placeSubs_snd (e : defaultExecutor) (subs : List Msg) (mba : MsgBatchAllocator) :
    (placeSubs e mba subs).2 = subs.all (fun subm => (getAddr e subm.key).2) := by
  induction subs generalizing mba with
  | nil => rfl
  | cons s rest ih =>
    cases h : (getAddr e s.key).2 <;> simp [placeSubs, h, ih]

theorem placeMsgs_no_node (e : defaultExecutor) (msgs : List Message) (mba : MsgBatchAllocator)
    (hbad : ∃ m ∈ msgs, noNode e m = true) :
    ∃ pre m post, msgs = pre ++ m :: post ∧ (∀ p ∈ pre, noNode e p = false) ∧
      noNode e m = true ∧
      (placeMsgs e mba msgs).1 = pre ++ m.WithError Error.ErrExecutorHashNoNode :: post ∧
      (placeMsgs e mba msgs).2.2 = false := by
  induction msgs generalizing mba with
  | nil => simp at hbad
  | cons m rest ih =>
    cases hm : noNode e m with
    | true =>
      refine ⟨[], m, rest, rfl, by simp, hm, ?_, ?_⟩
      · cases hb : m.IsBatch
        · simp [noNode, hb] at hm
          simp [placeMsgs, hb, hm]
        · have hs : (placeSubs e mba m.Batch).2 = false := by
            rw [placeSubs_snd]
            simp only [noNode, hb, if_true] at hm
            simpa [List.all_eq_not_any_not] using hm
          simp [placeMsgs, hb, hs]
      · cases hb : m.IsBatch
        · simp [noNode, hb] at hm
          simp [placeMsgs, hb, hm]
        · have hs : (placeSubs e mba m.Batch).2 = false := by
            rw [placeSubs_snd]
            simp only [noNode, hb, if_true] at hm
            simpa [List.all_eq_not_any_not] using hm
          simp [placeMsgs, hb, hs]
    | false =>
      have hrest : ∃ x ∈ rest, noNode e x = true := by
        obtain ⟨x, hx, hxb⟩ := hbad
        rcases List.mem_cons.mp hx with rfl | hx
        · rw [hm] at hxb; cases hxb
        · exact ⟨x, hx, hxb⟩
      cases hb : m.IsBatch
      · have hk : (getAddr e m.req.key).2 = true := by
          simpa [noNode, hb] using hm
        obtain ⟨pre, x, post, h1, h2, h3, h4, h5⟩ := ih (AddMsg mba (getAddr e m.req.key).1 m.req) hrest
        refine ⟨m :: pre, x, post, by simp [h1], ?_, h3, ?_, ?_⟩
        · intro p hp
          rcases List.mem_cons.mp hp with rfl | hp
          · exact hm
          · exact h2 p hp
        · simp [placeMsgs, hb, hk, h4]
        · simp [placeMsgs, hb, hk, h5]
      · have hs : (placeSubs e mba m.Batch).2 = true := by
          rw [placeSubs_snd]
          simp only [noNode, hb, if_true] at hm
          simpa [List.all_eq_not_any_not] using hm
        obtain ⟨pre, x, post, h1, h2, h3, h4, h5⟩ := ih (placeSubs e mba m.Batch).1 hrest
        refine ⟨m :: pre, x, post, by simp [h1], ?_, h3, ?_, ?_⟩
        · intro p hp
          rcases List.mem_cons.mp hp with rfl | hp
          · exact hm
          · exact h2 p hp
        · simp [placeMsgs, hb, hs, h4]
        · simp [placeMsgs, hb, hs, h5]

/-- C6, refuted as stated: on a closed executor a message whose key finds
no node makes `Execute` return `ErrExecutorClosed` and stay unmarked; on an
open executor with two such messages only the first is marked, the second
carries no error. -/
theorem Execute_no_node_refuted :
    (Execute (emptyRingExecutor executorStateClosed) [] [⟨⟨1, bytesOf "k"⟩, none, none⟩]).map
        (fun o => (o.err, o.msgs)) =
      some (some Error.ErrExecutorClosed, [⟨⟨1, bytesOf "k"⟩, none, none⟩]) ∧
    (Execute (emptyRingExecutor executorStateOpening) []
        [⟨⟨1, bytesOf "k"⟩, none, none⟩, ⟨⟨2, bytesOf "j"⟩, none, none⟩]).map
        (fun o => (o.err, o.msgs)) =
      some (some Error.ErrExecutorHashNoNode,
        [⟨⟨1, bytesOf "k"⟩, none, some Error.ErrExecutorHashNoNode⟩,
         ⟨⟨2, bytesOf "j"⟩, none, none⟩]) := by
  decide

/-- C6, amended: on an executor that is not closed, when some message of
the list holds a key for which `getAddr` finds no node, `Execute` returns
`ErrExecutorHashNoNode`, the first such top-level message carries
`ErrExecutorHashNoNode`, all other messages are as submitted, and the
executor is unchanged: no batch has been pushed onto any queue. -/
theorem Execute_hash_no_node (e : defaultExecutor) (mba : MsgBatchAllocator)
    (msgs : List Message) (hopen : e.state ≠ executorStateClosed)
    (hbad : ∃ m ∈ msgs, noNode e m = true) :
    ∃ pre m post mba1, msgs = pre ++ m :: post ∧ (∀ p ∈ pre, noNode e p = false) ∧
      noNode e m = true ∧
      Execute e mba msgs = some ⟨some Error.ErrExecutorHashNoNode,
        pre ++ m.WithError Error.ErrExecutorHashNoNode :: post, mba1, e⟩ := by
  obtain ⟨pre, m, post, h1, h2, h3, h4, h5⟩ := placeMsgs_no_node e msgs mba hbad
  refine ⟨pre, m, post, (placeMsgs e mba msgs).2.1, h1, h2, h3, ?_⟩
  simp [Execute, hopen, h5, h4]

theorem Execute_hash_no_node_witness :
    ∃ pre m post mba1,
      [(⟨⟨1, bytesOf "k"⟩, none, none⟩ : Message), ⟨⟨2, bytesOf "j"⟩, some [⟨3, bytesOf "a"⟩], none⟩]
        = pre ++ m :: post ∧
      (∀ p ∈ pre, noNode (emptyRingExecutor executorStateOpening) p = false) ∧
      noNode (emptyRingExecutor executorStateOpening) m = true ∧
      Execute (emptyRingExecutor executorStateOpening) []
          [⟨⟨1, bytesOf "k"⟩, none, none⟩, ⟨⟨2, bytesOf "j"⟩, some [⟨3, bytesOf "a"⟩], none⟩] =
        some ⟨some Error.ErrExecutorHashNoNode,
          pre ++ m.WithError Error.ErrExecutorHashNoNode :: post, mba1,
          emptyRingExecutor executorStateOpening⟩ :=
  Execute_hash_no_node (emptyRingExecutor executorStateOpening) []
    [⟨⟨1, bytesOf "k"⟩, none, none⟩, ⟨⟨2, bytesOf "j"⟩, some [⟨3, bytesOf "a"⟩], none⟩]
    (by decide) ⟨⟨⟨1, bytesOf "k"⟩, none, none⟩, by simp, by decide⟩

theorem callsFrom_closed (c : defaultExecutor) (hc : c.state = executorStateClosed)
    (calls : List (MsgBatchAllocator × List Message)) :
    callsFrom c calls =
      calls.map (fun call => some ⟨some Error.ErrExecutorClosed, call.2, call.1, c⟩) := by
  induction calls with
  | nil => rfl
  | cons call rest ih =>
    obtain ⟨mba, msgs⟩ := call
    simp [callsFrom, Execute, hc, ih]

theorem Close_of_closed (c : defaultExecutor) (hc : c.state = executorStateClosed) :
    Close c = (none, c) := by
  simp [Close, hc, executorStateOpening, executorStateClosed]

/-- C7: on an executor whose state is open or closed, `Close` returns nil
and leaves the state closed; a second `Close` returns nil and changes
nothing; every `Execute` call after it, in any sequence of calls, returns
`ErrExecutorClosed` with the messages, the allocator and the executor
(hence every backend queue) unchanged. -/
theorem Close_then_Execute (e : defaultExecutor)
    (h : e.state = executorStateOpening ∨ e.state = executorStateClosed) :
    (Close e).1 = none ∧ (Close e).2.state = executorStateClosed ∧
    Close (Close e).2 = (none, (Close e).2) ∧
    (∀ mba msgs, Execute (Close e).2 mba msgs =
      some ⟨some Error.ErrExecutorClosed, msgs, mba, (Close e).2⟩) ∧
    (∀ calls, callsFrom (Close e).2 calls =
      calls.map (fun call => some ⟨some Error.ErrExecutorClosed, call.2, call.1, (Close e).2⟩)) := by
  have hst : (Close e).2.state = executorStateClosed := by
    rcases h with h | h <;> simp [Close, h, executorStateOpening, executorStateClosed]
  have hfst : (Close e).1 = none := by
    unfold Close; split <;> rfl
  refine ⟨hfst, hst, ?_, ?_, ?_⟩
  · exact Close_of_closed _ hst
  · intro mba msgs
    simp [Execute, hst]
  · intro calls
    exact callsFrom_closed _ hst calls

theorem Close_then_Execute_witness :
    (Close twoAliasExecutor).1 = none ∧
    (Close twoAliasExecutor).2.state = executorStateClosed ∧
    Close (Close twoAliasExecutor).2 = (none, (Close twoAliasExecutor).2) ∧
    (∀ mba msgs, Execute (Close twoAliasExecutor).2 mba msgs =
      some ⟨some Error.ErrExecutorClosed, msgs, mba, (Close twoAliasExecutor).2⟩) ∧
    (∀ calls, callsFrom (Close twoAliasExecutor).2 calls =
      calls.map (fun call =>
        some ⟨some Error.ErrExecutorClosed, call.2, call.1, (Close twoAliasExecutor).2⟩)) :=
  Close_then_Execute twoAliasExecutor (Or.inl rfl)

/-! ### The round-robin push -/

theorem push_in_range (c : batchChan) (m : MsgBatch) (h0 : 0 ≤ c.idx)
    (h1 : c.idx + 1 < 2147483648) (hN : 0 < c.cnt) (hlen : (c.chs.length : Int) = c.cnt) :
    pushIndex c = (c.idx + 1) % c.cnt ∧ 0 ≤ pushIndex c ∧ pushIndex c < c.cnt ∧
      c.push m = some { c with idx := c.idx + 1,
                               chs := c.chs.modify (fun q => q ++ [m]) (pushIndex c).toNat } := by
  have hw : wrapInt32 (c.idx + 1) = c.idx + 1 := wrapInt32_of_range _ (by omega) h1
  have hm : Int.tmod (c.idx + 1) c.cnt = (c.idx + 1) % c.cnt :=
    Int.tmod_eq_emod (by omega) (by omega)
  have hnn : 0 ≤ (c.idx + 1) % c.cnt := Int.emod_nonneg _ (by omega)
  have hlt : (c.idx + 1) % c.cnt < c.cnt := Int.emod_lt_of_pos _ hN
  have hpi : pushIndex c = (c.idx + 1) % c.cnt := by
    simp only [pushIndex, hw, hm]
  refine ⟨hpi, by rw [hpi]; exact hnn, by rw [hpi]; exact hlt, ?_⟩
  have hne : c.cnt ≠ 0 := by omega
  have hin : ((c.idx + 1) % c.cnt).toNat < c.chs.length := by omega
  simp only [batchChan.push, hw, hm, if_neg hne, hpi]
  rw [if_pos ⟨hnn, hin⟩]

theorem pushAll_in_range (ms : List MsgBatch) (c : batchChan) (h0 : 0 ≤ c.idx)
    (h1 : c.idx + ms.length < 2147483648) (hN : 0 < c.cnt)
    (hlen : (c.chs.length : Int) = c.cnt) :
    ∃ c1, pushAll c ms = some c1 ∧ c1.idx = c.idx + ms.length ∧ c1.cnt = c.cnt ∧
      (c1.chs.length : Int) = c1.cnt := by
  induction ms generalizing c with
  | nil => exact ⟨c, rfl, by simp, rfl, hlen⟩
  | cons m rest ih =>
    simp only [List.length_cons, Nat.cast_add, Nat.cast_one] at h1
    obtain ⟨_, _, _, hp⟩ := push_in_range c m h0 (by omega) hN hlen
    obtain ⟨c1, e1, e2, e3, e4⟩ := ih
      { c with idx := c.idx + 1,
               chs := c.chs.modify (fun q => q ++ [m]) (pushIndex c).toNat }
      (by simp only; omega) (by simp only; omega) hN (by simpa using hlen)
    refine ⟨c1, ?_, ?_, e3, e4⟩
    · simp only [pushAll, hp, e1]
    · simp only [e2, List.length_cons, Nat.cast_add, Nat.cast_one]; omega

/-- C9: a fresh `batchChan` with 3 queues takes `2^31 - 1` pushes, which
leave the counter at `2147483647`; on the next push the `int32` counter
wraps to `-2147483648`, Go's `%` gives the index `-2`, outside `[0, 3)`,
and the push panics. -/
theorem push_counter_wrap :
    newBatchChan 3 = some ⟨0, 3, [[], [], []]⟩ ∧
    ∃ c, pushAll ⟨0, 3, [[], [], []]⟩ (List.replicate 2147483647 [⟨0, bytesOf "k"⟩]) = some c ∧
      c.idx = 2147483647 ∧ c.cnt = 3 ∧ c.chs.length = 3 ∧
      wrapInt32 (c.idx + 1) = -2147483648 ∧ pushIndex c = -2 ∧
      c.push [⟨0, bytesOf "k"⟩] = none := by
  refine ⟨by decide, ?_⟩
  obtain ⟨c, e1, e2, e3, e4⟩ := pushAll_in_range (List.replicate 2147483647 [⟨0, bytesOf "k"⟩])
    ⟨0, 3, [[], [], []]⟩ (by decide) (by rw [List.length_replicate]; decide) (by decide) (by decide)
  rw [List.length_replicate] at e2
  have hidx : c.idx = 2147483647 := by simpa using e2
  have hcnt : c.cnt = 3 := e3
  have hw : wrapInt32 (c.idx + 1) = -2147483648 := by rw [hidx]; decide
  have hp : pushIndex c = -2 := by
    simp only [pushIndex, hw, hcnt]; decide
  refine ⟨c, e1, hidx, hcnt, ?_, hw, hp, ?_⟩
  · rw [hcnt] at e4; exact_mod_cast e4
  · have hj : Int.tmod (-2147483648) 3 = -2 := by decide
    simp [batchChan.push, hw, hcnt, hj]

/-! ### Dispatch -/

theorem batchAt_AddMsg (mba : MsgBatchAllocator) (b : String) (x : Msg) (a : String) :
    batchAt (AddMsg mba b x) a = if a = b then batchAt mba a ++ [x] else batchAt mba a := by
  induction mba with
  | nil =>
    by_cases h : a = b
    · simp [AddMsg, batchAt, h]
    · have h2 : ¬ b = a := fun hh => h hh.symm
      simp [AddMsg, batchAt, h, h2]
  | cons p rest ih =>
    obtain ⟨k, mb⟩ := p
    by_cases hk : k = b
    · by_cases h : a = b
      · simp [AddMsg, batchAt, hk, h]
      · have h2 : ¬ b = a := fun hh => h hh.symm
        simp [AddMsg, batchAt, hk, h, h2]
    · by_cases hka : k = a
      · have h : ¬ a = b := fun hh => hk (hka.trans hh)
        simp [AddMsg, batchAt, hk, hka, h]
      · simp [AddMsg, batchAt, hk, hka, ih]

theorem keys_AddMsg (mba : MsgBatchAllocator) (b : String) (x : Msg) :
    (AddMsg mba b x).map Prod.fst =
      if b ∈ mba.map Prod.fst then mba.map Prod.fst else mba.map Prod.fst ++ [b] := by
  induction mba with
  | nil => simp [AddMsg]
  | cons p rest ih =>
    obtain ⟨k, mb⟩ := p
    by_cases hk : k = b
    · simp [AddMsg, hk]
    · have hk2 : ¬ b = k := fun hh => hk hh.symm
      simp only [AddMsg, hk, if_false, List.map_cons, ih, List.mem_cons, hk2, false_or]
      split <;> simp

theorem nodup_AddMsg (mba : MsgBatchAllocator) (b : String) (x : Msg)
    (h : (mba.map Prod.fst).Nodup) : ((AddMsg mba b x).map Prod.fst).Nodup := by
  rw [keys_AddMsg]
  split
  · exact h
  · rename_i hb
    exact List.Nodup.append h (List.nodup_singleton b) (by simpa using hb)

theorem batchAt_of_not_mem (mba : MsgBatchAllocator) (a : String)
    (h : a ∉ mba.map Prod.fst) : batchAt mba a = [] := by
  induction mba with
  | nil => rfl
  | cons p rest ih =>
    obtain ⟨k, mb⟩ := p
    have hk : ¬ k = a := fun hh => h (by simp [hh])
    have hr : a ∉ rest.map Prod.fst := fun hh => h (by simp at hh ⊢; exact Or.inr hh)
    simp [batchAt, hk, ih hr]

theorem placeSubs_all (e : defaultExecutor) (subs : List Msg) (mba : MsgBatchAllocator)
    (hok : ∀ s ∈ subs, (getAddr e s.key).2 = true) (hnd : (mba.map Prod.fst).Nodup) :
    (placeSubs e mba subs).2 = true ∧
    ((placeSubs e mba subs).1.map Prod.fst).Nodup ∧
    ∀ a, batchAt (placeSubs e mba subs).1 a =
      batchAt mba a ++ subs.filter (fun x => decide ((getAddr e x.key).1 = a)) := by
  induction subs generalizing mba with
  | nil => simp [placeSubs, hnd]
  | cons s rest ih =>
    have hs := hok s (by simp)
    have hrest : ∀ t ∈ rest, (getAddr e t.key).2 = true := fun t ht => hok t (by simp [ht])
    obtain ⟨h1, h2, h3⟩ := ih (AddMsg mba (getAddr e s.key).1 s) hrest (nodup_AddMsg _ _ _ hnd)
    simp only [placeSubs, hs, Bool.not_true, Bool.false_eq_true, if_false]
    refine ⟨h1, h2, ?_⟩
    intro a
    rw [h3 a, batchAt_AddMsg]
    by_cases ha : a = (getAddr e s.key).1
    · simp [List.filter_cons, ha]
    · have ha2 : ¬ (getAddr e s.key).1 = a := fun hh => ha hh.symm
      simp [List.filter_cons, ha, ha2]

theorem placeMsgs_all (e : defaultExecutor) (msgs : List Message) (mba : MsgBatchAllocator)
    (hok : ∀ m ∈ msgs, noNode e m = false) (hnd : (mba.map Prod.fst).Nodup) :
    (placeMsgs e mba msgs).1 = msgs ∧ (placeMsgs e mba msgs).2.2 = true ∧
    ((placeMsgs e mba msgs).2.1.map Prod.fst).Nodup ∧
    ∀ a, batchAt (placeMsgs e mba msgs).2.1 a =
      batchAt mba a ++ (routed msgs).filter (fun x => decide ((getAddr e x.key).1 = a)) := by
  induction msgs generalizing mba with
  | nil => simp [placeMsgs, routed, hnd]
  | cons m rest ih =>
    have hm := hok m (by simp)
    have hrest : ∀ t ∈ rest, noNode e t = false := fun t ht => hok t (by simp [ht])
    cases hb : m.IsBatch
    · have hk : (getAddr e m.req.key).2 = true := by simpa [noNode, hb] using hm
      obtain ⟨h1, h2, h3, h4⟩ :=
        ih (AddMsg mba (getAddr e m.req.key).1 m.req) hrest (nodup_AddMsg _ _ _ hnd)
      simp only [placeMsgs, hb, hk, Bool.not_true, Bool.false_eq_true, if_false, routed]
      refine ⟨by rw [h1], h2, h3, ?_⟩
      intro a
      rw [h4 a, batchAt_AddMsg]
      by_cases ha : a = (getAddr e m.req.key).1
      · simp [List.filter_cons, ha]
      · have ha2 : ¬ (getAddr e m.req.key).1 = a := fun hh => ha hh.symm
        simp [List.filter_cons, ha, ha2]
    · have hsub : ∀ s ∈ m.Batch, (getAddr e s.key).2 = true := by
        intro s hs
        have := hm
        simp only [noNode, hb, if_true, List.any_eq_false] at this
        simpa using this s hs
      obtain ⟨s1, s2, s3⟩ := placeSubs_all e m.Batch mba hsub hnd
      obtain ⟨h1, h2, h3, h4⟩ := ih (placeSubs e mba m.Batch).1 hrest s2
      simp only [placeMsgs, hb, s1, Bool.not_true, Bool.false_eq_true, if_false, if_true, routed]
      refine ⟨by rw [h1], h2, h3, ?_⟩
      intro a
      rw [h4 a, s3 a]
      simp [List.filter_append]

theorem pushBatches_ready (entries : List (String × MsgBatch))
    (nc : String → Option batchChan) (hnd : (entries.map Prod.fst).Nodup)
    (hready : ∀ a, batchAt entries a ≠ [] → ∃ c, nc a = some c ∧ c.Ready) :
    ∃ nc1, pushBatches nc entries = some nc1 ∧
      ∀ a, nc1 a = if batchAt entries a = [] then nc a
                   else (nc a).bind (fun c => c.push (batchAt entries a)) := by
  induction entries generalizing nc with
  | nil => exact ⟨nc, rfl, by simp [batchAt]⟩
  | cons p rest ih =>
    obtain ⟨addr, mb⟩ := p
    have hnd2 : (rest.map Prod.fst).Nodup := (List.nodup_cons.mp hnd).2
    have hnot : addr ∉ rest.map Prod.fst := (List.nodup_cons.mp hnd).1
    have hempty : batchAt rest addr = [] := batchAt_of_not_mem rest addr hnot
    by_cases hmb : mb = []
    · have hcnt : ¬ (MsgBatch.Count mb > 0) := by simp [MsgBatch.Count, hmb]
      have hr : ∀ a, batchAt rest a ≠ [] → ∃ c, nc a = some c ∧ c.Ready := by
        intro a ha
        have hne : ¬ addr = a := fun hh => ha (hh ▸ hempty)
        exact hready a (by simpa [batchAt, hne] using ha)
      obtain ⟨nc1, e1, e2⟩ := ih nc hnd2 hr
      refine ⟨nc1, by simp only [pushBatches, if_neg hcnt, e1], ?_⟩
      intro a
      by_cases hne : addr = a
      · subst hne
        simp [batchAt, hmb, e2 addr, hempty]
      · simp [batchAt, hne, e2 a]
    · have hcnt : MsgBatch.Count mb > 0 := by
        have : 0 < mb.length := List.length_pos.mpr hmb
        simp only [MsgBatch.Count]; omega
      obtain ⟨c, hc, hcr⟩ := hready addr (by simpa [batchAt] using hmb)
      obtain ⟨_, _, _, hp⟩ := push_in_range c mb hcr.1 hcr.2.1 hcr.2.2.1 hcr.2.2.2
      have hr : ∀ a, batchAt rest a ≠ [] →
          ∃ c2, (fun x => if x = addr then some
            ({ c with idx := c.idx + 1,
                      chs := c.chs.modify (fun q => q ++ [mb]) (pushIndex c).toNat } : batchChan)
            else nc x) a = some c2 ∧ c2.Ready := by
        intro a ha
        have hne : ¬ addr = a := fun hh => ha (hh ▸ hempty)
        have hne2 : ¬ a = addr := fun hh => hne hh.symm
        simpa [hne2] using hready a (by simpa [batchAt, hne] using ha)
      obtain ⟨nc1, e1, e2⟩ := ih _ hnd2 hr
      refine ⟨nc1, by simp only [pushBatches, if_pos hcnt, hc, hp, e1], ?_⟩
      intro a
      by_cases hne : addr = a
      · subst hne
        simp [batchAt, hmb, e2 addr, hempty, hc, hp]
      · have hne2 : ¬ a = addr := fun hh => hne hh.symm
        simp [batchAt, hne, e2 a, hne2]

/-- The dispatch of `Execute` while every batch channel it pushes on is in
its working range: on an open executor, when every routed key resolves,
`Execute` returns nil, leaves the messages as submitted, appends every
routed request to the batch of its address in submission order, and pushes
the batch of every address with a non-empty batch exactly once on that
address's batch channel, leaving all other channels untouched. -/
theorem Execute_dispatch (e : defaultExecutor) (mba : MsgBatchAllocator) (msgs : List Message)
    (hopen : e.state = executorStateOpening)
    (hok : ∀ m ∈ msgs, noNode e m = false)
    (hnd : (mba.map Prod.fst).Nodup)
    (hready : ∀ a, batchAt mba a ++
        (routed msgs).filter (fun x => decide ((getAddr e x.key).1 = a)) ≠ [] →
      ∃ c, e.nodeChan a = some c ∧ c.Ready) :
    ∃ o, Execute e mba msgs = some o ∧ o.err = none ∧ o.msgs = msgs ∧
      (∀ a, batchAt o.mba a =
        batchAt mba a ++ (routed msgs).filter (fun x => decide ((getAddr e x.key).1 = a))) ∧
      (∀ a, o.e.nodeChan a =
        if batchAt o.mba a = [] then e.nodeChan a
        else (e.nodeChan a).bind (fun c => c.push (batchAt o.mba a))) ∧
      o.e.state = e.state := by
  obtain ⟨h1, h2, h3, h4⟩ := placeMsgs_all e msgs mba hok hnd
  have hr : ∀ a, batchAt (placeMsgs e mba msgs).2.1 a ≠ [] →
      ∃ c, e.nodeChan a = some c ∧ c.Ready := by
    intro a ha
    rw [h4 a] at ha
    exact hready a ha
  obtain ⟨nc1, e1, e2⟩ := pushBatches_ready (placeMsgs e mba msgs).2.1 e.nodeChan h3 hr
  have hst : ¬ e.state = executorStateClosed := by rw [hopen]; decide
  refine ⟨⟨none, (placeMsgs e mba msgs).1, (placeMsgs e mba msgs).2.1,
    { e with nodeChan := nc1 }⟩, ?_, rfl, h1, h4, e2, rfl⟩
  simp only [Execute, if_neg hst, h2, Bool.not_true, Bool.false_eq_true, if_false, MsgBatchs, e1]

theorem Execute_dispatch_witness :
    ∃ o, Execute twoAliasExecutor []
        [⟨⟨1, bytesOf "apple"⟩, none, none⟩,
         ⟨⟨2, bytesOf "mget"⟩, some [⟨3, bytesOf "berry"⟩, ⟨4, bytesOf "avocado"⟩], none⟩] = some o ∧
      o.err = none ∧
      batchAt o.mba "10.0.0.1:6379" = [⟨1, bytesOf "apple"⟩, ⟨4, bytesOf "avocado"⟩] ∧
      batchAt o.mba "10.0.0.2:6379" = [⟨3, bytesOf "berry"⟩] ∧
      o.e.nodeChan "10.0.0.1:6379" =
        some ⟨1, 2, [[], [[⟨1, bytesOf "apple"⟩, ⟨4, bytesOf "avocado"⟩]]]⟩ ∧
      o.e.nodeChan "10.0.0.2:6379" = some ⟨1, 2, [[], [[⟨3, bytesOf "berry"⟩]]]⟩ := by
  obtain ⟨o, h1, h2, _, h4, h5, _⟩ := Execute_dispatch twoAliasExecutor []
    [⟨⟨1, bytesOf "apple"⟩, none, none⟩,
     ⟨⟨2, bytesOf "mget"⟩, some [⟨3, bytesOf "berry"⟩, ⟨4, bytesOf "avocado"⟩], none⟩]
    rfl (by decide) (by decide)
    (by
      intro a ha
      by_cases ha1 : a = "10.0.0.1:6379"
      · subst ha1
        exact ⟨⟨0, 2, [[], []]⟩, by decide, by decide⟩
      · by_cases ha2 : a = "10.0.0.2:6379"
        · subst ha2
          exact ⟨⟨0, 2, [[], []]⟩, by decide, by decide⟩
        · exfalso
          apply ha
          have e1 : (getAddr twoAliasExecutor (bytesOf "apple")).1 = "10.0.0.1:6379" := by decide
          have e2 : (getAddr twoAliasExecutor (bytesOf "berry")).1 = "10.0.0.2:6379" := by decide
          have e3 : (getAddr twoAliasExecutor (bytesOf "avocado")).1 = "10.0.0.1:6379" := by decide
          have n1 : ¬ "10.0.0.1:6379" = a := fun hh => ha1 hh.symm
          have n2 : ¬ "10.0.0.2:6379" = a := fun hh => ha2 hh.symm
          simp [batchAt, routed, Message.IsBatch, Message.Batch, List.filter, e1, e2, e3, n1, n2])
  have b1 := h4 "10.0.0.1:6379"
  have b2 := h4 "10.0.0.2:6379"
  have f1 : batchAt [] "10.0.0.1:6379" ++ (routed
      [⟨⟨1, bytesOf "apple"⟩, none, none⟩,
       ⟨⟨2, bytesOf "mget"⟩, some [⟨3, bytesOf "berry"⟩, ⟨4, bytesOf "avocado"⟩], none⟩]).filter
      (fun x => decide ((getAddr twoAliasExecutor x.key).1 = "10.0.0.1:6379")) =
      [⟨1, bytesOf "apple"⟩, ⟨4, bytesOf "avocado"⟩] := by decide
  have f2 : batchAt [] "10.0.0.2:6379" ++ (routed
      [⟨⟨1, bytesOf "apple"⟩, none, none⟩,
       ⟨⟨2, bytesOf "mget"⟩, some [⟨3, bytesOf "berry"⟩, ⟨4, bytesOf "avocado"⟩], none⟩]).filter
      (fun x => decide ((getAddr twoAliasExecutor x.key).1 = "10.0.0.2:6379")) =
      [⟨3, bytesOf "berry"⟩] := by decide
  rw [f1] at b1
  rw [f2] at b2
  have c1 := h5 "10.0.0.1:6379"
  have c2 := h5 "10.0.0.2:6379"
  rw [b1] at c1
  rw [b2] at c2
  refine ⟨o, h1, h2, b1, b2, ?_, ?_⟩
  · rw [c1]; decide
  · rw [c2]; decide

/-- C8: on the open executor whose only backend has a 3-queue batch
channel with counter `2147483647` (the state `push_counter_wrap` reaches),
a single message whose key resolves to that backend makes `Execute` panic
in `push` instead of returning nil. -/
theorem Execute_counter_wrap :
    (oneNodeExecutor ⟨2147483647, 3, [[], [], []]⟩).state = executorStateOpening ∧
    getAddr (oneNodeExecutor ⟨2147483647, 3, [[], [], []]⟩) (bytesOf "k") =
      ("10.0.0.1:6379", true) ∧
    Execute (oneNodeExecutor ⟨2147483647, 3, [[], [], []]⟩) []
      [⟨⟨1, bytesOf "k"⟩, none, none⟩] = none := by
  refine ⟨by decide, by decide, ?_⟩
  apply Option.isNone_iff_eq_none.mp
  decide

end proxy

namespace cluster

/-- C10: for a snapshot whose `slotN` entries are all `≥ -1`, `GetNode`
uses the slot `Crc16(key) mod 16384`, which is at most 16383; it returns
`(nodes[n], true)` for `n = slotN[slot]` when the slot is inside `slotN`,
`n ≠ -1` and `n < len(nodes)`, and `("", false)` in every other case; so
`ok` is true exactly in the first case. -/
theorem GetNode_spec (Crc16 : List UInt8 → Nat) (c : Snapshot) (key : List UInt8)
    (h : ∀ n ∈ c.slotN, -1 ≤ n) (slot : Nat) (hslot : slot = Crc16 key % 16384) :
    Crc16 key &&& musk = slot ∧ slot ≤ 16383 ∧
    (∀ n, c.slotN[slot]? = some n → n ≠ -1 → n < c.nodes.length →
      ∃ node, c.nodes[n.toNat]? = some node ∧ GetNode Crc16 c key = some (node, true)) ∧
    (c.slotN[slot]? = none ∨ c.slotN[slot]? = some (-1) ∨
        (∃ n, c.slotN[slot]? = some n ∧ (c.nodes.length : Int) ≤ n) →
      GetNode Crc16 c key = some ("", false)) ∧
    ((∃ node, GetNode Crc16 c key = some (node, true)) ↔
      ∃ n, c.slotN[slot]? = some n ∧ n ≠ -1 ∧ n < c.nodes.length) := by
  have hand : Crc16 key &&& musk = slot := by
    rw [hslot]
    exact Nat.and_pow_two_sub_one_eq_mod (Crc16 key) 14
  have hle : slot ≤ 16383 := by omega
  have hyes : ∀ n, c.slotN[slot]? = some n → n ≠ -1 → n < c.nodes.length →
      ∃ node, c.nodes[n.toNat]? = some node ∧ GetNode Crc16 c key = some (node, true) := by
    intro n hn hne hlt
    have hmem : n ∈ c.slotN := List.getElem?_mem hn
    have hge := h n hmem
    have hn0 : 0 ≤ n := by omega
    have hslt : slot < c.slotN.length := by
      by_contra hcon
      rw [List.getElem?_eq_none (by omega)] at hn
      cases hn
    have hidx : n.toNat < c.nodes.length := by omega
    refine ⟨c.nodes[n.toNat], List.getElem?_eq_getElem hidx, ?_⟩
    have hgd : c.slotN.getD slot 0 = n := by
      rw [List.getD_eq_getElem?_getD, hn]; rfl
    have hnd : c.nodes.getD n.toNat "" = c.nodes[n.toNat] := by
      rw [List.getD_eq_getElem?_getD, List.getElem?_eq_getElem hidx]; rfl
    have h1 : ¬ ((slot : Int) ≥ c.slotN.length) := by omega
    have h2 : ¬ (n ≥ (c.nodes.length : Int)) := by omega
    have h3 : ¬ (n < 0) := by omega
    simp only [GetNode, hand, hgd, hnd, if_neg h1, if_neg hne, if_neg h2, if_neg h3]
  have hno : (c.slotN[slot]? = none ∨ c.slotN[slot]? = some (-1) ∨
        (∃ n, c.slotN[slot]? = some n ∧ (c.nodes.length : Int) ≤ n) →
      GetNode Crc16 c key = some ("", false)) := by
    intro hcase
    by_cases h1 : (slot : Int) ≥ c.slotN.length
    · simp only [GetNode, hand, if_pos h1]
    · rcases hcase with hc | hc | ⟨n, hc, hn⟩
      · rw [List.getElem?_eq_none_iff] at hc
        omega
      · have hgd : c.slotN.getD slot 0 = -1 := by
          rw [List.getD_eq_getElem?_getD, hc]; rfl
        simp only [GetNode, hand, if_neg h1, hgd, if_true]
      · have hgd : c.slotN.getD slot 0 = n := by
          rw [List.getD_eq_getElem?_getD, hc]; rfl
        have h2 : n ≥ (c.nodes.length : Int) := hn
        simp only [GetNode, hand, if_neg h1, hgd, if_pos h2]
        split <;> rfl
  refine ⟨hand, hle, hyes, hno, ?_⟩
  constructor
  · rintro ⟨node, hnode⟩
    cases hs : c.slotN[slot]? with
    | none =>
      rw [hno (Or.inl hs)] at hnode
      simp at hnode
    | some n =>
      by_cases hne : n = -1
      · rw [hno (Or.inr (Or.inl (by rw [hs, hne])))] at hnode
        simp at hnode
      · by_cases hlt : n < c.nodes.length
        · exact ⟨n, rfl, hne, hlt⟩
        · rw [hno (Or.inr (Or.inr ⟨n, hs, by omega⟩))] at hnode
          simp at hnode
  · rintro ⟨n, hs, hne, hlt⟩
    obtain ⟨node, _, hg⟩ := hyes n hs hne hlt
    exact ⟨node, hg⟩

theorem GetNode_spec_witness :
    GetNode (fun _ => 16385) ⟨["a:7000", "b:7001"], [0, 1, -1]⟩ [] = some ("b:7001", true) := by
  obtain ⟨_, _, h, _⟩ := GetNode_spec (fun _ => 16385) ⟨["a:7000", "b:7001"], [0, 1, -1]⟩ []
    (by decide) 1 (by decide)
  obtain ⟨node, hn, hg⟩ := h 1 (by decide) (by decide) (by decide)
  have : node = "b:7001" := by
    have h2 : (["a:7000", "b:7001"] : List String)[(1 : Int).toNat]? = some "b:7001" := by decide
    rw [h2] at hn
    exact (Option.some.inj hn).symm
  rw [this] at hg
  exact hg

end cluster

namespace redis

theorem Close_closed_noop {ρ : Type} (closeErr : Option Err) (nc : nodeConn ρ)
    (h : nc.state = closed) : nodeConn.Close closeErr nc = (none, nc) := by
  simp [nodeConn.Close, h, closed, opened]

theorem closeTimes_of_closed {ρ : Type} (closeErr : Option Err) (n : Nat) (nc : nodeConn ρ)
    (h : nc.state = closed) : closeTimes closeErr n nc = nc := by
  induction n with
  | zero => rfl
  | succ k ih => simp [closeTimes, Close_closed_noop closeErr nc h, ih]

theorem closeTimes_of_opened {ρ : Type} (closeErr : Option Err) (n : Nat) (nc : nodeConn ρ)
    (h : nc.state = opened) :
    (closeTimes closeErr (n + 1) nc).socketCloses = nc.socketCloses + 1 ∧
      (closeTimes closeErr (n + 1) nc).state = closed := by
  have hc : nodeConn.Close closeErr nc =
      (closeErr, { nc with state := closed, socketCloses := nc.socketCloses + 1 }) := by
    simp [nodeConn.Close, h]
  simp only [closeTimes, hc]
  rw [closeTimes_of_closed closeErr n _ rfl]
  exact ⟨rfl, rfl⟩

/-- C16: a connection made by `newNodeConn` starts in state `closed`, so
after any number `n` of `Close` calls the socket has been closed zero
times, not once: each call (the first included) returns nil and leaves the
connection as it was. -/
theorem Close_never_closes_socket {ρ : Type} (closeErr : Option Err) (cluster addr : String)
    (rc : ρ) (n : Nat) :
    (closeTimes closeErr n (newNodeConn cluster addr rc)).socketCloses = 0 ∧
    nodeConn.Close closeErr (closeTimes closeErr n (newNodeConn cluster addr rc)) =
      (none, newNodeConn cluster addr rc) := by
  rw [closeTimes_of_closed closeErr n _ rfl]
  exact ⟨rfl, Close_closed_noop closeErr _ rfl⟩

end redis

namespace cluster

theorem add_of_map (c : Cluster) (m : List String) (addr : String) (h : c.addrm = some m) :
    ∃ c1 m1, c.add addr = some c1 ∧ c1.addrm = some m1 ∧ addr ∈ m1 ∧ ∀ a ∈ m, a ∈ m1 := by
  refine ⟨{ addrm := some (if addr ∈ m then m else m ++ [addr]), fetching := true },
    if addr ∈ m then m else m ++ [addr], by simp [Cluster.add, h], rfl, ?_, ?_⟩
  · split
    · assumption
    · simp
  · intro a ha
    split
    · exact ha
    · simp [ha]

/-- C20: on the default cluster as the package declares it
(`&cluster{}`, whose seed map is nil) `add` panics for every address, and
so does `NewNodeConn`: no connection is returned and no address becomes a
seed. -/
theorem NewNodeConn_default_panics (clusterName addr : String) :
    defaultCluster.addrm = none ∧ defaultCluster.add addr = none ∧
      NewNodeConn defaultCluster clusterName addr = none := by
  refine ⟨rfl, rfl, rfl⟩

end cluster

namespace proxy

theorem pingRun_append (autoEject : Bool) (limit : Int) (s : PingLoop)
    (rs : List PingResult) (r : PingResult) :
    pingRun autoEject limit s (rs ++ [r]) =
      pingTick autoEject limit (pingRun autoEject limit s rs) r := by
  simp [pingRun, List.foldl_append]

theorem onRing_append (node : String) (start : Bool) (ops : List RingOp) (op : RingOp) :
    onRing node start (ops ++ [op]) =
      match op with
      | RingOp.AddNode n _ => if n = node then true else onRing node start ops
      | RingOp.DelNode n => if n = node then false else onRing node start ops := by
  simp only [onRing, List.foldl_append, List.foldl_cons, List.foldl_nil]

/-- The ping-loop invariant for the node `addr` of weight `w` and the fail
limit `limit`. -/
theorem pingTick_keeps (addr : String) (w limit : Int) (hl : 1 ≤ limit) (s : PingLoop)
    (r : PingResult)
    (h : (s.del = true ↔ limit ≤ s.p.failure) ∧ onRing addr true s.ringOps = !s.del ∧
      s.p.node = addr ∧ s.p.weight = w ∧ 0 ≤ s.p.failure) :
    ((pingTick true limit s r).del = true ↔ limit ≤ (pingTick true limit s r).p.failure) ∧
      onRing addr true (pingTick true limit s r).ringOps = !(pingTick true limit s r).del ∧
      (pingTick true limit s r).p.node = addr ∧ (pingTick true limit s r).p.weight = w ∧
      0 ≤ (pingTick true limit s r).p.failure := by
  obtain ⟨h1, h2, h3, h4, h5⟩ := h
  cases r with
  | ok =>
    have hlim : ¬ (0 : Int) ≥ limit := by omega
    cases hd : s.del
    · rw [hd] at h2
      have e : pingTick true limit s PingResult.ok =
          { s with p := { s.p with failure := 0, retries := s.p.retries + 1 } } := by
        simp [pingTick, hd, hlim]
      rw [e]
      refine ⟨?_, ?_, h3, h4, le_refl _⟩
      · simp only [hd]
        constructor
        · intro hh; cases hh
        · intro hh; omega
      · simpa [hd] using h2
    · have e : pingTick true limit s PingResult.ok =
          { s with p := { s.p with failure := 0, retries := s.p.retries + 1 },
                   ringOps := s.ringOps ++ [RingOp.AddNode s.p.node s.p.weight],
                   del := false } := by
        simp [pingTick, hd, hlim]
      rw [e]
      refine ⟨?_, ?_, h3, h4, le_refl _⟩
      · constructor
        · intro hh; cases hh
        · intro hh
          simp only at hh
          omega
      · simp [onRing_append, h3]
  | fail t =>
    by_cases hf : s.p.failure + 1 ≥ limit
    · have e : pingTick true limit s (PingResult.fail t) =
          { s with p := { s.p with failure := s.p.failure + 1, retries := 0 + 1 },
                   reconnects := if t then s.reconnects else s.reconnects + 1,
                   ringOps := s.ringOps ++ [RingOp.DelNode s.p.node],
                   del := true } := by
        simp [pingTick, hf]
      rw [e]
      refine ⟨?_, ?_, h3, h4, by simp only; omega⟩
      · constructor
        · intro _; exact hf
        · intro _; rfl
      · simp [onRing_append, h3]
    · have hnd : s.del = false := by
        cases hd : s.del
        · rfl
        · have := h1.mp hd
          omega
      rw [hnd] at h2
      have e : pingTick true limit s (PingResult.fail t) =
          { s with p := { s.p with failure := s.p.failure + 1, retries := 0 + 1 },
                   reconnects := if t then s.reconnects else s.reconnects + 1 } := by
        simp [pingTick, hf]
      rw [e]
      refine ⟨?_, ?_, h3, h4, by simp only; omega⟩
      · simp only [hnd]
        constructor
        · intro hh; cases hh
        · intro hh; exact absurd hh hf
      · simpa [hnd] using h2

theorem pingRun_keeps (addr : String) (w limit : Int) (hl : 1 ≤ limit) (rs : List PingResult) :
    ((pingRun true limit (startPing addr w) rs).del = true ↔
        limit ≤ (pingRun true limit (startPing addr w) rs).p.failure) ∧
      onRing addr true (pingRun true limit (startPing addr w) rs).ringOps =
        !(pingRun true limit (startPing addr w) rs).del ∧
      (pingRun true limit (startPing addr w) rs).p.node = addr ∧
      (pingRun true limit (startPing addr w) rs).p.weight = w ∧
      0 ≤ (pingRun true limit (startPing addr w) rs).p.failure := by
  induction rs using List.reverseRecOn with
  | nil =>
    simp [pingRun, startPing, onRing]
    omega
  | append_singleton rs r ih =>
    rw [pingRun_append]
    exact pingTick_keeps addr w limit hl _ r ih

/-- C19: with auto-eject on and a fail limit `≥ 1`, after every sequence
`rs` of ping outcomes the eviction is remembered (`del`) and the node is
off the ring exactly when the consecutive-failure count is `≥ limit`; on
the next tick a failed ping adds one to the count and calls `DelNode`
exactly when the new count has reached the limit, and a successful ping
sets the count to 0, calls `AddNode` once with the configured weight `w`
exactly when the node was ejected, and never calls `DelNode`. -/
theorem pinger_invariant (addr : String) (w limit : Int) (hl : 1 ≤ limit)
    (rs : List PingResult) :
    ((pingRun true limit (startPing addr w) rs).del = true ↔
        limit ≤ (pingRun true limit (startPing addr w) rs).p.failure) ∧
    (onRing addr true (pingRun true limit (startPing addr w) rs).ringOps = false ↔
        limit ≤ (pingRun true limit (startPing addr w) rs).p.failure) ∧
    (∀ t, (pingRun true limit (startPing addr w) (rs ++ [PingResult.fail t])).p.failure =
          (pingRun true limit (startPing addr w) rs).p.failure + 1 ∧
        (pingRun true limit (startPing addr w) (rs ++ [PingResult.fail t])).ringOps =
          (pingRun true limit (startPing addr w) rs).ringOps ++
            (if limit ≤ (pingRun true limit (startPing addr w) rs).p.failure + 1
             then [RingOp.DelNode addr] else [])) ∧
    ((pingRun true limit (startPing addr w) (rs ++ [PingResult.ok])).p.failure = 0 ∧
      (pingRun true limit (startPing addr w) (rs ++ [PingResult.ok])).del = false ∧
      (pingRun true limit (startPing addr w) (rs ++ [PingResult.ok])).ringOps =
        (pingRun true limit (startPing addr w) rs).ringOps ++
          (if limit ≤ (pingRun true limit (startPing addr w) rs).p.failure
           then [RingOp.AddNode addr w] else [])) := by
  obtain ⟨h1, h2, h3, h4, h5⟩ := pingRun_keeps addr w limit hl rs
  refine ⟨h1, ?_, ?_, ?_⟩
  · rw [h2, ← h1]
    cases (pingRun true limit (startPing addr w) rs).del <;> simp
  · intro t
    rw [pingRun_append]
    by_cases hf : (pingRun true limit (startPing addr w) rs).p.failure + 1 ≥ limit
    · have hf2 : limit ≤ (pingRun true limit (startPing addr w) rs).p.failure + 1 := hf
      simp [pingTick, hf, h3, hf2]
    · have hf2 : ¬ limit ≤ (pingRun true limit (startPing addr w) rs).p.failure + 1 := hf
      simp [pingTick, hf, hf2]
  · rw [pingRun_append]
    have hlim : ¬ (0 : Int) ≥ limit := by omega
    cases hd : (pingRun true limit (startPing addr w) rs).del
    · have hn : ¬ limit ≤ (pingRun true limit (startPing addr w) rs).p.failure := by
        intro hh
        have := h1.mpr hh
        rw [hd] at this
        cases this
      simp [pingTick, hd, hlim, hn]
    · have hy : limit ≤ (pingRun true limit (startPing addr w) rs).p.failure := h1.mp hd
      simp [pingTick, hd, hlim, hy, h3, h4]

theorem pinger_invariant_witness :
    (pingRun true 2 (startPing "10.0.0.1:6379" 5)
      [PingResult.fail true, PingResult.fail false, PingResult.fail true, PingResult.ok]).ringOps =
      [RingOp.DelNode "10.0.0.1:6379", RingOp.DelNode "10.0.0.1:6379",
       RingOp.AddNode "10.0.0.1:6379" 5] := by
  have h := (pinger_invariant "10.0.0.1:6379" 5 2 (by decide)
    [PingResult.fail true, PingResult.fail false, PingResult.fail true]).2.2.2.2.2
  rw [show [PingResult.fail true, PingResult.fail false, PingResult.fail true, PingResult.ok] =
    [PingResult.fail true, PingResult.fail false, PingResult.fail true] ++ [PingResult.ok]
    from rfl, h]
  decide

end proxy

namespace redis

theorem write_ok {ρ : Type} (R : RespConn ρ) (nc : nodeConn ρ) (m : Message)
    (h : (nc.write R m).2.2 = none) : (nc.write R m).2.1 = m ∧ m.cmd.isSome = true := by
  cases hc : m.cmd with
  | none => simp [nodeConn.write, hc] at h
  | some c => simp [nodeConn.write, hc]

theorem write_ops {ρ : Type} (R : RespConn ρ) (nc : nodeConn ρ) (m : Message) :
    (nc.write R m).1.ops = nc.ops ++ encodeOps [m] := by
  cases hc : m.cmd with
  | none => simp [nodeConn.write, hc, encodeOps]
  | some c => simp [nodeConn.write, hc, encodeOps]

theorem connAfter_ops {ρ : Type} (R : RespConn ρ) (msgs : List Message) (nc : nodeConn ρ) :
    (connAfter R nc msgs).ops = nc.ops ++ encodeOps msgs := by
  induction msgs generalizing nc with
  | nil => simp [connAfter, encodeOps]
  | cons m rest ih =>
    rw [connAfter, ih, write_ops]
    simp [encodeOps, List.filterMap_cons]
    cases m.cmd <;> simp

theorem connAfter_append {ρ : Type} (R : RespConn ρ) (pre post : List Message)
    (nc : nodeConn ρ) :
    connAfter R nc (pre ++ post) = connAfter R (connAfter R nc pre) post := by
  induction pre generalizing nc with
  | nil => rfl
  | cons m rest ih => simp [connAfter, ih]

theorem flush_not_mem_encodeOps (msgs : List Message) : Op.flush ∉ encodeOps msgs := by
  intro h
  simp only [encodeOps, List.mem_filterMap] at h
  obtain ⟨m, _, hm⟩ := h
  cases hc : m.cmd <;> simp [hc] at hm

theorem writeLoop_ok {ρ : Type} (R : RespConn ρ) (msgs : List Message) (nc : nodeConn ρ)
    (h : allWritten R nc msgs) :
    nodeConn.writeLoop R nc msgs = (connAfter R nc msgs, msgs.map Message.MarkWrite, none) := by
  induction msgs generalizing nc with
  | nil => rfl
  | cons m rest ih =>
    obtain ⟨h1, h2⟩ := h
    simp only [nodeConn.writeLoop, h1, ih _ h2, connAfter, (write_ok R nc m h1).1, List.map_cons]

theorem writeLoop_fail {ρ : Type} (R : RespConn ρ) (pre : List Message) (m : Message)
    (post : List Message) (e : Err) (nc : nodeConn ρ) (h : allWritten R nc pre)
    (hm : ((connAfter R nc pre).write R m).2.2 = some e) :
    nodeConn.writeLoop R nc (pre ++ m :: post) =
      (((connAfter R nc pre).write R m).1,
        pre.map Message.MarkWrite ++
          (((connAfter R nc pre).write R m).2.1.DoneWithError e) :: post, some e) := by
  induction pre generalizing nc with
  | nil =>
    simp only [connAfter] at hm
    simp only [List.nil_append, nodeConn.writeLoop, hm, connAfter, List.map_nil]
  | cons x rest ih =>
    obtain ⟨h1, h2⟩ := h
    simp only [connAfter] at hm
    have ihh := ih _ h2 hm
    rw [List.cons_append, nodeConn.writeLoop]
    simp only [h1, ihh, connAfter, (write_ok R nc x h1).1, List.map_cons, List.cons_append]

/-- C17: `WriteBatch` writes the messages in batch order. When every
message is written without error, all are marked written, the calls on the
RESP connection are the encodes in order followed by exactly one flush,
and the result of that flush is returned. When `m` is the first message
whose write fails with `e` (after `pre`, before `post`), the messages of
`pre` are marked written, `m` is marked done-with-error `e` (twice when
its request is not a command), `post` is untouched, the calls on the RESP
connection are the encodes of `pre` and `m` with no flush, and `e` is
returned. -/
theorem WriteBatch_spec {ρ : Type} (R : RespConn ρ) (nc : nodeConn ρ) (mb : List Message) :
    (allWritten R nc mb →
      (nc.WriteBatch R mb).2.1 = mb.map Message.MarkWrite ∧
      (nc.WriteBatch R mb).1.ops = nc.ops ++ encodeOps mb ++ [Op.flush] ∧
      (nc.WriteBatch R mb).2.2 = (R.Flush (connAfter R nc mb).rc).2) ∧
    (∀ pre m post e, mb = pre ++ m :: post → allWritten R nc pre →
      ((connAfter R nc pre).write R m).2.2 = some e →
      (nc.WriteBatch R mb).2.2 = some e ∧
      (∃ m1, (nc.WriteBatch R mb).2.1 = pre.map Message.MarkWrite ++ m1 :: post ∧
        m1.id = m.id ∧ m1.cmd = m.cmd ∧
        m1.marks = m.marks ++
          (if m.cmd.isSome then [Mark.DoneWithError e]
           else [Mark.DoneWithError e, Mark.DoneWithError e])) ∧
      (nc.WriteBatch R mb).1.ops = nc.ops ++ encodeOps (pre ++ [m]) ∧
      Op.flush ∉ encodeOps (pre ++ [m])) := by
  constructor
  · intro h
    simp only [nodeConn.WriteBatch, writeLoop_ok R mb nc h, connAfter_ops]
    exact ⟨trivial, trivial, trivial⟩
  · intro pre m post e hmb hpre hm
    subst hmb
    have hops : ((connAfter R nc pre).write R m).1.ops = nc.ops ++ encodeOps (pre ++ [m]) := by
      rw [write_ops, connAfter_ops]
      simp [encodeOps, List.filterMap_append]
    simp only [nodeConn.WriteBatch, writeLoop_fail R pre m post e nc hpre hm, hops]
    refine ⟨trivial, ⟨_, rfl, ?_⟩, trivial, flush_not_mem_encodeOps _⟩
    cases hc : m.cmd with
    | none =>
      have he : e = Err.ErrBadAssert := by
        simp [nodeConn.write, hc] at hm
        exact hm.symm
      simp [nodeConn.write, hc, Message.DoneWithError, he]
    | some c => simp [nodeConn.write, hc, Message.DoneWithError]

theorem WriteBatch_spec_witness :
    ((newNodeConn "c" "10.0.0.1:6379" 0).WriteBatch failingThird
        [⟨1, some ⟨"GET a", none⟩, []⟩, ⟨2, some ⟨"GET b", none⟩, []⟩]).2.1 =
      [⟨1, some ⟨"GET a", none⟩, [Mark.MarkWrite]⟩, ⟨2, some ⟨"GET b", none⟩, [Mark.MarkWrite]⟩] ∧
    ((newNodeConn "c" "10.0.0.1:6379" 0).WriteBatch failingThird
        [⟨1, some ⟨"GET a", none⟩, []⟩, ⟨2, some ⟨"GET b", none⟩, []⟩,
         ⟨3, some ⟨"GET c", none⟩, []⟩, ⟨4, some ⟨"GET d", none⟩, []⟩]).2.2 =
      some (Err.io 7) :=
  ⟨((WriteBatch_spec failingThird (newNodeConn "c" "10.0.0.1:6379" 0)
      [⟨1, some ⟨"GET a", none⟩, []⟩, ⟨2, some ⟨"GET b", none⟩, []⟩]).1
      ⟨by decide, by decide, trivial⟩).1,
   ((WriteBatch_spec failingThird (newNodeConn "c" "10.0.0.1:6379" 0)
      [⟨1, some ⟨"GET a", none⟩, []⟩, ⟨2, some ⟨"GET b", none⟩, []⟩,
       ⟨3, some ⟨"GET c", none⟩, []⟩, ⟨4, some ⟨"GET d", none⟩, []⟩]).2
      [⟨1, some ⟨"GET a", none⟩, []⟩, ⟨2, some ⟨"GET b", none⟩, []⟩]
      ⟨3, some ⟨"GET c", none⟩, []⟩ [⟨4, some ⟨"GET d", none⟩, []⟩] (Err.io 7)
      rfl ⟨by decide, by decide, trivial⟩ (by decide)).1⟩

end redis

namespace redis

theorem readLoop_all (resps : List String) (msgs : List Message) (i : Nat)
    (hcmd : ∀ m ∈ msgs, m.cmd.isSome = true) (hlen : i + msgs.length ≤ resps.length) :
    readLoop resps i msgs = some (List.zipWith withReply msgs (resps.drop i), none) := by
  induction msgs generalizing i with
  | nil => simp [readLoop]
  | cons m rest ih =>
    have hm := hcmd m (by simp)
    have hrest : ∀ x ∈ rest, x.cmd.isSome = true := fun x hx => hcmd x (by simp [hx])
    simp only [List.length_cons] at hlen
    have hi : i < resps.length := by omega
    obtain ⟨c, hc⟩ := Option.isSome_iff_exists.mp hm
    have hdrop : resps.drop i = resps[i] :: resps.drop (i + 1) := List.drop_eq_getElem_cons hi
    simp only [readLoop, hc, List.getElem?_eq_getElem hi, ih (i + 1) hrest (by omega), hdrop,
      List.zipWith_cons_cons]
    simp [withReply, hc]

theorem readLoop_bad (resps : List String) (pre : List Message) (m : Message)
    (post : List Message) (i : Nat) (hcmd : ∀ x ∈ pre, x.cmd.isSome = true)
    (hm : m.cmd = none) (hlen : i + pre.length ≤ resps.length) :
    readLoop resps i (pre ++ m :: post) =
      some (List.zipWith withReply pre (resps.drop i) ++ m :: post, some Err.ErrBadAssert) := by
  induction pre generalizing i with
  | nil => simp [readLoop, hm]
  | cons x rest ih =>
    have hx := hcmd x (by simp)
    have hrest : ∀ y ∈ rest, y.cmd.isSome = true := fun y hy => hcmd y (by simp [hy])
    simp only [List.length_cons] at hlen
    have hi : i < resps.length := by omega
    obtain ⟨c, hc⟩ := Option.isSome_iff_exists.mp hx
    have hdrop : resps.drop i = resps[i] :: resps.drop (i + 1) := List.drop_eq_getElem_cons hi
    have ihh := ih (i + 1) hrest (by omega)
    rw [List.cons_append, readLoop]
    simp only [hc, List.getElem?_eq_getElem hi, ihh, hdrop, List.zipWith_cons_cons,
      List.cons_append]
    simp [withReply, hc]

/-- C18, refuted as stated: on a batch of one message whose request is not
a command, with a decoder that succeeds with one reply, `ReadBatch`
returns `ErrBadAssert`, not nil, and the message is neither given the
reply nor marked read. -/
theorem ReadBatch_bad_assert :
    (newNodeConn "c" "10.0.0.1:6379" ()).ReadBatch (fixedReplies ["+OK"]) [⟨1, none, []⟩] =
      some ({ cluster := "c", addr := "10.0.0.1:6379", rc := (), state := closed,
              ops := [Op.resetBuffer true, Op.decodeCount 1, Op.resetBuffer false],
              socketCloses := 0 },
            [⟨1, none, []⟩], some Err.ErrBadAssert) := by
  decide

/-- C18, amended: `ReadBatch` asks the decoder for exactly `n` replies,
`n` the number of messages of the batch. When decoding fails it returns
the error and the messages are untouched. When decoding succeeds with `n`
replies and the request of every message is a command, the i-th reply is
assigned to the i-th message, every message is marked read and nil is
returned. When decoding succeeds and `m` is the first message whose
request is not a command, `ErrBadAssert` is returned, the messages before
`m` have their replies and are marked read, and `m` and the messages after
it are untouched. -/
theorem ReadBatch_spec {ρ : Type} (R : RespConn ρ) (nc : nodeConn ρ) (mb : List Message) :
    (∀ r, nc.ReadBatch R mb = some r →
      r.1.ops = nc.ops ++
        [Op.resetBuffer true, Op.decodeCount (mb.length : Int), Op.resetBuffer false]) ∧
    (∀ e, (R.decodeCount nc.rc (mb.length : Int)).2.1 = some e →
      ∃ nc1, nc.ReadBatch R mb = some (nc1, mb, some e)) ∧
    ((R.decodeCount nc.rc (mb.length : Int)).2.1 = none →
      (R.decodeCount nc.rc (mb.length : Int)).2.2.length = mb.length →
      (∀ m ∈ mb, m.cmd.isSome = true) →
      ∃ nc1, nc.ReadBatch R mb =
        some (nc1, List.zipWith withReply mb (R.decodeCount nc.rc (mb.length : Int)).2.2, none)) ∧
    (∀ pre m post, (R.decodeCount nc.rc (mb.length : Int)).2.1 = none →
      (R.decodeCount nc.rc (mb.length : Int)).2.2.length = mb.length →
      mb = pre ++ m :: post → (∀ x ∈ pre, x.cmd.isSome = true) → m.cmd = none →
      ∃ nc1, nc.ReadBatch R mb =
        some (nc1,
          List.zipWith withReply pre (R.decodeCount nc.rc (mb.length : Int)).2.2 ++ m :: post,
          some Err.ErrBadAssert)) := by
  refine ⟨?_, ?_, ?_, ?_⟩
  · intro r hr
    simp only [nodeConn.ReadBatch, Count] at hr
    split at hr
    · cases hr; rfl
    · split at hr
      · cases hr
      · cases hr; rfl
  · intro e he
    simp only [nodeConn.ReadBatch, Count, he]
    exact ⟨_, rfl⟩
  · intro hd hl hc
    have := readLoop_all (R.decodeCount nc.rc (mb.length : Int)).2.2 mb 0 hc (by omega)
    simp only [nodeConn.ReadBatch, Count, hd, this, List.drop_zero]
    exact ⟨_, rfl⟩
  · intro pre m post hd hl hmb hc hm
    have hlen : 0 + pre.length ≤ (R.decodeCount nc.rc (mb.length : Int)).2.2.length := by
      rw [hl, hmb]; simp
    have := readLoop_bad (R.decodeCount nc.rc (mb.length : Int)).2.2 pre m post 0 hc hm hlen
    rw [← hmb] at this
    simp only [nodeConn.ReadBatch, Count, hd, this, List.drop_zero]
    exact ⟨_, rfl⟩

theorem ReadBatch_spec_witness :
    ∃ nc1, (newNodeConn "c" "10.0.0.1:6379" ()).ReadBatch (fixedReplies ["+OK", "$1 a"])
        [⟨1, some ⟨"SET a 1", none⟩, [Mark.MarkWrite]⟩, ⟨2, some ⟨"GET a", none⟩, [Mark.MarkWrite]⟩] =
      some (nc1,
        [⟨1, some ⟨"SET a 1", some "+OK"⟩, [Mark.MarkWrite, Mark.MarkRead]⟩,
         ⟨2, some ⟨"GET a", some "$1 a"⟩, [Mark.MarkWrite, Mark.MarkRead]⟩], none) :=
  (ReadBatch_spec (fixedReplies ["+OK", "$1 a"]) (newNodeConn "c" "10.0.0.1:6379" ())
    [⟨1, some ⟨"SET a 1", none⟩, [Mark.MarkWrite]⟩, ⟨2, some ⟨"GET a", none⟩, [Mark.MarkWrite]⟩]).2.2.1
    (by decide) (by decide) (by decide)

end redis

namespace cluster

theorem assignSlots_spec (m : Int) (slots : List Int) (slotN : List Int)
    (h : ∀ s ∈ slots, 0 ≤ s ∧ s.toNat < slotN.length) :
    ∃ out, assignSlots m slotN slots = some out ∧ out.length = slotN.length ∧
      ∀ k : Nat, k < slotN.length →
        out[k]? = if (k : Int) ∈ slots then some m else slotN[k]? := by
  induction slots generalizing slotN with
  | nil => exact ⟨slotN, rfl, rfl, by simp⟩
  | cons s rest ih =>
    have hs := h s (by simp)
    have hrest : ∀ t ∈ rest, 0 ≤ t ∧ t.toNat < (slotN.set s.toNat m).length := by
      intro t ht
      simpa using h t (by simp [ht])
    obtain ⟨out, e1, e2, e3⟩ := ih (slotN.set s.toNat m) hrest
    refine ⟨out, by simp only [assignSlots, hs, and_self, if_true, e1], by simpa using e2, ?_⟩
    intro k hk
    rw [e3 k (by simpa using hk)]
    by_cases hkr : (k : Int) ∈ rest
    · simp [hkr]
    · by_cases hks : (k : Int) = s
      · have : s.toNat = k := by omega
        simp [hkr, hks, List.getElem?_set, this, hk]
      · have : ¬ s.toNat = k := by omega
        simp [hkr, hks, List.getElem?_set, this]

theorem collectMasters_spec (rest : List node) (M : List node) (nodes : List String)
    (slotN : List Int) (m : Int)
    (hrange : ∀ n ∈ rest, ∀ s ∈ n.slots, 0 ≤ s ∧ s ≤ 16383)
    (hnodes : nodes = M.map node.addr) (hm : m = M.length) (hlen : slotN.length = 16384)
    (hinv : ∀ k : Nat, k < 16384 →
      (slotN[k]? = some (-1) ∧ ∀ n ∈ M, (k : Int) ∉ n.slots) ∨
      (∃ i n, slotN[k]? = some ((i : Nat) : Int) ∧ M[i]? = some n ∧ (k : Int) ∈ n.slots)) :
    ∃ r, collectMasters rest nodes slotN m = some r ∧
      r.1 = (M ++ rest.filter (fun n => decide (n.role = roleMaster))).map node.addr ∧
      r.2.length = 16384 ∧
      ∀ k : Nat, k < 16384 →
        (r.2[k]? = some (-1) ∧
          ∀ n ∈ M ++ rest.filter (fun n => decide (n.role = roleMaster)), (k : Int) ∉ n.slots) ∨
        (∃ i n, r.2[k]? = some ((i : Nat) : Int) ∧
          (M ++ rest.filter (fun n => decide (n.role = roleMaster)))[i]? = some n ∧
          (k : Int) ∈ n.slots) := by
  induction rest generalizing M nodes slotN m with
  | nil =>
    refine ⟨(nodes, slotN), rfl, by simpa using hnodes, hlen, ?_⟩
    simpa using hinv
  | cons n more ih =>
    have hmore : ∀ x ∈ more, ∀ s ∈ x.slots, 0 ≤ s ∧ s ≤ 16383 :=
      fun x hx => hrange x (by simp [hx])
    by_cases hr : n.role = roleMaster
    · have hsl : ∀ s ∈ n.slots, 0 ≤ s ∧ s.toNat < slotN.length := by
        intro s hs
        have := hrange n (by simp) s hs
        omega
      obtain ⟨out, e1, e2, e3⟩ := assignSlots_spec m n.slots slotN hsl
      have hinv2 : ∀ k : Nat, k < 16384 →
          (out[k]? = some (-1) ∧ ∀ x ∈ M ++ [n], (k : Int) ∉ x.slots) ∨
          (∃ i x, out[k]? = some ((i : Nat) : Int) ∧ (M ++ [n])[i]? = some x ∧
            (k : Int) ∈ x.slots) := by
        intro k hk
        rw [e3 k (by omega)]
        by_cases hkn : (k : Int) ∈ n.slots
        · right
          refine ⟨M.length, n, by simp [hkn, hm], by simp, hkn⟩
        · rcases hinv k hk with ⟨h1, h2⟩ | ⟨i, x, h1, h2, h3⟩
          · left
            refine ⟨by simp [hkn, h1], ?_⟩
            intro x hx
            rcases List.mem_append.mp hx with hx | hx
            · exact h2 x hx
            · simp at hx; subst hx; exact hkn
          · right
            have hi : i < M.length := by
              by_contra hcon
              rw [List.getElem?_eq_none (by omega)] at h2
              cases h2
            refine ⟨i, x, by simp [hkn, h1], ?_, h3⟩
            rw [List.getElem?_append_left hi]
            exact h2
      obtain ⟨r, f1, f2, f3, f4⟩ := ih (M ++ [n]) (nodes ++ [n.addr]) out (m + 1) hmore
        (by simp [hnodes]) (by simp [hm]) (by omega) hinv2
      refine ⟨r, by simp only [collectMasters, hr, if_true, e1, f1], ?_, f3, ?_⟩
      · simpa [List.filter_cons, hr] using f2
      · simpa [List.filter_cons, hr] using f4
    · obtain ⟨r, f1, f2, f3, f4⟩ := ih M nodes slotN m hmore hnodes hm hlen hinv
      refine ⟨r, by simp only [collectMasters, hr, if_false, f1], ?_, f3, ?_⟩
      · simpa [List.filter_cons, hr] using f2
      · simpa [List.filter_cons, hr] using f4

/-- C11: for a node map whose slot numbers all lie in `[0, 16383]`, one
refresh builds a pair `(nodes, slotN)` in which `slotN` has length 16384,
`nodes` holds exactly the addresses of the nodes with role master, in the
order met, `slotN[s] = -1` exactly when no master lists slot `s`, and every
other entry `slotN[s]` is an index in `[0, len(nodes))` whose entry of
`nodes` is the address of a master that lists slot `s`. -/
theorem buildSnapshot_spec (nm : List node)
    (hrange : ∀ n ∈ nm, ∀ s ∈ n.slots, 0 ≤ s ∧ s ≤ 16383) :
    ∃ snap, buildSnapshot nm = some snap ∧ snap.slotN.length = 16384 ∧
      snap.nodes = (nm.filter (fun n => decide (n.role = roleMaster))).map node.addr ∧
      ∀ s : Nat, s < 16384 →
        (snap.slotN[s]? = some (-1) ↔
          ∀ n ∈ nm, n.role = roleMaster → (s : Int) ∉ n.slots) ∧
        (∀ v, snap.slotN[s]? = some v → v ≠ -1 →
          0 ≤ v ∧ v < snap.nodes.length ∧
          ∃ n ∈ nm, n.role = roleMaster ∧ (s : Int) ∈ n.slots ∧
            snap.nodes[v.toNat]? = some n.addr) := by
  obtain ⟨r, e1, e2, e3, e4⟩ := collectMasters_spec nm [] [] (List.replicate slotSize (-1)) 0
    hrange rfl rfl (by rw [List.length_replicate]; rfl)
    (by
      intro k hk
      left
      refine ⟨?_, fun n hn => absurd hn (List.not_mem_nil n)⟩
      have hk2 : k < slotSize := hk
      rw [List.getElem?_replicate, if_pos hk2])
  simp only [List.nil_append] at e2 e4
  refine ⟨⟨r.1, r.2⟩, by simp only [buildSnapshot, e1], e3, e2, ?_⟩
  intro s hs
  have hmemF : ∀ n, n ∈ nm.filter (fun n => decide (n.role = roleMaster)) ↔
      n ∈ nm ∧ n.role = roleMaster := by
    intro n
    simp [List.mem_filter]
  constructor
  · constructor
    · intro hv n hn hrole
      rcases e4 s hs with ⟨_, h2⟩ | ⟨i, x, h1, _, _⟩
      · exact h2 n ((hmemF n).mpr ⟨hn, hrole⟩)
      · simp only at hv
        rw [hv] at h1
        have := Option.some.inj h1
        omega
    · intro hall
      rcases e4 s hs with ⟨h1, _⟩ | ⟨i, x, _, h2, h3⟩
      · exact h1
      · have hx := (hmemF x).mp (List.getElem?_mem h2)
        exact absurd h3 (hall x hx.1 hx.2)
  · intro v hv hne
    simp only at hv
    rcases e4 s hs with ⟨h1, _⟩ | ⟨i, x, h1, h2, h3⟩
    · rw [hv] at h1
      exact absurd (Option.some.inj h1) hne
    · rw [hv] at h1
      have hvi : v = (i : Int) := Option.some.inj h1
      have hi : i < (nm.filter (fun n => decide (n.role = roleMaster))).length := by
        by_contra hcon
        rw [List.getElem?_eq_none (by omega)] at h2
        cases h2
      have hx := (hmemF x).mp (List.getElem?_mem h2)
      refine ⟨by omega, ?_, x, hx.1, hx.2, h3, ?_⟩
      · simp only [e2, List.length_map]
        omega
      · simp only [e2, hvi, Int.toNat_ofNat, List.getElem?_map, h2, Option.map_some']

theorem buildSnapshot_spec_witness :
    ∃ snap, buildSnapshot [nodeOf "a:7000" "master" [0, 1, 2], nodeOf "b:7001" "slave" [],
        nodeOf "c:7002" "master" [2, 16383]] = some snap ∧
      snap.slotN.length = 16384 ∧ snap.nodes = ["a:7000", "c:7002"] := by
  obtain ⟨snap, h1, h2, h3, _⟩ := buildSnapshot_spec
    [nodeOf "a:7000" "master" [0, 1, 2], nodeOf "b:7001" "slave" [],
     nodeOf "c:7002" "master" [2, 16383]] (by decide)
  exact ⟨snap, h1, h2, by rw [h3]; decide⟩

end cluster

namespace gostd

theorem splitCRLF_terminated (n : Nat) :
    ∀ p : List Char, p.length = n →
      ∃ first init, splitCRLF (p ++ ['\r', '\n']) = (first :: init) ++ [[]] := by
  induction n using Nat.strong_induction_on with
  | _ n ih =>
    intro p hp
    match p, hp with
    | [], _ => exact ⟨[], [], by simp [splitCRLF]⟩
    | [c], _ => exact ⟨[c], [], by simp [splitCRLF]⟩
    | c :: d :: rest, hp =>
      simp only [List.length_cons] at hp
      by_cases hcd : c = '\r' ∧ d = '\n'
      · obtain ⟨first, init, e⟩ := ih rest.length (by omega) rest rfl
        refine ⟨[], first :: init, ?_⟩
        rw [List.cons_append, List.cons_append, splitCRLF, if_pos hcd, e]
        rfl
      · obtain ⟨first, init, e⟩ := ih (d :: rest).length (by simp; omega) (d :: rest) rfl
        refine ⟨c :: first, init, ?_⟩
        rw [List.cons_append, List.cons_append, splitCRLF, if_neg hcd]
        rw [List.cons_append] at e
        rw [e]
        rfl

end gostd

namespace cluster

open gostd

theorem parseNode_empty (maxCap : Nat) : parseNode maxCap "" = Run.done none := by
  unfold parseNode
  rw [if_pos (by decide)]

theorem parseLines_last_empty (maxCap : Nat) (init : List String) (nm : List node)
    (r : List node × Option Err) (h : parseLines maxCap (init ++ [""]) nm = Run.done r) :
    r.2 = some Err.errNodesRespType := by
  induction init generalizing nm with
  | nil =>
    simp only [List.nil_append, parseLines, parseNode_empty] at h
    cases h
    rfl
  | cons line rest ih =>
    rw [List.cons_append, parseLines] at h
    cases hp : parseNode maxCap line with
    | done o =>
      cases o with
      | none =>
        simp only [hp] at h
        cases h
        rfl
      | some n =>
        simp only [hp] at h
        exact ih _ h
    | panic => simp only [hp] at h; cases h
    | outOfFuel => simp only [hp] at h; cases h

end cluster

namespace cluster

open gostd

theorem go_match_iff (Btoi : String → Option Int) (f0 f1 f2 : String) (ask : Bool)
    (addr : String) :
    (match Btoi f1 with
      | none => Verdict.badSlot
      | some _ => Verdict.go (decide (f0 = askBytes)) f2) = Verdict.go ask addr ↔
      (Btoi f1).isSome = true ∧ ask = decide (f0 = askBytes) ∧ addr = f2 := by
  cases Btoi f1 <;> simp [eq_comm]

theorem examine_go_iff (Btoi : String → Option Int) (m : Message) (ask : Bool)
    (addr : String) :
    examine Btoi m = Verdict.go ask addr ↔
      m.req.reply.rTp = respError ∧
      ∃ data f0 f1 f2, m.req.reply.data = some data ∧
        (HasPrefix data movedBytes = true ∨ HasPrefix data askBytes = true) ∧
        Fields data = [f0, f1, f2] ∧ (Btoi f1).isSome = true ∧
        ask = decide (f0 = askBytes) ∧ addr = f2 := by
  obtain ⟨id, tp, ⟨body, ⟨rTp, data⟩⟩⟩ := m
  cases data with
  | none => simp [examine]
  | some d =>
    by_cases ht : rTp = respError
    · cases h1 : HasPrefix d movedBytes <;> cases h2 : HasPrefix d askBytes <;>
        rcases hf : Fields d with _ | ⟨f0, _ | ⟨f1, _ | ⟨f2, _ | ⟨f3, t⟩⟩⟩⟩ <;>
        simp [examine, ht, h1, h2, hf]
      all_goals
        constructor
        · intro h
          exact ⟨f0, f1, f2, ⟨rfl, rfl, rfl⟩, (go_match_iff Btoi f0 f1 f2 ask addr).mp h⟩
        · rintro ⟨x, x1, x2, ⟨rfl, rfl, rfl⟩, h⟩
          exact (go_match_iff Btoi _ _ _ ask addr).mpr h
    · simp [examine, ht]

theorem qualifies_iff (Btoi : String → Option Int) (m : Message) :
    qualifies Btoi m = true ↔
      m.req.reply.rTp = respError ∧
      ∃ data f0 f1 f2, m.req.reply.data = some data ∧
        (HasPrefix data movedBytes = true ∨ HasPrefix data askBytes = true) ∧
        Fields data = [f0, f1, f2] ∧ (Btoi f1).isSome = true ∧
        planOf Btoi m = some (f2, redirectBatch (decide (f0 = askBytes)) m) := by
  constructor
  · intro h
    cases hex : examine Btoi m with
    | skip => simp [qualifies, hex] at h
    | badSlot => simp [qualifies, hex] at h
    | go ask addr =>
      obtain ⟨h1, data, f0, f1, f2, h2, h3, h4, h5, h6, h7⟩ :=
        (examine_go_iff Btoi m ask addr).mp hex
      refine ⟨h1, data, f0, f1, f2, h2, h3, h4, h5, ?_⟩
      simp [planOf, hex, h6, h7]
  · rintro ⟨h1, data, f0, f1, f2, h2, h3, h4, h5, _⟩
    have := (examine_go_iff Btoi m (decide (f0 = askBytes)) f2).mpr
      ⟨h1, data, f0, f1, f2, h2, h3, h4, h5, rfl, rfl⟩
    simp [qualifies, this]

theorem planOf_of_go (Btoi : String → Option Int) (m : Message) (ask : Bool) (addr : String)
    (h : examine Btoi m = Verdict.go ask addr) :
    planOf Btoi m = some (addr, redirectBatch ask m) ∧ qualifies Btoi m = true := by
  simp [planOf, qualifies, h]

theorem getElem?_mid (seen rest : List Message) (m : Message) :
    (seen ++ m :: rest)[seen.length]? = some m := by
  rw [List.getElem?_append_right (le_refl _)]
  simp

theorem getElem?_swap_mid (seen rest : List Message) (m m1 x : Message) (i : Nat)
    (h : (seen ++ m :: rest)[i]? = some x) (hi : i ≠ seen.length) :
    (seen ++ m1 :: rest)[i]? = some x := by
  by_cases hlt : i < seen.length
  · rw [List.getElem?_append_left hlt] at h ⊢
    exact h
  · have hge : seen.length ≤ i := by omega
    rw [List.getElem?_append_right hge] at h ⊢
    have : i - seen.length = (i - seen.length - 1) + 1 := by omega
    rw [this] at h ⊢
    simpa using h

theorem redirectLoop_spec {σ : Type} (B : Backends σ) (Btoi : String → Option Int)
    (cn : String) (again : World σ → String → List Message → Run (Result σ))
    (todo : List Message) :
    ∀ (w : World σ) (seen : List Message) (err : Option Err)
      (re : List (String × List Message)) (r : Result σ),
      redirectLoop B Btoi cn again w seen todo err re = Run.done r →
      ∃ k, k ≤ todo.length ∧
        r.reissued = re ++ (todo.take k).filterMap (planOf Btoi) ∧
        r.msgs.length = seen.length + todo.length ∧
        (∀ i x, (seen ++ todo)[i]? = some x →
          (i < seen.length ∨ qualifies Btoi x = false) → r.msgs[i]? = some x) ∧
        (k < todo.length → r.err ≠ none) := by
  induction todo with
  | nil =>
    intro w seen err re r h
    simp only [redirectLoop, Run.done.injEq] at h
    subst h
    exact ⟨0, le_refl _, by simp, by simp, fun i x hx _ => by simpa using hx, by simp⟩
  | cons m rest ih =>
    intro w seen err re r h
    have shift : ∀ (err1 : Option Err) (m1 : Message) (re1 : List (String × List Message))
        (pm : List (String × List Message)),
        (planOf Btoi m = none ∧ pm = [] ∨ qualifies Btoi m = true ∧ re1 = re ++ pm ∧
          (∃ p, planOf Btoi m = some p ∧ pm = [p])) →
        (planOf Btoi m = none → m1 = m ∧ re1 = re) →
        ∀ w1, redirectLoop B Btoi cn again w1 (seen ++ [m1]) rest err1 re1 = Run.done r →
        ∃ k, k ≤ (m :: rest).length ∧
          r.reissued = re ++ ((m :: rest).take k).filterMap (planOf Btoi) ∧
          r.msgs.length = seen.length + (m :: rest).length ∧
          (∀ i x, (seen ++ m :: rest)[i]? = some x →
            (i < seen.length ∨ qualifies Btoi x = false) → r.msgs[i]? = some x) ∧
          (k < (m :: rest).length → r.err ≠ none) := by
      intro err1 m1 re1 pm hpm hsame w1 h1
      obtain ⟨k, hk, e1, e2, e3, e4⟩ := ih w1 (seen ++ [m1]) err1 re1 r h1
      refine ⟨k + 1, by simp; omega, ?_, by simp at e2 ⊢; omega, ?_, ?_⟩
      · rw [e1]
        rcases hpm with ⟨hp, _⟩ | ⟨_, hre, p, hp, hpp⟩
        · rw [(hsame hp).2]
          simp [List.take_succ_cons, List.filterMap_cons, hp]
        · rw [hre, hpp]
          simp [List.take_succ_cons, List.filterMap_cons, hp]
      · intro i x hx hc
        by_cases hi : i = seen.length
        · subst hi
          have hxm : x = m := by
            rw [getElem?_mid] at hx
            exact (Option.some.inj hx).symm
          rcases hc with hc | hc
          · omega
          · rcases hpm with ⟨hp, _⟩ | ⟨hq, _⟩
            · have hm1 : m1 = m := (hsame hp).1
              have hx2 : ((seen ++ [m1]) ++ rest)[seen.length]? = some x := by
                rw [hm1, List.append_assoc]
                exact hx
              exact e3 seen.length x hx2 (Or.inl (by simp))
            · rw [hxm, hq] at hc; cases hc
        · have hx2 : ((seen ++ [m1]) ++ rest)[i]? = some x := by
            rw [List.append_assoc]
            exact getElem?_swap_mid seen rest m m1 x i hx hi
          refine e3 i x hx2 ?_
          rcases hc with hc | hc
          · left; simp; omega
          · right; exact hc
      · intro hlt
        exact e4 (by simp at hlt; omega)
    rw [redirectLoop] at h
    cases hex : examine Btoi m with
    | skip =>
      rw [hex] at h
      have hp : planOf Btoi m = none := by simp [planOf, hex]
      exact shift err m re [] (Or.inl ⟨hp, rfl⟩) (fun _ => ⟨rfl, rfl⟩) w h
    | badSlot =>
      rw [hex] at h
      have hp : planOf Btoi m = none := by simp [planOf, hex]
      exact shift (some Err.conv) m re [] (Or.inl ⟨hp, rfl⟩) (fun _ => ⟨rfl, rfl⟩) w h
    | go ask addr =>
      rw [hex] at h
      obtain ⟨hp, hq⟩ := planOf_of_go Btoi m ask addr hex
      have one : ∀ (w1 : World σ) (m1 : Message) (e : Err),
          r = ⟨w1, seen ++ m1 :: rest, some e, re ++ [(addr, redirectBatch ask m)]⟩ →
          ∃ k, k ≤ (m :: rest).length ∧
            r.reissued = re ++ ((m :: rest).take k).filterMap (planOf Btoi) ∧
            r.msgs.length = seen.length + (m :: rest).length ∧
            (∀ i x, (seen ++ m :: rest)[i]? = some x →
              (i < seen.length ∨ qualifies Btoi x = false) → r.msgs[i]? = some x) ∧
            (k < (m :: rest).length → r.err ≠ none) := by
        intro w1 m1 e hr
        subst hr
        refine ⟨1, by simp, by simp [hp], by simp, ?_, by simp⟩
        intro i x hx hc
        by_cases hi : i = seen.length
        · subst hi
          have hxm : x = m := by
            rw [getElem?_mid] at hx
            exact (Option.some.inj hx).symm
          rcases hc with hc | hc
          · omega
          · rw [hxm, hq] at hc; cases hc
        · exact getElem?_swap_mid seen rest m m1 x i hx hi
      cases hn : NewNodeConn w.dc cn addr with
      | none => simp [hn] at h
      | some nconn =>
        simp only [hn] at h
        cases hw : (B.WriteBatch w.net addr (redirectBatch ask m)).2 with
        | some e =>
          simp only [hw, Run.done.injEq] at h
          exact one _ m e h.symm
        | none =>
          simp only [hw] at h
          split at h
          · cases h
          · cases h
          · rename_i r1 _
            split at h
            · rename_i e _
              simp only [Run.done.injEq] at h
              exact one _ _ e h.symm
            · exact shift none _ (re ++ [(addr, redirectBatch ask m)])
                [(addr, redirectBatch ask m)]
                (Or.inr ⟨hq, rfl, _, hp, rfl⟩) (fun hh => by rw [hp] at hh; cases hh) _ h

end cluster

namespace cluster

open gostd proxy

theorem exists_first_true {α : Type} (p : α → Bool) (l : List α) (h : l.any p = true) :
    ∃ pre m post, l = pre ++ m :: post ∧ (∀ x ∈ pre, p x = false) ∧ p m = true := by
  induction l with
  | nil => simp at h
  | cons a rest ih =>
    cases hp : p a with
    | true => exact ⟨[], a, rest, rfl, fun x hx => absurd hx (List.not_mem_nil x), hp⟩
    | false =>
      have h1 : rest.any p = true := by
        simpa [List.any_cons, hp] using h
      obtain ⟨pre, m, post, e, hpre, hm⟩ := ih h1
      refine ⟨a :: pre, m, post, by rw [e]; rfl, ?_, hm⟩
      intro x hx
      rcases List.mem_cons.mp hx with e1 | e1
      · rw [e1]; exact hp
      · exact hpre x e1

theorem planOf_some (Btoi : String → Option Int) (m : Message) (a : String)
    (batch : List Message) (h : planOf Btoi m = some (a, batch)) :
    ∃ ask, examine Btoi m = Verdict.go ask a ∧ batch = redirectBatch ask m := by
  unfold planOf at h
  cases hv : examine Btoi m with
  | skip => simp [hv] at h
  | badSlot => simp [hv] at h
  | go ask addr =>
    simp only [hv, Option.some.injEq, Prod.mk.injEq] at h
    exact ⟨ask, by rw [h.1], h.2.symm⟩

theorem qualifies_go (Btoi : String → Option Int) (m : Message) (h : qualifies Btoi m = true) :
    ∃ ask a, examine Btoi m = Verdict.go ask a := by
  unfold qualifies at h
  cases hv : examine Btoi m with
  | skip => simp [hv] at h
  | badSlot => simp [hv] at h
  | go ask addr => exact ⟨ask, addr, rfl⟩

theorem redirectLoop_skip_prefix {σ : Type} (B : Backends σ) (Btoi : String → Option Int)
    (cn : String) (again : World σ → String → List Message → Run (Result σ)) :
    ∀ (pre seen rest : List Message) (w : World σ) (err : Option Err)
      (re : List (String × List Message)),
      (∀ m ∈ pre, qualifies Btoi m = false) →
      redirectLoop B Btoi cn again w seen (pre ++ rest) err re =
        redirectLoop B Btoi cn again w (seen ++ pre) rest
          (if pre.any (slotUnread Btoi) = true then some Err.conv else err) re := by
  intro pre
  induction pre with
  | nil =>
    intro seen rest w err re _
    simp
  | cons m pre ih =>
    intro seen rest w err re h
    have hm := h m (by simp)
    have hpre : ∀ x ∈ pre, qualifies Btoi x = false := fun x hx => h x (by simp [hx])
    cases hv : examine Btoi m with
    | skip =>
      rw [List.cons_append, redirectLoop]
      simp only [hv]
      rw [ih _ _ _ _ _ hpre]
      simp [slotUnread, hv]
    | badSlot =>
      rw [List.cons_append, redirectLoop]
      simp only [hv]
      rw [ih _ _ _ _ _ hpre]
      simp [slotUnread, hv]
    | go ask addr =>
      simp [qualifies, hv] at hm

theorem redirectLoop_nil_map {σ : Type} (B : Backends σ) (Btoi : String → Option Int)
    (cn : String) (again : World σ → String → List Message → Run (Result σ))
    (seen rest : List Message) (m : Message) (w : World σ) (err : Option Err)
    (re : List (String × List Message)) (hmap : w.dc.addrm = none)
    (hq : qualifies Btoi m = true) :
    redirectLoop B Btoi cn again w seen (m :: rest) err re = Run.panic := by
  obtain ⟨ask, a, hv⟩ := qualifies_go Btoi m hq
  rw [redirectLoop]
  simp only [hv, NewNodeConn, Cluster.add, hmap]

theorem redirectLoop_write_fails {σ : Type} (B : Backends σ) (Btoi : String → Option Int)
    (cn : String) (again : World σ → String → List Message → Run (Result σ))
    (seen rest : List Message) (m : Message) (w : World σ) (err : Option Err)
    (re : List (String × List Message)) (seeds : List String) (ask : Bool) (a : String)
    (e : Err) (hmap : w.dc.addrm = some seeds) (hv : examine Btoi m = Verdict.go ask a)
    (hw : (B.WriteBatch w.net a (redirectBatch ask m)).2 = some e) :
    redirectLoop B Btoi cn again w seen (m :: rest) err re =
      Run.done
        { w := { net := (B.WriteBatch w.net a (redirectBatch ask m)).1,
                 dc := { addrm := some (if a ∈ seeds then seeds else seeds ++ [a]),
                         fetching := true },
                 dials := w.dials ++ [a] },
          msgs := seen ++ m :: rest,
          err := some e,
          reissued := re ++ [(a, redirectBatch ask m)] } := by
  rw [redirectLoop]
  simp only [hv, NewNodeConn, Cluster.add, hmap, hw]

theorem redirectLoop_read_fails {σ : Type} (B : Backends σ) (Btoi : String → Option Int)
    (cn : String) (again : World σ → String → List Message → Run (Result σ))
    (seen rest : List Message) (m : Message) (w : World σ) (err : Option Err)
    (re : List (String × List Message)) (seeds : List String) (ask : Bool) (a : String)
    (r : Result σ) (e : Err) (hmap : w.dc.addrm = some seeds)
    (hv : examine Btoi m = Verdict.go ask a)
    (hw : (B.WriteBatch w.net a (redirectBatch ask m)).2 = none)
    (hagain : again
        { net := (B.WriteBatch w.net a (redirectBatch ask m)).1,
          dc := { addrm := some (if a ∈ seeds then seeds else seeds ++ [a]), fetching := true },
          dials := w.dials ++ [a] } a (redirectBatch ask m) = Run.done r)
    (he : r.err = some e) :
    redirectLoop B Btoi cn again w seen (m :: rest) err re =
      Run.done
        { w := r.w,
          msgs := seen ++ (r.msgs.getLast?.getD m) :: rest,
          err := some e,
          reissued := re ++ [(a, redirectBatch ask m)] } := by
  rw [redirectLoop]
  simp only [hv, NewNodeConn, Cluster.add, hmap, hw, hagain, he]

end cluster

namespace cluster

open gostd proxy

/-- C13: with the default cluster as declared (`addrm` is the nil map),
`ReadBatch` re-issues nothing. After a successful underlying read, when no
reply qualifies it returns with every reply left as assigned and nothing
sent; as soon as one reply qualifies it panics, in `NewNodeConn`, before
the one-off batch is written: a message whose reply qualifies is never
re-issued. This holds for every batch, all backends and every budget; the
batch of one message with the reply `MOVED 3999 127.0.0.1:7002` is an
instance. Were the seed map made, the loop would still not re-issue every
qualifying message: when the write of a one-off batch fails, or the read
on the new connection fails, `ReadBatch` returns that error at once with
that one batch written and the messages after it untouched, whether their
replies qualify or not; two messages with qualifying replies against
backends whose writes fail are an instance. -/
theorem ReadBatch_reissue_panics :
    (∀ (σ : Type) (B : Backends σ) (Btoi : String → Option Int) (cn : String) (fuel : Nat)
        (w : World σ) (addr : String) (mb : List Message),
      w.dc.addrm = none →
      (B.ReadBatch w.net addr mb).2.1 = none →
      ReadBatch B Btoi cn (fuel + 1) w addr mb =
        if (assign mb (B.ReadBatch w.net addr mb).2.2).any (qualifies Btoi) = true then Run.panic
        else
          Run.done
            { w := { w with net := (B.ReadBatch w.net addr mb).1 },
              msgs := assign mb (B.ReadBatch w.net addr mb).2.2,
              err := if (assign mb (B.ReadBatch w.net addr mb).2.2).any (slotUnread Btoi) = true
                then some Err.conv else none,
              reissued := [] }) ∧
    defaultCluster.addrm = none ∧
    (∀ cn addr : String, NewNodeConn defaultCluster cn addr = none) ∧
    qualifies decimalBtoi (msgWith 1 "GET k" '-' "MOVED 3999 127.0.0.1:7002") = true ∧
    ReadBatch (answering (fun _ => ⟨'-', some "MOVED 3999 127.0.0.1:7002"⟩)) decimalBtoi "c" 3
        { readyWorld with dc := defaultCluster } "a:7000"
        [msgWith 1 "GET k" (Char.ofNat 0) ""] = Run.panic ∧
    (∀ (σ : Type) (B : Backends σ) (Btoi : String → Option Int) (cn : String) (fuel : Nat)
        (w : World σ) (addr : String) (mb pre post : List Message) (m : Message)
        (a : String) (batch : List Message) (seeds : List String) (e : Err),
      w.dc.addrm = some seeds →
      (B.ReadBatch w.net addr mb).2.1 = none →
      assign mb (B.ReadBatch w.net addr mb).2.2 = pre ++ m :: post →
      (∀ x ∈ pre, qualifies Btoi x = false) →
      planOf Btoi m = some (a, batch) →
      (B.WriteBatch (B.ReadBatch w.net addr mb).1 a batch).2 = some e →
      ReadBatch B Btoi cn (fuel + 1) w addr mb =
        Run.done
          { w := { net := (B.WriteBatch (B.ReadBatch w.net addr mb).1 a batch).1,
                   dc := { addrm := some (if a ∈ seeds then seeds else seeds ++ [a]),
                           fetching := true },
                   dials := w.dials ++ [a] },
            msgs := pre ++ m :: post,
            err := some e,
            reissued := [(a, batch)] }) ∧
    (∀ (σ : Type) (B : Backends σ) (Btoi : String → Option Int) (cn : String) (fuel : Nat)
        (w : World σ) (addr : String) (mb pre post : List Message) (m : Message)
        (a : String) (batch : List Message) (seeds : List String) (e : Err),
      w.dc.addrm = some seeds →
      (B.ReadBatch w.net addr mb).2.1 = none →
      assign mb (B.ReadBatch w.net addr mb).2.2 = pre ++ m :: post →
      (∀ x ∈ pre, qualifies Btoi x = false) →
      planOf Btoi m = some (a, batch) →
      (B.WriteBatch (B.ReadBatch w.net addr mb).1 a batch).2 = none →
      (B.ReadBatch (B.WriteBatch (B.ReadBatch w.net addr mb).1 a batch).1 a batch).2.1 =
        some e →
      ReadBatch B Btoi cn (fuel + 2) w addr mb =
        Run.done
          { w := { net :=
                     (B.ReadBatch (B.WriteBatch (B.ReadBatch w.net addr mb).1 a batch).1
                       a batch).1,
                   dc := { addrm := some (if a ∈ seeds then seeds else seeds ++ [a]),
                           fetching := true },
                   dials := w.dials ++ [a] },
            msgs := pre ++
              ((assign batch
                (B.ReadBatch (B.WriteBatch (B.ReadBatch w.net addr mb).1 a batch).1
                  a batch).2.2).getLast?.getD m) :: post,
            err := some e,
            reissued := [(a, batch)] }) ∧
    (ReadBatch (failingWrites (fun i => if i = 1 then "MOVED 1 b:1" else "MOVED 2 c:2"))
        decimalBtoi "c" 3 readyWorld "a:7000"
        [msgWith 1 "GET k" (Char.ofNat 0) "", msgWith 2 "GET j" (Char.ofNat 0) ""] =
      Run.done
        { w := { net := (), dc := { addrm := some ["b:1"], fetching := true }, dials := ["b:1"] },
          msgs := [msgWith 1 "GET k" '-' "MOVED 1 b:1", msgWith 2 "GET j" '-' "MOVED 2 c:2"],
          err := some (Err.io 1),
          reissued := [("b:1", [msgWith 1 "GET k" '-' "MOVED 1 b:1"])] } ∧
      qualifies decimalBtoi (msgWith 2 "GET j" '-' "MOVED 2 c:2") = true) := by
  refine ⟨?_, rfl, fun _ _ => rfl, by decide, by decide, ?_, ?_, by decide⟩
  · intro σ B Btoi cn fuel w addr mb hmap hread
    simp only [ReadBatch, hread]
    by_cases hany : (assign mb (B.ReadBatch w.net addr mb).2.2).any (qualifies Btoi) = true
    · obtain ⟨pre, m, post, e, hpre, hm⟩ := exists_first_true _ _ hany
      rw [if_pos hany, e, redirectLoop_skip_prefix B Btoi cn _ pre [] (m :: post) _ _ _ hpre]
      exact redirectLoop_nil_map B Btoi cn _ _ _ _ _ _ _ hmap hm
    · rw [if_neg hany]
      have hall : ∀ x ∈ assign mb (B.ReadBatch w.net addr mb).2.2, qualifies Btoi x = false := by
        intro x hx
        cases hq : qualifies Btoi x with
        | false => rfl
        | true => exact absurd (List.any_eq_true.mpr ⟨x, hx, hq⟩) hany
      have h := redirectLoop_skip_prefix B Btoi cn (ReadBatch B Btoi cn fuel)
        (assign mb (B.ReadBatch w.net addr mb).2.2) [] []
        { w with net := (B.ReadBatch w.net addr mb).1 } none [] hall
      rw [List.append_nil] at h
      rw [h]
      simp [redirectLoop]
  · intro σ B Btoi cn fuel w addr mb pre post m a batch seeds e hmap hread hassign hpre hplan hw
    obtain ⟨ask, hv, rfl⟩ := planOf_some Btoi m a batch hplan
    simp only [ReadBatch, hread]
    rw [hassign, redirectLoop_skip_prefix B Btoi cn _ pre [] (m :: post) _ _ _ hpre]
    rw [redirectLoop_write_fails B Btoi cn _ _ _ m
      { w with net := (B.ReadBatch w.net addr mb).1 } _ _ seeds ask a e hmap hv hw]
    simp
  · intro σ B Btoi cn fuel w addr mb pre post m a batch seeds e hmap hread hassign hpre hplan hw
      hrd
    obtain ⟨ask, hv, rfl⟩ := planOf_some Btoi m a batch hplan
    have hsub : ReadBatch B Btoi cn (fuel + 1)
        { net := (B.WriteBatch (B.ReadBatch w.net addr mb).1 a (redirectBatch ask m)).1,
          dc := { addrm := some (if a ∈ seeds then seeds else seeds ++ [a]), fetching := true },
          dials := w.dials ++ [a] } a (redirectBatch ask m) =
        Run.done
          { w := { net :=
                     (B.ReadBatch
                       (B.WriteBatch (B.ReadBatch w.net addr mb).1 a (redirectBatch ask m)).1
                       a (redirectBatch ask m)).1,
                   dc := { addrm := some (if a ∈ seeds then seeds else seeds ++ [a]),
                           fetching := true },
                   dials := w.dials ++ [a] },
            msgs := assign (redirectBatch ask m)
              (B.ReadBatch
                (B.WriteBatch (B.ReadBatch w.net addr mb).1 a (redirectBatch ask m)).1
                a (redirectBatch ask m)).2.2,
            err := some e,
            reissued := [] } := by
      simp only [ReadBatch, hrd]
    rw [ReadBatch]
    simp only [hread]
    rw [hassign, redirectLoop_skip_prefix B Btoi cn _ pre [] (m :: post) _ _ _ hpre]
    rw [redirectLoop_read_fails B Btoi cn _ _ _ m
      { w with net := (B.ReadBatch w.net addr mb).1 } _ _ seeds ask a _ e hmap hv hw hsub rfl]
    simp

end cluster

namespace cluster

open gostd proxy

/-- C14: for a message whose reply is `-ASK 3999 127.0.0.1:7002`, with the
default cluster as declared `ReadBatch` panics in `NewNodeConn` before
anything is sent; with the seed map made, the one-off batch written to
`127.0.0.1:7002` is `[askM, m]`, whose first request is the blank request
of `redis.GetReq()`: its command body is empty, not the ASKING command
`*1\r\n$6\r\nASKING\r\n`. -/
theorem ReadBatch_ask_batch :
    ReadBatch (answering (fun a =>
          if a = "a:7000" then ⟨'-', some "ASK 3999 127.0.0.1:7002"⟩ else ⟨'+', some "OK"⟩))
        decimalBtoi "c" 3 { readyWorld with dc := defaultCluster } "a:7000"
        [msgWith 1 "GET k" (Char.ofNat 0) ""] = Run.panic ∧
    (∀ r, ReadBatch (answering (fun a =>
          if a = "a:7000" then ⟨'-', some "ASK 3999 127.0.0.1:7002"⟩ else ⟨'+', some "OK"⟩))
        decimalBtoi "c" 3 readyWorld "a:7000"
        [msgWith 1 "GET k" (Char.ofNat 0) ""] = Run.done r →
      r.reissued =
        [("127.0.0.1:7002", [askM, msgWith 1 "GET k" '-' "ASK 3999 127.0.0.1:7002"])]) ∧
    (∃ r, ReadBatch (answering (fun a =>
          if a = "a:7000" then ⟨'-', some "ASK 3999 127.0.0.1:7002"⟩ else ⟨'+', some "OK"⟩))
        decimalBtoi "c" 3 readyWorld "a:7000"
        [msgWith 1 "GET k" (Char.ofNat 0) ""] = Run.done r) ∧
    askM.req = GetReq ∧ askM.req.body = "" ∧ askM.req.body ≠ "*1\r\n$6\r\nASKING\r\n" := by
  have hrun : ReadBatch (answering (fun a =>
          if a = "a:7000" then ⟨'-', some "ASK 3999 127.0.0.1:7002"⟩ else ⟨'+', some "OK"⟩))
        decimalBtoi "c" 3 readyWorld "a:7000"
        [msgWith 1 "GET k" (Char.ofNat 0) ""] =
      Run.done
        { w := { net := (), dc := { addrm := some ["127.0.0.1:7002"], fetching := true },
                 dials := ["127.0.0.1:7002"] },
          msgs := [msgWith 1 "GET k" '+' "OK"],
          err := none,
          reissued :=
            [("127.0.0.1:7002", [askM, msgWith 1 "GET k" '-' "ASK 3999 127.0.0.1:7002"])] } := by
    decide
  refine ⟨by decide, ?_, ⟨_, hrun⟩, rfl, rfl, by decide⟩
  intro r hr
  rw [hrun] at hr
  cases hr
  rfl

end cluster

namespace cluster

open gostd proxy

theorem ReadBatch_hop {σ : Type} (B : Backends σ) (Btoi : String → Option Int) (cn : String)
    (fuel : Nat) (w : World σ) (addr : String) (m m1 : Message) (ask : Bool) (a1 : String)
    (seeds : List String)
    (hread : (B.ReadBatch w.net addr [m]).2.1 = none)
    (hassign : assign [m] (B.ReadBatch w.net addr [m]).2.2 = [m1])
    (hex : examine Btoi m1 = Verdict.go ask a1)
    (hseeds : w.dc.addrm = some seeds)
    (hwrite : (B.WriteBatch (B.ReadBatch w.net addr [m]).1 a1 (redirectBatch ask m1)).2 = none) :
    ReadBatch B Btoi cn (fuel + 1) w addr [m] =
      hopResult m1 (a1, redirectBatch ask m1)
        (ReadBatch B Btoi cn fuel
          { net := (B.WriteBatch (B.ReadBatch w.net addr [m]).1 a1 (redirectBatch ask m1)).1,
            dc := { addrm := some (if a1 ∈ seeds then seeds else seeds ++ [a1]),
                    fetching := true },
            dials := w.dials ++ [a1] }
          a1 (redirectBatch ask m1)) := by
  have hn : NewNodeConn w.dc cn a1 =
      some ({ cluster := cn, addr := a1 },
        { addrm := some (if a1 ∈ seeds then seeds else seeds ++ [a1]), fetching := true }) := by
    simp [NewNodeConn, Cluster.add, hseeds]
  simp only [ReadBatch, hread, hassign, redirectLoop, hex, hn, hwrite]
  cases ReadBatch B Btoi cn fuel
      { net := (B.WriteBatch (B.ReadBatch w.net addr [m]).1 a1 (redirectBatch ask m1)).1,
        dc := { addrm := some (if a1 ∈ seeds then seeds else seeds ++ [a1]),
                fetching := true },
        dials := w.dials ++ [a1] }
      a1 (redirectBatch ask m1) with
  | panic => rfl
  | outOfFuel => rfl
  | done r =>
    simp only [hopResult]
    cases he : r.err <;> simp [redirectLoop, he]

end cluster

namespace cluster

open gostd proxy

theorem redirectLoop_sub_unfinished {σ : Type} (B : Backends σ) (Btoi : String → Option Int)
    (cn : String) (again : World σ → String → List Message → Run (Result σ))
    (seen rest : List Message) (m : Message) (w : World σ) (err : Option Err)
    (re : List (String × List Message)) (seeds : List String) (ask : Bool) (a : String)
    (hmap : w.dc.addrm = some seeds) (hv : examine Btoi m = Verdict.go ask a)
    (hw : (B.WriteBatch w.net a (redirectBatch ask m)).2 = none)
    (hagain : again
        { net := (B.WriteBatch w.net a (redirectBatch ask m)).1,
          dc := { addrm := some (if a ∈ seeds then seeds else seeds ++ [a]), fetching := true },
          dials := w.dials ++ [a] } a (redirectBatch ask m) = Run.outOfFuel) :
    redirectLoop B Btoi cn again w seen (m :: rest) err re = Run.outOfFuel := by
  rw [redirectLoop]
  simp only [hv, NewNodeConn, Cluster.add, hmap, hw, hagain]

theorem alwaysMoved_batch_never_returns (cn : String) (fuel : Nat) :
    ∀ (w : World Unit) (addr : String) (m : Message) (rest : List Message)
      (seeds : List String), w.dc.addrm = some seeds →
      ReadBatch alwaysMoved decimalBtoi cn fuel w addr (m :: rest) = Run.outOfFuel := by
  induction fuel with
  | zero => intro w addr m rest seeds _; rfl
  | succ fuel ih =>
    intro w addr m rest seeds hs
    have hex : examine decimalBtoi
        { m with req := { m.req with reply := ⟨'-', some "MOVED 3999 b:7001"⟩ } } =
        Verdict.go false "b:7001" :=
      (examine_go_iff decimalBtoi _ false "b:7001").mpr
        ⟨rfl, "MOVED 3999 b:7001", "MOVED", "3999", "b:7001", rfl, by decide, by decide,
          by decide, by decide, rfl⟩
    have hassign : assign (m :: rest)
        ((alwaysMoved.ReadBatch w.net addr (m :: rest)).2.2) =
        { m with req := { m.req with reply := ⟨'-', some "MOVED 3999 b:7001"⟩ } } ::
          assign rest (rest.map (fun _ => (⟨'-', some "MOVED 3999 b:7001"⟩ : Reply))) := rfl
    have hread : (alwaysMoved.ReadBatch w.net addr (m :: rest)).2.1 = none := rfl
    rw [ReadBatch]
    simp only [hread]
    rw [hassign]
    exact redirectLoop_sub_unfinished alwaysMoved decimalBtoi cn _ _ _ _
      { w with net := (alwaysMoved.ReadBatch w.net addr (m :: rest)).1 } _ _ seeds false
      "b:7001" hs hex rfl
      (ih _ "b:7001" _ [] (if "b:7001" ∈ seeds then seeds else seeds ++ ["b:7001"]) rfl)

/-- C15: with the default cluster as declared (`addrm` is the nil map), one
call of `ReadBatch` on a batch in which a reply qualifies does not
complete, whatever the backends do and whatever the budget: it panics in
`NewNodeConn` at the first hop, before any extra write or read. The chain
in which node `a` answers MOVED to `b` and `b` answers MOVED to `c` is an
instance. Were the seed map made, redirection would not be single-hop
either: the connection for the re-issue is a cluster connection, whose
`ReadBatch` redirects in turn; on that chain one call opens connections
to `b` and then to `c` and leaves the reply of `c` on the message, and
against backends that answer every read with MOVED it does not return on
any non-empty batch, whatever the budget. -/
theorem ReadBatch_first_hop_panics :
    (∀ (σ : Type) (B : Backends σ) (Btoi : String → Option Int) (cn : String) (fuel : Nat)
        (w : World σ) (addr : String) (mb : List Message),
      w.dc.addrm = none →
      (B.ReadBatch w.net addr mb).2.1 = none →
      (assign mb (B.ReadBatch w.net addr mb).2.2).any (qualifies Btoi) = true →
      ReadBatch B Btoi cn (fuel + 1) w addr mb = Run.panic) ∧
    defaultCluster.addrm = none ∧
    (∀ fuel : Nat,
      ReadBatch (answering chainAnswer) decimalBtoi "c" (fuel + 1)
        { readyWorld with dc := defaultCluster } "a:7000"
        [msgWith 1 "GET k" (Char.ofNat 0) ""] = Run.panic) ∧
    ReadBatch (answering chainAnswer) decimalBtoi "c" 3 readyWorld "a:7000"
        [msgWith 1 "GET k" (Char.ofNat 0) ""] =
      Run.done
        { w := { net := (), dc := { addrm := some ["b:7001", "c:7002"], fetching := true },
                 dials := ["b:7001", "c:7002"] },
          msgs := [msgWith 1 "GET k" '+' "OK"],
          err := none,
          reissued := [("b:7001", [msgWith 1 "GET k" '-' "MOVED 3999 b:7001"])] } ∧
    (∀ (cn : String) (fuel : Nat) (w : World Unit) (addr : String) (m : Message)
        (rest : List Message) (seeds : List String),
      w.dc.addrm = some seeds →
      ReadBatch alwaysMoved decimalBtoi cn fuel w addr (m :: rest) = Run.outOfFuel) := by
  have hgen : ∀ (σ : Type) (B : Backends σ) (Btoi : String → Option Int) (cn : String)
      (fuel : Nat) (w : World σ) (addr : String) (mb : List Message),
      w.dc.addrm = none →
      (B.ReadBatch w.net addr mb).2.1 = none →
      (assign mb (B.ReadBatch w.net addr mb).2.2).any (qualifies Btoi) = true →
      ReadBatch B Btoi cn (fuel + 1) w addr mb = Run.panic := by
    intro σ B Btoi cn fuel w addr mb hmap hread hany
    simp only [ReadBatch, hread]
    obtain ⟨pre, m, post, e, hpre, hm⟩ := exists_first_true _ _ hany
    rw [e, redirectLoop_skip_prefix B Btoi cn _ pre [] (m :: post) _ _ _ hpre]
    exact redirectLoop_nil_map B Btoi cn _ _ _ _ _ _ _ hmap hm
  refine ⟨hgen, rfl, ?_, by decide, ?_⟩
  · intro fuel
    exact hgen Unit (answering chainAnswer) decimalBtoi "c" fuel
      { readyWorld with dc := defaultCluster } "a:7000" _ rfl rfl (by decide)
  · intro cn fuel w addr m rest seeds hs
    exact alwaysMoved_batch_never_returns cn fuel w addr m rest seeds hs

end cluster

namespace gostd

theorem wrapInt64_of_range (x : Int) (h1 : -9223372036854775808 ≤ x)
    (h2 : x ≤ 9223372036854775807) : wrapInt64 x = x := by
  unfold wrapInt64
  norm_num
  omega

theorem wrapInt64_le (x : Int) : wrapInt64 x ≤ maxInt64 := by
  unfold wrapInt64 maxInt64
  norm_num
  omega

end gostd

namespace cluster

open gostd

theorem slotLoop_run (e : Int) (he : e < maxInt64) :
    ∀ (n room : Nat) (i : Int) (acc : List Int), i + n = e + 1 → -9223372036854775808 ≤ i →
      n ≤ room →
      slotLoop e room i acc =
        Run.done (acc ++ (List.range n).map (fun (k : Nat) => i + (k : Int))) := by
  intro n
  induction n with
  | zero =>
    intro room i acc h _ _
    have : ¬ i ≤ e := by omega
    cases room <;> simp [slotLoop, this]
  | succ n ih =>
    intro room i acc h hi hroom
    obtain ⟨r, rfl⟩ : ∃ r, room = r + 1 := ⟨room - 1, by omega⟩
    have h1 : i ≤ e := by omega
    have hw : wrapInt64 (i + 1) = i + 1 :=
      wrapInt64_of_range _ (by omega) (by unfold maxInt64 at he; omega)
    rw [slotLoop, if_pos h1, hw, ih r (i + 1) (acc ++ [i]) (by omega) (by omega) (by omega)]
    rw [List.range_succ_eq_map, List.map_cons, List.map_map]
    simp only [List.append_assoc, List.singleton_append, Nat.cast_zero, add_zero]
    congr 4
    funext k
    simp only [Function.comp, Nat.cast_succ]
    omega

theorem slotLoop_wraps :
    ∀ (room : Nat) (i : Int) (acc : List Int), i ≤ maxInt64 →
      slotLoop maxInt64 room i acc = Run.panic := by
  intro room
  induction room with
  | zero =>
    intro i acc hi
    rw [slotLoop, if_pos hi]
  | succ n ih =>
    intro i acc hi
    rw [slotLoop, if_pos hi]
    exact ih _ _ (wrapInt64_le _)

end cluster

namespace gostd

theorem decValue_mono (cs : List Char) :
    ∀ (n v : Nat), decValue cs n = some v → n ≤ v := by
  induction cs with
  | nil =>
    intro n v h
    simp only [decValue, Option.some.injEq] at h
    omega
  | cons c cs ih =>
    intro n v h
    by_cases hd : '0' ≤ c ∧ c ≤ '9'
    · simp only [decValue, hd, and_self, if_true] at h
      have := ih _ _ h
      omega
    · simp only [decValue, hd, if_false] at h
      cases h

theorem scanUint_value (cs : List Char) :
    ∀ (n v : Nat), scanUint cs n = Scan.value v → decValue cs n = some v := by
  induction cs with
  | nil =>
    intro n v h
    simp only [scanUint, Scan.value.injEq] at h
    simp [decValue, h]
  | cons c cs ih =>
    intro n v h
    by_cases hd : '0' ≤ c ∧ c ≤ '9'
    · simp only [scanUint, hd, and_self, if_true] at h
      split_ifs at h
      simp only [decValue, hd, and_self, if_true]
      exact ih _ _ h
    · simp only [scanUint, hd, if_false] at h
      cases h

theorem scanUint_value_le (cs : List Char) :
    ∀ (n v : Nat), n ≤ 18446744073709551615 → scanUint cs n = Scan.value v →
      v ≤ 18446744073709551615 := by
  induction cs with
  | nil =>
    intro n v hn h
    simp only [scanUint, Scan.value.injEq] at h
    omega
  | cons c cs ih =>
    intro n v hn h
    by_cases hd : '0' ≤ c ∧ c ≤ '9'
    · simp only [scanUint, hd, and_self, if_true] at h
      split_ifs at h with h1 h2
      exact ih _ _ (by omega) h
    · simp only [scanUint, hd, if_false] at h
      cases h

theorem scanUint_of_decValue (cs : List Char) :
    ∀ (n v : Nat), decValue cs n = some v → v ≤ 18446744073709551615 →
      scanUint cs n = Scan.value v := by
  induction cs with
  | nil =>
    intro n v h _
    simp only [decValue, Option.some.injEq] at h
    simp [scanUint, h]
  | cons c cs ih =>
    intro n v h hv
    by_cases hd : '0' ≤ c ∧ c ≤ '9'
    · simp only [decValue, hd, and_self, if_true] at h
      have hm := decValue_mono cs _ _ h
      have h1 : ¬ 1844674407370955162 ≤ n := by omega
      have h2 : ¬ n * 10 + (c.toNat - 48) > 18446744073709551615 := by omega
      simp only [scanUint, hd, and_self, if_true, h1, h2, if_false]
      exact ih _ _ h hv
    · simp only [decValue, hd, if_false] at h
      cases h

theorem Atoi_minus (ds : List Char) :
    Atoi (String.mk ('-' :: ds)) =
      if ds.isEmpty then (0, false)
      else match scanUint ds 0 with
        | Scan.syntaxErr => (0, false)
        | Scan.rangeErr => (-9223372036854775808, false)
        | Scan.value n =>
          if n > 9223372036854775808 then (-9223372036854775808, false) else (-(n : Int), true) := by
  simp only [Atoi]
  rfl

theorem Atoi_plus (ds : List Char) :
    Atoi (String.mk ('+' :: ds)) =
      if ds.isEmpty then (0, false)
      else match scanUint ds 0 with
        | Scan.syntaxErr => (0, false)
        | Scan.rangeErr => (9223372036854775807, false)
        | Scan.value n =>
          if n ≥ 9223372036854775808 then (9223372036854775807, false) else ((n : Int), true) := by
  simp only [Atoi]
  rfl

theorem Atoi_plain (ds : List Char) (h1 : ds.head? ≠ some '-') (h2 : ds.head? ≠ some '+') :
    Atoi (String.mk ds) =
      if ds.isEmpty then (0, false)
      else match scanUint ds 0 with
        | Scan.syntaxErr => (0, false)
        | Scan.rangeErr => (9223372036854775807, false)
        | Scan.value n =>
          if n ≥ 9223372036854775808 then (9223372036854775807, false) else ((n : Int), true) := by
  unfold Atoi
  split
  · next cs heq =>
    have e : ds = '-' :: cs := heq
    rw [e] at h1
    exact absurd rfl h1
  · next cs heq =>
    have e : ds = '+' :: cs := heq
    rw [e] at h2
    exact absurd rfl h2
  · rfl

end gostd

namespace cluster

open gostd

theorem slotNumber_minus (ds : List Char) :
    slotNumber (String.mk ('-' :: ds)) =
      match (if decimal ds = some 0 then some 0 else none : Option Nat) with
      | some n => if (n : Int) ≤ maxInt64 then some n else none
      | none => none := by
  simp only [slotNumber]

theorem slotNumber_plus (ds : List Char) :
    slotNumber (String.mk ('+' :: ds)) =
      match decimal ds with
      | some n => if (n : Int) ≤ maxInt64 then some n else none
      | none => none := by
  simp only [slotNumber]

theorem slotNumber_plain (ds : List Char) (h1 : ds.head? ≠ some '-')
    (h2 : ds.head? ≠ some '+') :
    slotNumber (String.mk ds) =
      match decimal ds with
      | some n => if (n : Int) ≤ maxInt64 then some n else none
      | none => none := by
  unfold slotNumber
  split
  · next cs heq =>
    have e : ds = '+' :: cs := heq
    rw [e] at h2
    exact absurd rfl h2
  · next cs heq =>
    have e : ds = '-' :: cs := heq
    rw [e] at h1
    exact absurd rfl h1
  · rfl

theorem unsigned_iff (cs : List Char) (n : Nat) (hcs : ¬ cs.isEmpty = true) :
    (match decimal cs with
      | some m => if (m : Int) ≤ maxInt64 then some m else none
      | none => none) = some n ↔
    (match scanUint cs 0 with
      | Scan.syntaxErr => ((0 : Int), false)
      | Scan.rangeErr => (9223372036854775807, false)
      | Scan.value m =>
        if m ≥ 9223372036854775808 then (9223372036854775807, false) else ((m : Int), true)) =
      ((n : Int), true) := by
  unfold decimal maxInt64
  simp only [hcs, Bool.false_eq_true, if_false]
  cases hs : scanUint cs 0 with
  | value m =>
    have hd := scanUint_value cs 0 m hs
    simp only [hd]
    split_ifs with h1 h2 h2
    · omega
    · simp
    · simp
    · omega
  | syntaxErr =>
    simp only [Prod.mk.injEq, Bool.false_eq_true, and_false, iff_false]
    cases hd : decValue cs 0 with
    | none => simp
    | some m =>
      simp only
      split_ifs with h1
      · have := scanUint_of_decValue cs 0 m hd (by omega)
        rw [hs] at this
        cases this
      · simp
  | rangeErr =>
    simp only [Prod.mk.injEq, Bool.false_eq_true, and_false, iff_false]
    cases hd : decValue cs 0 with
    | none => simp
    | some m =>
      simp only
      split_ifs with h1
      · have := scanUint_of_decValue cs 0 m hd (by omega)
        rw [hs] at this
        cases this
      · simp

theorem slotNumber_iff_Atoi (s : String) (n : Nat) :
    slotNumber s = some n ↔ Atoi s = ((n : Int), true) := by
  obtain ⟨ds⟩ := s
  by_cases h1 : ds.head? = some '-'
  · obtain ⟨cs, rfl⟩ : ∃ cs, ds = '-' :: cs := by
      cases ds with
      | nil => simp at h1
      | cons c cs => simp at h1; exact ⟨cs, by rw [h1]⟩
    rw [slotNumber_minus, Atoi_minus]
    unfold decimal maxInt64
    by_cases hcs : cs.isEmpty = true
    · simp [hcs]
    · simp only [hcs, Bool.false_eq_true, if_false]
      cases hs : scanUint cs 0 with
      | value m =>
        have hd := scanUint_value cs 0 m hs
        simp only [hd]
        by_cases hm : m = 0
        · subst hm
          simp
          omega
        · have : ¬ (some m = some 0) := by simpa using hm
          simp only [this, if_false]
          split_ifs
          · simp
          · simp
            omega
      | syntaxErr =>
        simp only [Prod.mk.injEq, Bool.false_eq_true, and_false, iff_false]
        by_cases h0 : decValue cs 0 = some 0
        · have := scanUint_of_decValue cs 0 0 h0 (by omega)
          rw [hs] at this
          cases this
        · simp [h0]
      | rangeErr =>
        simp only [Prod.mk.injEq, Bool.false_eq_true, and_false, iff_false]
        by_cases h0 : decValue cs 0 = some 0
        · have := scanUint_of_decValue cs 0 0 h0 (by omega)
          rw [hs] at this
          cases this
        · simp [h0]
  · by_cases h2 : ds.head? = some '+'
    · obtain ⟨cs, rfl⟩ : ∃ cs, ds = '+' :: cs := by
        cases ds with
        | nil => simp at h2
        | cons c cs => simp at h2; exact ⟨cs, by rw [h2]⟩
      rw [slotNumber_plus, Atoi_plus]
      by_cases hcs : cs.isEmpty = true
      · simp [hcs, decimal]
      · simp only [hcs, Bool.false_eq_true, if_false]
        exact unsigned_iff cs n hcs
    · rw [slotNumber_plain ds h1 h2, Atoi_plain ds h1 h2]
      by_cases hcs : ds.isEmpty = true
      · simp [hcs, decimal]
      · simp only [hcs, Bool.false_eq_true, if_false]
        exact unsigned_iff ds n hcs

end cluster

namespace gostd

theorem cutFirst_none (sep : Char) (cs : List Char) (h : sep ∉ cs) : cutFirst sep cs = none := by
  induction cs with
  | nil => rfl
  | cons c cs ih =>
    have h1 : c ≠ sep := fun e => h (by simp [e])
    have h2 : sep ∉ cs := fun e => h (by simp [e])
    simp only [cutFirst, h1, if_false, ih h2]

theorem cutFirst_append (sep : Char) (a b : List Char) (h : sep ∉ a) :
    cutFirst sep (a ++ sep :: b) = some (a, b) := by
  induction a with
  | nil => simp [cutFirst]
  | cons c cs ih =>
    have h1 : c ≠ sep := fun e => h (by simp [e])
    have h2 : sep ∉ cs := fun e => h (by simp [e])
    rw [List.cons_append, cutFirst, if_neg h1, ih h2]

theorem cutFirst_some (sep : Char) (cs a b : List Char) (h : cutFirst sep cs = some (a, b)) :
    cs = a ++ sep :: b ∧ sep ∉ a := by
  induction cs generalizing a with
  | nil => simp [cutFirst] at h
  | cons c cs ih =>
    by_cases hc : c = sep
    · simp only [cutFirst, hc, if_true, Option.some.injEq, Prod.mk.injEq] at h
      obtain ⟨rfl, rfl⟩ := h
      simp [hc]
    · simp only [cutFirst, hc, if_false] at h
      cases hr : cutFirst sep cs with
      | none => simp [hr] at h
      | some p =>
        obtain ⟨a1, b1⟩ := p
        simp only [hr, Option.some.injEq, Prod.mk.injEq] at h
        obtain ⟨rfl, rfl⟩ := h
        obtain ⟨e1, e2⟩ := ih a1 hr
        refine ⟨by rw [e1]; rfl, ?_⟩
        intro hm
        rcases List.mem_cons.mp hm with e | e
        · exact hc e.symm
        · exact e2 e

theorem SplitN2_none (s : String) (sep : Char) (h : sep ∉ s.data) : SplitN2 s sep = [s] := by
  simp only [SplitN2, cutFirst_none sep s.data h]

theorem SplitN2_append (a b : List Char) (sep : Char) (h : sep ∉ a) :
    SplitN2 (String.mk (a ++ sep :: b)) sep = [String.mk a, String.mk b] := by
  simp only [SplitN2, cutFirst_append sep a b h]

/-- What `Atoi` accepts: a non-negative value at most the largest `int`,
or a negative value after a minus sign. -/
theorem Atoi_ok (s : String) (v : Int) (h : Atoi s = (v, true)) :
    -9223372036854775808 ≤ v ∧ v ≤ 9223372036854775807 ∧
      (v < 0 → s.data.head? = some '-') := by
  obtain ⟨ds⟩ := s
  by_cases h1 : ds.head? = some '-'
  · obtain ⟨cs, rfl⟩ : ∃ cs, ds = '-' :: cs := by
      cases ds with
      | nil => simp at h1
      | cons c cs => simp at h1; exact ⟨cs, by rw [h1]⟩
    rw [Atoi_minus] at h
    by_cases hcs : cs.isEmpty = true
    · simp [hcs] at h
    · simp only [hcs, Bool.false_eq_true, if_false] at h
      cases hd : scanUint cs 0 with
      | syntaxErr => simp [hd] at h
      | rangeErr => simp [hd] at h
      | value m =>
        simp only [hd] at h
        split_ifs at h
        · simp at h
        · simp only [Prod.mk.injEq, and_true] at h
          refine ⟨by omega, by omega, fun _ => rfl⟩
  · by_cases h2 : ds.head? = some '+'
    · obtain ⟨cs, rfl⟩ : ∃ cs, ds = '+' :: cs := by
        cases ds with
        | nil => simp at h2
        | cons c cs => simp at h2; exact ⟨cs, by rw [h2]⟩
      rw [Atoi_plus] at h
      by_cases hcs : cs.isEmpty = true
      · simp [hcs] at h
      · simp only [hcs, Bool.false_eq_true, if_false] at h
        cases hd : scanUint cs 0 with
        | syntaxErr => simp [hd] at h
        | rangeErr => simp [hd] at h
        | value m =>
          simp only [hd] at h
          split_ifs at h
          · simp at h
          · simp only [Prod.mk.injEq, and_true] at h
            refine ⟨by omega, by omega, fun hv => by omega⟩
    · rw [Atoi_plain ds h1 h2] at h
      by_cases hcs : ds.isEmpty = true
      · simp [hcs] at h
      · simp only [hcs, Bool.false_eq_true, if_false] at h
        cases hd : scanUint ds 0 with
        | syntaxErr => simp [hd] at h
        | rangeErr => simp [hd] at h
        | value m =>
          simp only [hd] at h
          split_ifs at h
          · simp at h
          · simp only [Prod.mk.injEq, and_true] at h
            refine ⟨by omega, by omega, fun hv => by omega⟩

end gostd

namespace cluster

open gostd

theorem parseSlotField_single (maxCap : Nat) (val : String) (h : '-' ∉ val.data) :
    parseSlotField maxCap val =
      if val.length = 0 then Run.done ([], false)
      else if (Atoi val).2 = true then Run.done ([(Atoi val).1], true)
      else Run.done ([], false) := by
  have hne : val ≠ "-" := by
    intro e
    rw [e] at h
    exact h (by decide)
  unfold parseSlotField
  simp only [SplitN2_none val '-' h, hne, or_false, List.getD_cons_zero, List.length_singleton,
    if_true]
  by_cases h0 : val.length = 0
  · simp only [h0, if_true]
  · simp only [h0, if_false]
    cases hb : (Atoi val).2 <;> simp

theorem parseSlotField_range (maxCap : Nat) (a b : List Char) (h : '-' ∉ a) :
    parseSlotField maxCap (String.mk (a ++ '-' :: b)) =
      if (Atoi (String.mk a)).2 = false then Run.done ([], false)
      else if (Atoi (String.mk b)).2 = false then Run.done ([], false)
      else if (Atoi (String.mk b)).1 < (Atoi (String.mk a)).1 then Run.done ([], false)
      else if wrapInt64 ((Atoi (String.mk b)).1 - (Atoi (String.mk a)).1 + 1) < 0 ∨
          (maxCap : Int) < wrapInt64 ((Atoi (String.mk b)).1 - (Atoi (String.mk a)).1 + 1) then
        Run.panic
      else
        match slotLoop (Atoi (String.mk b)).1 maxCap (Atoi (String.mk a)).1 [] with
        | Run.done slots => Run.done (slots, true)
        | Run.panic => Run.panic
        | Run.outOfFuel => Run.outOfFuel := by
  by_cases hv : String.mk (a ++ '-' :: b) = "-"
  · have e : a ++ '-' :: b = ['-'] := by
      have := congrArg String.data hv
      simpa using this
    have ha : a = [] := by
      cases a with
      | nil => rfl
      | cons c cs =>
        simp only [List.cons_append, List.cons.injEq] at e
        exact absurd (by rw [e.1]; simp) h
    subst ha
    have hA : (Atoi (String.mk [])).2 = false := by decide
    rw [hv, hA, if_pos rfl]
    simp [parseSlotField]
  · have hl : (String.mk (a ++ '-' :: b)).length ≠ 0 := by
      simp [String.length]
    unfold parseSlotField
    simp only [hl, hv, or_self, if_false, SplitN2_append a b '-' h, List.getD_cons_zero,
      List.getD_cons_succ, List.length_cons, List.length_nil]
    cases hb : (Atoi (String.mk a)).2
    · simp
    · cases he : (Atoi (String.mk b)).2
      · simp
      · simp

end cluster

namespace cluster

open gostd

theorem Atoi_cases (s : String) :
    (∃ n : Nat, slotNumber s = some n ∧ Atoi s = ((n : Int), true)) ∨
    (slotNumber s = none ∧
      ((Atoi s).2 = false ∨ ((Atoi s).1 < 0 ∧ s.data.head? = some '-'))) := by
  cases hs : slotNumber s with
  | some n => exact Or.inl ⟨n, rfl, (slotNumber_iff_Atoi s n).mp hs⟩
  | none =>
    refine Or.inr ⟨rfl, ?_⟩
    cases hb : (Atoi s).2 with
    | false => exact Or.inl rfl
    | true =>
      right
      have hA : Atoi s = ((Atoi s).1, true) := by rw [← hb]
      obtain ⟨_, _, h3⟩ := Atoi_ok s _ hA
      by_cases hv : (Atoi s).1 < 0
      · exact ⟨hv, h3 hv⟩
      · exfalso
        have e : ((Atoi s).1.toNat : Int) = (Atoi s).1 := Int.toNat_of_nonneg (by omega)
        have := (slotNumber_iff_Atoi s (Atoi s).1.toNat).mpr (by rw [e]; exact hA)
        rw [hs] at this
        cases this

theorem slotNumber_le (s : String) (n : Nat) (h : slotNumber s = some n) :
    (n : Int) ≤ maxInt64 := by
  have hA := (slotNumber_iff_Atoi s n).mp h
  exact (Atoi_ok s _ hA).2.1

theorem head_ne_of_not_mem (c : Char) (cs : List Char) (h : c ∉ cs) : cs.head? ≠ some c := by
  cases cs with
  | nil => simp
  | cons d ds =>
    intro e
    simp only [List.head?_cons, Option.some.injEq] at e
    exact h (by simp [e])

theorem parseSlotField_plain (maxCap : Nat) (val : String) (h : '-' ∉ val.data) :
    parseSlotField maxCap val =
      match slotNumber val with
      | some n => Run.done ([(n : Int)], true)
      | none => Run.done ([], false) := by
  rw [parseSlotField_single maxCap val h]
  rcases Atoi_cases val with ⟨n, h1, h2⟩ | ⟨h1, h2 | ⟨_, h3⟩⟩
  · have hl : val.length ≠ 0 := by
      intro e
      have : val = "" := by
        obtain ⟨ds⟩ := val
        cases ds with
        | nil => rfl
        | cons c cs => simp [String.length] at e
      rw [this] at h1
      have h0 : slotNumber "" = none := by decide
      rw [h0] at h1
      cases h1
    simp only [h1, h2, hl, if_false, if_true]
  · simp only [h1, h2, Bool.false_eq_true, if_false, ite_self]
  · exact absurd h3 (head_ne_of_not_mem _ _ h)

theorem parseSlotField_dash (maxCap : Nat) (a b : List Char) (h : '-' ∉ a) :
    parseSlotField maxCap (String.mk (a ++ '-' :: b)) =
      match slotNumber (String.mk a), slotNumber (String.mk b) with
      | some x, some y =>
        if y < x then Run.done ([], false)
        else if (y : Int) = maxInt64 ∨ maxCap < y + 1 - x then Run.panic
        else Run.done (slotRun x y, true)
      | _, _ => Run.done ([], false) := by
  rw [parseSlotField_range maxCap a b h]
  rcases Atoi_cases (String.mk a) with ⟨x, hx1, hx2⟩ | ⟨hx1, hx2 | ⟨_, hx3⟩⟩
  · rcases Atoi_cases (String.mk b) with ⟨y, hy1, hy2⟩ | ⟨hy1, hy2 | ⟨hy2, _⟩⟩
    · have hxl := slotNumber_le _ _ hx1
      have hyl := slotNumber_le _ _ hy1
      unfold maxInt64 at hxl hyl
      simp only [hx1, hy1, hx2, hy2, Bool.true_eq_false, if_false]
      by_cases hyx : y < x
      · have : (y : Int) < (x : Int) := by omega
        simp only [hyx, this, if_true]
      · have : ¬ (y : Int) < (x : Int) := by omega
        simp only [hyx, this, if_false]
        by_cases hmax : (y : Int) = maxInt64
        · simp only [hmax, true_or, if_true]
          by_cases hx0 : x = 0
          · subst hx0
            have hw : wrapInt64 (maxInt64 - ((0 : Nat) : Int) + 1) < 0 := by
              unfold wrapInt64 maxInt64
              norm_num
            simp only [hw, true_or, if_true]
          · have hw : wrapInt64 (maxInt64 - (x : Int) + 1) = maxInt64 - (x : Int) + 1 :=
              wrapInt64_of_range _ (by unfold maxInt64; omega) (by unfold maxInt64; omega)
            rw [hw, slotLoop_wraps _ _ _ (by unfold maxInt64; omega)]
            split_ifs <;> rfl
        · have hmax0 := hmax
          unfold maxInt64 at hmax
          have hw : wrapInt64 ((y : Int) - (x : Int) + 1) = (y : Int) - (x : Int) + 1 :=
            wrapInt64_of_range _ (by omega) (by omega)
          rw [hw]
          by_cases hcap : maxCap < y + 1 - x
          · have h1 : (y : Int) - (x : Int) + 1 < 0 ∨ (maxCap : Int) < (y : Int) - (x : Int) + 1 :=
              Or.inr (by omega)
            simp only [h1, hcap, or_true, if_true]
          · have h1 : ¬ ((y : Int) - (x : Int) + 1 < 0 ∨
                (maxCap : Int) < (y : Int) - (x : Int) + 1) := by omega
            simp only [h1, hcap, hmax0, or_self, if_false]
            rw [slotLoop_run (y : Int) (by unfold maxInt64; omega) (y + 1 - x) maxCap (x : Int) []
              (by omega) (by omega) (by omega)]
            rfl
    · simp only [hx1, hy1, hx2, hy2, Bool.true_eq_false, if_false, if_true]
    · have hb : (Atoi (String.mk b)).1 < (Atoi (String.mk a)).1 := by
        rw [hx2]
        simp only
        omega
      simp only [hx1, hy1, hb, if_true, ite_self]
  · simp only [hx1, hx2, if_true]
  · exact absurd hx3 (head_ne_of_not_mem _ _ h)

theorem split_at_minus (cs : List Char) :
    '-' ∉ cs ∨ ∃ a b, cs = a ++ '-' :: b ∧ '-' ∉ a := by
  induction cs with
  | nil => exact Or.inl (by simp)
  | cons c cs ih =>
    by_cases hc : c = '-'
    · exact Or.inr ⟨[], cs, by simp [hc], by simp⟩
    · rcases ih with h | ⟨a, b, e, h⟩
      · left
        intro hm
        rcases List.mem_cons.mp hm with e | e
        · exact hc e.symm
        · exact h e
      · right
        refine ⟨c :: a, b, by rw [e]; rfl, ?_⟩
        intro hm
        rcases List.mem_cons.mp hm with e | e
        · exact hc e.symm
        · exact h e

end cluster

namespace cluster

open gostd

theorem slotRun_length (x y : Nat) (h : x ≤ y) : (slotRun x y).length = y - x + 1 := by
  simp only [slotRun, List.length_map, List.length_range]
  omega

theorem mem_slotRun (x y : Nat) (s : Int) :
    s ∈ slotRun x y ↔ (x : Int) ≤ s ∧ s ≤ (y : Int) := by
  simp only [slotRun, List.mem_map, List.mem_range]
  constructor
  · rintro ⟨k, hk, rfl⟩
    omega
  · rintro ⟨h1, h2⟩
    exact ⟨(s - x).toNat, by omega, by omega⟩

theorem slotRun_ascending (x y : Nat) : (slotRun x y).Pairwise (fun s t => s < t) := by
  unfold slotRun
  rw [List.pairwise_map]
  have h : (List.range (y + 1 - x)).Pairwise (fun a b => a < b) := List.pairwise_lt_range _
  exact h.imp (fun hab => by omega)

theorem decValue_digits (cs : List Char) :
    ∀ (acc n : Nat), decValue cs acc = some n → ∀ c ∈ cs, '0' ≤ c ∧ c ≤ '9' := by
  induction cs with
  | nil => intro _ _ _ c hc; cases hc
  | cons d ds ih =>
    intro acc n h c hc
    by_cases hd : '0' ≤ d ∧ d ≤ '9'
    · simp only [decValue, hd, and_self, if_true] at h
      rcases List.mem_cons.mp hc with e | e
      · rw [e]; exact hd
      · exact ih _ _ h c e
    · simp only [decValue, hd, if_false] at h
      cases h

theorem decimal_no_sign (cs : List Char) (n : Nat) (h : decimal cs = some n) :
    '-' ∉ cs ∧ '+' ∉ cs := by
  have hdv : decValue cs 0 = some n := by
    unfold decimal at h
    by_cases he : cs.isEmpty = true
    · simp [he] at h
    · simpa [he] using h
  have hdig := decValue_digits cs 0 n hdv
  exact ⟨fun hm => absurd (hdig _ hm).1 (by decide), fun hm => absurd (hdig _ hm).1 (by decide)⟩

theorem slotNumber_of_decimal_big (s : String) (n : Nat) (h : decimal s.data = some n)
    (hn : ¬ (n : Int) ≤ maxInt64) : slotNumber s = none := by
  obtain ⟨ds⟩ := s
  obtain ⟨h1, h2⟩ := decimal_no_sign ds n h
  rw [slotNumber_plain ds (head_ne_of_not_mem _ _ h1) (head_ne_of_not_mem _ _ h2)]
  have h3 : decimal ds = some n := h
  simp only [h3, hn, if_false]

theorem slotNumber_of_decimal (s : String) (n : Nat) (h : decimal s.data = some n)
    (hn : (n : Int) ≤ maxInt64) : '-' ∉ s.data ∧ slotNumber s = some n := by
  obtain ⟨ds⟩ := s
  have hdv : decValue ds 0 = some n := by
    unfold decimal at h
    by_cases he : ds.isEmpty = true
    · simp [he] at h
    · simpa [he] using h
  have hdig := decValue_digits ds 0 n hdv
  have h1 : '-' ∉ ds := fun hm => absurd (hdig _ hm).1 (by decide)
  have h2 : '+' ∉ ds := fun hm => absurd (hdig _ hm).1 (by decide)
  refine ⟨h1, ?_⟩
  rw [slotNumber_plain ds (head_ne_of_not_mem _ _ h1) (head_ne_of_not_mem _ _ h2)]
  have h3 : decimal ds = some n := h
  simp only [h3, hn, if_true]

theorem setSlotsFrom_spec (maxCap : Nat) (vals : List String) :
    ∀ acc : List Int, (∀ v ∈ vals, ∃ r, parseSlotField maxCap v = Run.done r) →
      setSlotsFrom maxCap vals acc =
        Run.done (acc ++ (vals.map (acceptedSlots maxCap)).flatten) := by
  induction vals with
  | nil => intro acc _; simp [setSlotsFrom]
  | cons v rest ih =>
    intro acc h
    obtain ⟨⟨slots, ok⟩, hr⟩ := h v (by simp)
    have hrest : ∀ w ∈ rest, ∃ r, parseSlotField maxCap w = Run.done r :=
      fun w hw => h w (by simp [hw])
    rw [setSlotsFrom]
    simp only [hr]
    rw [ih _ hrest]
    cases ok with
    | true => simp [acceptedSlots, hr]
    | false => simp [acceptedSlots, hr]

theorem setSlotsFrom_stops (maxCap : Nat) (vals : List String) (v : String)
    (rest : List String) :
    ∀ acc : List Int, (∀ w ∈ vals, ∃ r, parseSlotField maxCap w = Run.done r) →
      parseSlotField maxCap v = Run.panic →
      setSlotsFrom maxCap (vals ++ v :: rest) acc = Run.panic := by
  induction vals with
  | nil =>
    intro acc _ hv
    rw [List.nil_append, setSlotsFrom]
    simp only [hv]
  | cons w ws ih =>
    intro acc h hv
    obtain ⟨r, hr⟩ := h w (by simp)
    rw [List.cons_append, setSlotsFrom]
    simp only [hr]
    exact ih _ (fun u hu => h u (by simp [hu])) hv

end cluster

namespace cluster

open gostd

theorem dash_append (a b : String) : a ++ "-" ++ b = String.mk (a.data ++ '-' :: b.data) := by
  apply String.ext
  simp [String.data_append]

theorem parseSlotField_accepts (maxCap : Nat) (val : String) (slots : List Int) :
    parseSlotField maxCap val = Run.done (slots, true) ↔
      ('-' ∉ val.data ∧ ∃ n : Nat, slotNumber val = some n ∧ slots = [(n : Int)]) ∨
      (∃ (a b : String) (x y : Nat), val = a ++ "-" ++ b ∧ '-' ∉ a.data ∧
        slotNumber a = some x ∧ slotNumber b = some y ∧ x ≤ y ∧ (y : Int) < maxInt64 ∧
        y + 1 - x ≤ maxCap ∧ slots = slotRun x y) := by
  constructor
  · intro h
    rcases split_at_minus val.data with hm | ⟨a, b, e, hm⟩
    · left
      rw [parseSlotField_plain maxCap val hm] at h
      cases hs : slotNumber val with
      | none => simp [hs] at h
      | some n =>
        simp only [hs, Run.done.injEq, Prod.mk.injEq, and_true] at h
        exact ⟨hm, n, rfl, h.symm⟩
    · right
      have hv : val = String.mk (a ++ '-' :: b) := by
        apply String.ext
        exact e
      rw [hv, parseSlotField_dash maxCap a b hm] at h
      cases hx : slotNumber (String.mk a) with
      | none => simp [hx] at h
      | some x =>
        cases hy : slotNumber (String.mk b) with
        | none => simp [hx, hy] at h
        | some y =>
          have hyl := slotNumber_le _ _ hy
          simp only [hx, hy] at h
          by_cases hyx : y < x
          · simp [hyx] at h
          · simp only [hyx, if_false] at h
            by_cases hstop : (y : Int) = maxInt64 ∨ maxCap < y + 1 - x
            · simp [hstop] at h
            · simp only [hstop, if_false, Run.done.injEq, Prod.mk.injEq, and_true] at h
              have h1 : ¬ (y : Int) = maxInt64 := fun e => hstop (Or.inl e)
              have h2 : ¬ maxCap < y + 1 - x := fun e => hstop (Or.inr e)
              refine ⟨String.mk a, String.mk b, x, y, ?_, hm, hx, hy, by omega,
                lt_of_le_of_ne hyl h1, by omega, h.symm⟩
              rw [hv, dash_append]
  · rintro (⟨hm, n, hs, rfl⟩ | ⟨a, b, x, y, rfl, hm, hx, hy, hxy, hmax, hcap, rfl⟩)
    · rw [parseSlotField_plain maxCap val hm]
      simp only [hs]
    · rw [dash_append, parseSlotField_dash maxCap a.data b.data hm]
      have e1 : String.mk a.data = a := rfl
      have e2 : String.mk b.data = b := rfl
      have h1 : ¬ y < x := by omega
      have h2 : ¬ ((y : Int) = maxInt64 ∨ maxCap < y + 1 - x) := by
        rintro (e | e)
        · exact absurd e (ne_of_lt hmax)
        · omega
      simp only [e1, e2, hx, hy, h1, h2, if_false]

theorem parseSlotField_rejects (maxCap : Nat) (val : String) (slots : List Int)
    (h : parseSlotField maxCap val = Run.done (slots, false)) : slots = [] := by
  rcases split_at_minus val.data with hm | ⟨a, b, e, hm⟩
  · rw [parseSlotField_plain maxCap val hm] at h
    cases hs : slotNumber val with
    | none =>
      simp only [hs, Run.done.injEq, Prod.mk.injEq, and_true] at h
      exact h.symm
    | some n => simp [hs] at h
  · have hv : val = String.mk (a ++ '-' :: b) := by
      apply String.ext
      exact e
    rw [hv, parseSlotField_dash maxCap a b hm] at h
    split at h
    · split_ifs at h
      all_goals first | (cases h; done) | (cases h; rfl)
    · simp only [Run.done.injEq, Prod.mk.injEq, and_true] at h
      exact h.symm

theorem parseSlotField_panics (maxCap : Nat) (val : String) :
    parseSlotField maxCap val = Run.panic ↔
      ∃ (a b : String) (x y : Nat), val = a ++ "-" ++ b ∧ '-' ∉ a.data ∧
        slotNumber a = some x ∧ slotNumber b = some y ∧ x ≤ y ∧
        ((y : Int) = maxInt64 ∨ maxCap < y + 1 - x) := by
  constructor
  · intro h
    rcases split_at_minus val.data with hm | ⟨a, b, e, hm⟩
    · exfalso
      rw [parseSlotField_plain maxCap val hm] at h
      cases hs : slotNumber val with
      | none => simp [hs] at h
      | some n => simp [hs] at h
    · have hv : val = String.mk (a ++ '-' :: b) := by
        apply String.ext
        exact e
      rw [hv, parseSlotField_dash maxCap a b hm] at h
      cases hx : slotNumber (String.mk a) with
      | none => simp [hx] at h
      | some x =>
        cases hy : slotNumber (String.mk b) with
        | none => simp [hx, hy] at h
        | some y =>
          simp only [hx, hy] at h
          by_cases hyx : y < x
          · simp [hyx] at h
          · simp only [hyx, if_false] at h
            by_cases hstop : (y : Int) = maxInt64 ∨ maxCap < y + 1 - x
            · refine ⟨String.mk a, String.mk b, x, y, ?_, hm, hx, hy, by omega, hstop⟩
              rw [hv, dash_append]
            · simp [hstop] at h
  · rintro ⟨a, b, x, y, rfl, hm, hx, hy, hxy, hstop⟩
    rw [dash_append, parseSlotField_dash maxCap a.data b.data hm]
    have e1 : String.mk a.data = a := rfl
    have e2 : String.mk b.data = b := rfl
    have h1 : ¬ y < x := by omega
    simp only [e1, e2, hx, hy, h1, hstop, if_false, if_true]

theorem parseSlotField_returns_or_panics (maxCap : Nat) (val : String) :
    parseSlotField maxCap val ≠ Run.outOfFuel := by
  rcases split_at_minus val.data with hm | ⟨a, b, e, hm⟩
  · rw [parseSlotField_plain maxCap val hm]
    cases slotNumber val <;> simp
  · have hv : val = String.mk (a ++ '-' :: b) := by
      apply String.ext
      exact e
    rw [hv, parseSlotField_dash maxCap a b hm]
    split
    · split_ifs <;> simp
    · simp

end cluster

namespace cluster

open gostd

/-- C21, refuted as stated: a range `a-b` of decimal integers with `a <= b`
on which `parseSlotField` does not return. On `0-9223372036854775807` the
capacity `end-begin+1` wraps to a negative number and `make` panics, on
every platform; on `0-4611686018427387904` the capacity is more than any
runtime grants a `[]int` (`maxCap` is below `2^61`, eight bytes an element)
and `make` panics; in general `make` panics on every range longer than
`maxCap`; on `9223372036854775807-9223372036854775807` the test `i <= end`
holds for every `int`, the loop appends until the runtime grants no more,
and panics. A decimal integer above the largest `int` is turned down with
`(nil, false)`. -/
theorem parseSlotField_long_range :
    (∀ maxCap : Nat, parseSlotField maxCap "0-9223372036854775807" = Run.panic) ∧
    (∀ maxCap : Nat, maxCap < 2305843009213693952 →
      parseSlotField maxCap "0-4611686018427387904" = Run.panic) ∧
    (∀ (maxCap : Nat) (a b : String) (x y : Nat), decimal a.data = some x →
      decimal b.data = some y → x ≤ y → (y : Int) ≤ maxInt64 → maxCap < y + 1 - x →
      parseSlotField maxCap (a ++ "-" ++ b) = Run.panic) ∧
    (∀ maxCap : Nat,
      parseSlotField maxCap "9223372036854775807-9223372036854775807" = Run.panic) ∧
    decimal "99999999999999999999".data = some 99999999999999999999 ∧
    (∀ maxCap : Nat, parseSlotField maxCap "99999999999999999999" = Run.done ([], false)) := by
  have hlong : ∀ (maxCap : Nat) (a b : String) (x y : Nat), decimal a.data = some x →
      decimal b.data = some y → x ≤ y → (y : Int) ≤ maxInt64 →
      ((y : Int) = maxInt64 ∨ maxCap < y + 1 - x) →
      parseSlotField maxCap (a ++ "-" ++ b) = Run.panic := by
    intro maxCap a b x y hx hy hxy hyl hstop
    obtain ⟨hm, hsx⟩ := slotNumber_of_decimal a x hx (by omega)
    obtain ⟨_, hsy⟩ := slotNumber_of_decimal b y hy hyl
    exact (parseSlotField_panics maxCap _).mpr ⟨a, b, x, y, rfl, hm, hsx, hsy, hxy, hstop⟩
  refine ⟨?_, ?_, ?_, ?_, by decide, ?_⟩
  · intro maxCap
    exact hlong maxCap "0" "9223372036854775807" 0 9223372036854775807 (by decide) (by decide)
      (by decide) (by decide) (Or.inl (by decide))
  · intro maxCap hcap
    exact hlong maxCap "0" "4611686018427387904" 0 4611686018427387904 (by decide) (by decide)
      (by decide) (by decide) (Or.inr (by omega))
  · intro maxCap a b x y hx hy hxy hyl hcap
    exact hlong maxCap a b x y hx hy hxy hyl (Or.inr hcap)
  · intro maxCap
    exact hlong maxCap "9223372036854775807" "9223372036854775807" 9223372036854775807
      9223372036854775807 (by decide) (by decide) (by decide) (by decide) (Or.inl (by decide))
  · intro maxCap
    rw [parseSlotField_plain maxCap _ (by decide)]
    have h : slotNumber "99999999999999999999" = none := by decide
    simp only [h]

/-- C21, amended: with a slot number being decimal digits after an
optional sign with a non-negative value at most the largest `int`
(`slotNumber`), and `maxCap` the largest capacity the runtime grants a
`[]int`, `parseSlotField` returns `(slots, true)` exactly when the field
has no `-` and is a slot number `n` (`slots = [n]`), or is `a-b`, cut at
its first `-`, with slot numbers `a <= b`, `b` below the largest `int` and
`b-a+1` at most `maxCap` (`slots = [a, ..., b]`: length `b-a+1`, strictly
ascending, the integers from `a` to `b`). In particular a field of decimal
digits `n` up to the largest `int` gives `[n]`, and decimal `a-b` with
`a <= b` within these bounds gives `[a, ..., b]`. The empty string, `-`, a
migrating-slot marker, a field whose part before the first `-` is not a
slot number, and a range with `b < a` give `(nil, false)`, as does every
field returned with `ok` false. Every slot returned is non-negative. When
every field returns, `setSlots` stores the slots of the accepted fields in
order, skipping the others. -/
theorem parseSlotField_spec :
    (∀ (maxCap : Nat) (val : String) (slots : List Int),
      parseSlotField maxCap val = Run.done (slots, true) ↔
        ('-' ∉ val.data ∧ ∃ n : Nat, slotNumber val = some n ∧ slots = [(n : Int)]) ∨
        (∃ (a b : String) (x y : Nat), val = a ++ "-" ++ b ∧ '-' ∉ a.data ∧
          slotNumber a = some x ∧ slotNumber b = some y ∧ x ≤ y ∧ (y : Int) < maxInt64 ∧
          y + 1 - x ≤ maxCap ∧ slots = slotRun x y)) ∧
    (∀ x y : Nat, x ≤ y →
      (slotRun x y).length = y - x + 1 ∧ (slotRun x y).Pairwise (fun s t => s < t) ∧
      ∀ s : Int, s ∈ slotRun x y ↔ (x : Int) ≤ s ∧ s ≤ (y : Int)) ∧
    (∀ (maxCap : Nat) (val : String) (n : Nat), decimal val.data = some n →
      (n : Int) ≤ maxInt64 → parseSlotField maxCap val = Run.done ([(n : Int)], true)) ∧
    (∀ (maxCap : Nat) (a b : String) (x y : Nat), decimal a.data = some x →
      decimal b.data = some y → x ≤ y → (y : Int) < maxInt64 → y + 1 - x ≤ maxCap →
      parseSlotField maxCap (a ++ "-" ++ b) = Run.done (slotRun x y, true)) ∧
    (∀ maxCap : Nat, parseSlotField maxCap "" = Run.done ([], false)) ∧
    (∀ maxCap : Nat, parseSlotField maxCap "-" = Run.done ([], false)) ∧
    (∀ maxCap : Nat,
      parseSlotField maxCap "[93-<-292f8b365bb7edb5e285caf0b7e6ddc7265d2f4f]" =
        Run.done ([], false)) ∧
    (∀ (maxCap : Nat) (val : String), '-' ∉ val.data → slotNumber val = none →
      parseSlotField maxCap val = Run.done ([], false)) ∧
    (∀ (maxCap : Nat) (a b : String), '-' ∉ a.data → slotNumber a = none →
      parseSlotField maxCap (a ++ "-" ++ b) = Run.done ([], false)) ∧
    (∀ (maxCap : Nat) (a b : String) (x y : Nat), decimal a.data = some x →
      decimal b.data = some y → y < x →
      parseSlotField maxCap (a ++ "-" ++ b) = Run.done ([], false)) ∧
    (∀ (maxCap : Nat) (val : String) (slots : List Int),
      parseSlotField maxCap val = Run.done (slots, false) → slots = []) ∧
    (∀ (maxCap : Nat) (val : String) (slots : List Int) (ok : Bool),
      parseSlotField maxCap val = Run.done (slots, ok) → ∀ s ∈ slots, 0 ≤ s) ∧
    (∀ (maxCap : Nat) (vals : List String),
      (∀ v ∈ vals, ∃ r, parseSlotField maxCap v = Run.done r) →
      setSlots maxCap vals = Run.done ((vals.map (acceptedSlots maxCap)).flatten)) := by
  have hnone : ∀ (maxCap : Nat) (a b : String), '-' ∉ a.data → slotNumber a = none →
      parseSlotField maxCap (a ++ "-" ++ b) = Run.done ([], false) := by
    intro maxCap a b hm hs
    rw [dash_append, parseSlotField_dash maxCap a.data b.data hm]
    have e1 : String.mk a.data = a := rfl
    simp only [e1, hs]
  have hplain : ∀ (maxCap : Nat) (val : String), '-' ∉ val.data → slotNumber val = none →
      parseSlotField maxCap val = Run.done ([], false) := by
    intro maxCap val hm hs
    rw [parseSlotField_plain maxCap val hm]
    simp only [hs]
  refine ⟨parseSlotField_accepts, fun x y h => ⟨slotRun_length x y h, slotRun_ascending x y,
    mem_slotRun x y⟩, ?_, ?_, ?_, ?_, ?_, hplain, hnone, ?_, parseSlotField_rejects, ?_, ?_⟩
  · intro maxCap val n h hn
    obtain ⟨hm, hs⟩ := slotNumber_of_decimal val n h hn
    exact (parseSlotField_accepts maxCap val _).mpr (Or.inl ⟨hm, n, hs, rfl⟩)
  · intro maxCap a b x y hx hy hxy hmax hcap
    have hyl : (y : Int) ≤ maxInt64 := le_of_lt hmax
    obtain ⟨hm, hsx⟩ := slotNumber_of_decimal a x hx (by omega)
    obtain ⟨_, hsy⟩ := slotNumber_of_decimal b y hy hyl
    exact (parseSlotField_accepts maxCap _ _).mpr
      (Or.inr ⟨a, b, x, y, rfl, hm, hsx, hsy, hxy, hmax, hcap, rfl⟩)
  · intro maxCap
    exact hplain maxCap "" (by decide) (by decide)
  · intro maxCap
    exact hnone maxCap "" "" (by decide) (by decide)
  · intro maxCap
    exact hnone maxCap "[93" "<-292f8b365bb7edb5e285caf0b7e6ddc7265d2f4f]" (by decide) (by decide)
  · intro maxCap a b x y hx hy hyx
    have e1 : String.mk a.data = a := rfl
    have e2 : String.mk b.data = b := rfl
    have hm : '-' ∉ a.data := (decimal_no_sign a.data x hx).1
    by_cases hxl : (x : Int) ≤ maxInt64
    · obtain ⟨_, hsx⟩ := slotNumber_of_decimal a x hx hxl
      obtain ⟨_, hsy⟩ := slotNumber_of_decimal b y hy (by omega)
      rw [dash_append, parseSlotField_dash maxCap a.data b.data hm]
      simp only [e1, e2, hsx, hsy, hyx, if_true]
    · exact hnone maxCap a b hm (slotNumber_of_decimal_big a x hx hxl)
  · intro maxCap val slots ok h s hs
    cases ok with
    | false =>
      rw [parseSlotField_rejects maxCap val slots h] at hs
      cases hs
    | true =>
      rcases (parseSlotField_accepts maxCap val slots).mp h with
        ⟨_, n, _, rfl⟩ | ⟨a, b, x, y, _, _, _, _, _, _, _, rfl⟩
      · rw [List.mem_singleton] at hs
        omega
      · have := (mem_slotRun x y s).mp hs
        omega
  · intro maxCap vals h
    rw [setSlots, setSlotsFrom_spec maxCap vals [] h]
    rfl

theorem parseSlotField_spec_witness :
    parseSlotField 16384 "5-7" = Run.done ([5, 6, 7], true) ∧
    parseSlotField 16384 "16383" = Run.done ([16383], true) ∧
    setSlots 16384 ["0-2", "[93-<-292f8b365bb7edb5e285caf0b7e6ddc7265d2f4f]", "9"] =
      Run.done [0, 1, 2, 9] := by
  obtain ⟨_, _, h1, h2, _, _, _, _, _, _, _, _, h3⟩ := parseSlotField_spec
  refine ⟨?_, ?_, ?_⟩
  · exact h2 16384 "5" "7" 5 7 (by decide) (by decide) (by decide) (by decide) (by decide)
  · exact h1 16384 "16383" 16383 (by decide) (by decide)
  · have hall : ∀ v ∈ ["0-2", "[93-<-292f8b365bb7edb5e285caf0b7e6ddc7265d2f4f]", "9"],
        ∃ r, parseSlotField 16384 v = Run.done r := by
      intro v hv
      simp only [List.mem_cons, List.mem_singleton, List.not_mem_nil, or_false] at hv
      rcases hv with rfl | rfl | rfl
      · exact ⟨([0, 1, 2], true), by decide⟩
      · exact ⟨([], false), by decide⟩
      · exact ⟨([9], true), by decide⟩
    rw [h3 _ _ hall]
    decide

end cluster

namespace cluster

open gostd proxy

theorem redirectLoop_no_redirect {σ : Type} (B : Backends σ) (Btoi : String → Option Int)
    (cn : String) (again : World σ → String → List Message → Run (Result σ)) :
    ∀ (rest seen : List Message) (w : World σ) (err : Option Err)
      (re : List (String × List Message)),
      (∀ m ∈ rest, qualifies Btoi m = false) →
      redirectLoop B Btoi cn again w seen rest err re =
        Run.done ⟨w, seen ++ rest,
          if rest.any (slotUnread Btoi) = true then some Err.conv else err, re⟩ := by
  intro rest
  induction rest with
  | nil =>
    intro seen w err re _
    simp [redirectLoop]
  | cons m rest ih =>
    intro seen w err re h
    have hm := h m (by simp)
    have hrest : ∀ x ∈ rest, qualifies Btoi x = false := fun x hx => h x (by simp [hx])
    cases hv : examine Btoi m with
    | skip =>
      rw [redirectLoop]
      simp only [hv]
      rw [ih _ _ _ _ hrest]
      simp [slotUnread, hv]
    | badSlot =>
      rw [redirectLoop]
      simp only [hv]
      rw [ih _ _ _ _ hrest]
      simp [slotUnread, hv]
    | go ask addr =>
      simp [qualifies, hv] at hm

/-- C22: when the underlying read succeeds and no reply qualifies as a
redirection, `ReadBatch` returns the error of `conv.Btoi` as soon as one
reply went as far as the slot field and `conv.Btoi` turned that field
down, and a nil error only when no reply did: the `continue` after the
failed `conv.Btoi` leaves its error in the result `err`, and nothing after
it assigns `err` again. For a batch of one message with the error reply
`MOVED abc 127.0.0.1:7002`, with any `conv.Btoi` that turns down `abc`, the
reply does not qualify, nothing is re-issued, the reply is left on the
message, and `ReadBatch` returns that error. -/
theorem ReadBatch_returns_btoi_error :
    (∀ (σ : Type) (B : Backends σ) (Btoi : String → Option Int) (cn : String) (fuel : Nat)
        (w : World σ) (addr : String) (mb : List Message),
      (B.ReadBatch w.net addr mb).2.1 = none →
      (∀ m ∈ assign mb (B.ReadBatch w.net addr mb).2.2, qualifies Btoi m = false) →
      ReadBatch B Btoi cn (fuel + 1) w addr mb =
        Run.done
          { w := { w with net := (B.ReadBatch w.net addr mb).1 },
            msgs := assign mb (B.ReadBatch w.net addr mb).2.2,
            err := if (assign mb (B.ReadBatch w.net addr mb).2.2).any (slotUnread Btoi) = true
              then some Err.conv else none,
            reissued := [] }) ∧
    (∀ Btoi : String → Option Int, Btoi "abc" = none →
      qualifies Btoi (msgWith 1 "GET k" '-' "MOVED abc 127.0.0.1:7002") = false ∧
      ReadBatch (answering (fun _ => ⟨'-', some "MOVED abc 127.0.0.1:7002"⟩)) Btoi "c" 1
          readyWorld "a:7000" [msgWith 1 "GET k" (Char.ofNat 0) ""] =
        Run.done
          { w := readyWorld,
            msgs := [msgWith 1 "GET k" '-' "MOVED abc 127.0.0.1:7002"],
            err := some Err.conv,
            reissued := [] }) ∧
    decimalBtoi "abc" = none := by
  have hgen : ∀ (σ : Type) (B : Backends σ) (Btoi : String → Option Int) (cn : String)
      (fuel : Nat) (w : World σ) (addr : String) (mb : List Message),
      (B.ReadBatch w.net addr mb).2.1 = none →
      (∀ m ∈ assign mb (B.ReadBatch w.net addr mb).2.2, qualifies Btoi m = false) →
      ReadBatch B Btoi cn (fuel + 1) w addr mb =
        Run.done
          { w := { w with net := (B.ReadBatch w.net addr mb).1 },
            msgs := assign mb (B.ReadBatch w.net addr mb).2.2,
            err := if (assign mb (B.ReadBatch w.net addr mb).2.2).any (slotUnread Btoi) = true
              then some Err.conv else none,
            reissued := [] } := by
    intro σ B Btoi cn fuel w addr mb hread hq
    simp only [ReadBatch, hread]
    rw [redirectLoop_no_redirect B Btoi cn _ _ _ _ _ _ hq]
    rfl
  refine ⟨hgen, ?_, by decide⟩
  intro Btoi hB
  have hf : Fields "MOVED abc 127.0.0.1:7002" = ["MOVED", "abc", "127.0.0.1:7002"] := by decide
  have hp : HasPrefix "MOVED abc 127.0.0.1:7002" movedBytes = true := by decide
  have hex : examine Btoi (msgWith 1 "GET k" '-' "MOVED abc 127.0.0.1:7002") =
      Verdict.badSlot := by
    simp [examine, msgWith, respError, hf, hp, hB]
  have hq : qualifies Btoi (msgWith 1 "GET k" '-' "MOVED abc 127.0.0.1:7002") = false := by
    simp [qualifies, hex]
  refine ⟨hq, ?_⟩
  have hread : ((answering (fun _ => ⟨'-', some "MOVED abc 127.0.0.1:7002"⟩)).ReadBatch
      readyWorld.net "a:7000" [msgWith 1 "GET k" (Char.ofNat 0) ""]).2.1 = none := rfl
  have hassign : assign [msgWith 1 "GET k" (Char.ofNat 0) ""]
      ((answering (fun _ => ⟨'-', some "MOVED abc 127.0.0.1:7002"⟩)).ReadBatch
        readyWorld.net "a:7000" [msgWith 1 "GET k" (Char.ofNat 0) ""]).2.2 =
      [msgWith 1 "GET k" '-' "MOVED abc 127.0.0.1:7002"] := rfl
  rw [hgen Unit _ Btoi "c" 0 readyWorld "a:7000" _ hread
    (by rw [hassign]; intro m hm; rw [List.mem_singleton] at hm; rw [hm]; exact hq)]
  rw [hassign]
  simp [slotUnread, hex]

end cluster

namespace cluster

open gostd

theorem assignSlots_some (m : Int) (slots : List Int) :
    ∀ (slotN out : List Int), assignSlots m slotN slots = some out →
      out.length = slotN.length ∧ ∀ s ∈ slots, 0 ≤ s ∧ s.toNat < slotN.length := by
  induction slots with
  | nil =>
    intro slotN out h
    simp only [assignSlots, Option.some.injEq] at h
    exact ⟨by rw [h], fun s hs => absurd hs (List.not_mem_nil s)⟩
  | cons s rest ih =>
    intro slotN out h
    by_cases hs : 0 ≤ s ∧ s.toNat < slotN.length
    · simp only [assignSlots, hs, and_self, if_true] at h
      obtain ⟨e1, e2⟩ := ih _ _ h
      rw [List.length_set] at e1 e2
      refine ⟨e1, ?_⟩
      intro t ht
      rcases List.mem_cons.mp ht with e | e
      · rw [e]; exact hs
      · exact e2 t e
    · simp only [assignSlots, hs, if_false] at h
      cases h

theorem collectMasters_some (rest : List node) :
    ∀ (nodes : List String) (slotN : List Int) (m : Int) (r : List String × List Int),
      collectMasters rest nodes slotN m = some r →
      r.2.length = slotN.length ∧
      ∀ n ∈ rest, n.role = roleMaster → ∀ s ∈ n.slots, 0 ≤ s ∧ s.toNat < slotN.length := by
  induction rest with
  | nil =>
    intro nodes slotN m r h
    simp only [collectMasters, Option.some.injEq] at h
    exact ⟨by rw [← h], fun n hn => absurd hn (List.not_mem_nil n)⟩
  | cons n rest ih =>
    intro nodes slotN m r h
    by_cases hr : n.role = roleMaster
    · simp only [collectMasters, hr, if_true] at h
      cases ha : assignSlots m slotN n.slots with
      | none => simp [ha] at h
      | some slotN1 =>
        simp only [ha] at h
        obtain ⟨a1, a2⟩ := assignSlots_some m n.slots slotN slotN1 ha
        obtain ⟨e1, e2⟩ := ih _ _ _ _ h
        rw [a1] at e1 e2
        refine ⟨e1, ?_⟩
        intro x hx hxr s hs
        rcases List.mem_cons.mp hx with e | e
        · rw [e] at hs; exact a2 s hs
        · exact e2 x e hxr s hs
    · simp only [collectMasters, hr, if_false] at h
      obtain ⟨e1, e2⟩ := ih _ _ _ _ h
      refine ⟨e1, ?_⟩
      intro x hx hxr s hs
      rcases List.mem_cons.mp hx with e | e
      · rw [e] at hxr; exact absurd hxr hr
      · exact e2 x e hxr s hs

theorem buildSnapshot_some (nm : List node) (snap : Snapshot) (h : buildSnapshot nm = some snap) :
    ∀ n ∈ nm, n.role = roleMaster → ∀ s ∈ n.slots, 0 ≤ s ∧ s < 16384 := by
  unfold buildSnapshot at h
  cases hc : collectMasters nm [] (List.replicate slotSize (-1)) 0 with
  | none => simp [hc] at h
  | some r =>
    obtain ⟨_, e2⟩ := collectMasters_some nm _ _ _ r hc
    intro n hn hr s hs
    obtain ⟨h1, h2⟩ := e2 n hn hr s hs
    rw [List.length_replicate] at h2
    have h3 : slotSize = 16384 := rfl
    omega

theorem buildSnapshot_none (nm : List node) (n : node) (s : Int) (hn : n ∈ nm)
    (hr : n.role = roleMaster) (hs : s ∈ n.slots) (hbig : 16384 ≤ s) :
    buildSnapshot nm = none := by
  cases h : buildSnapshot nm with
  | none => rfl
  | some snap =>
    have := (buildSnapshot_some nm snap h n hn hr s hs).2
    omega

theorem setSlots_one (maxCap : Nat) (val : String) (slots : List Int)
    (h : parseSlotField maxCap val = Run.done (slots, true)) :
    setSlots maxCap [val] = Run.done slots := by
  simp only [setSlots, setSlotsFrom, h, if_true, List.nil_append]

theorem parseNode_fields (maxCap : Nat) (line f0 f1 f2 f3 f4 f5 f6 f7 : String)
    (more : List String) (slots : List Int) (ht : ¬ (TrimSpace line).length = 0)
    (hf : Fields line = f0 :: f1 :: f2 :: f3 :: f4 :: f5 :: f6 :: f7 :: more)
    (hs : setSlots maxCap more = Run.done slots) :
    parseNode maxCap line =
      Run.done (some
        { ID := TrimSpace f0,
          addr := (setAddr f1).1,
          gossipAddr := (setAddr f1).2,
          flags := (setFlags f2).1,
          role := (setFlags f2).2,
          slaveOf := f3,
          pingSent := (Atoi f4).1,
          pongRecv := (Atoi f5).1,
          configEpoch := (Atoi f6).1,
          linkState := f7,
          slots := slots }) := by
  unfold parseNode
  rw [if_neg ht, hf]
  simp only [hs]

theorem parseSlots_one_line (maxCap : Nat) (data : String) (n : node)
    (hsplit : SplitCRLF data = [data])
    (hn : parseNode maxCap data = Run.done (some n)) :
    parseSlots maxCap data = Run.done ([n], none) := by
  rw [parseSlots, hsplit, parseLines]
  simp only [hn]
  rfl

theorem parseSlots_line_crlf (maxCap : Nat) (data line : String) (n : node)
    (hsplit : SplitCRLF data = [line, ""])
    (hn : parseNode maxCap line = Run.done (some n)) :
    parseSlots maxCap data = Run.done ([n], some Err.errNodesRespType) := by
  rw [parseSlots, hsplit, parseLines]
  simp only [hn]
  rw [parseLines, parseNode_empty]
  rfl

theorem parseSlots_master_line (maxCap : Nat) (data f0 f1 f2 f3 f4 f5 f6 f7 val : String)
    (slots : List Int) (s : Int) (hsplit : SplitCRLF data = [data])
    (ht : ¬ (TrimSpace data).length = 0)
    (hf : Fields data = [f0, f1, f2, f3, f4, f5, f6, f7, val])
    (hp : parseSlotField maxCap val = Run.done (slots, true))
    (hrole : (setFlags f2).2 = roleMaster) (hs : s ∈ slots) (hbig : 16384 ≤ s) :
    ∃ n : node, parseSlots maxCap data = Run.done ([n], none) ∧ n.role = roleMaster ∧
      n.slots = slots ∧ buildSnapshot [n] = none := by
  have hnode := parseNode_fields maxCap data f0 f1 f2 f3 f4 f5 f6 f7 [val] slots ht hf
    (setSlots_one maxCap val slots hp)
  refine ⟨_, parseSlots_one_line _ _ _ hsplit hnode, hrole, rfl, ?_⟩
  exact buildSnapshot_none _ _ s (List.mem_singleton.mpr rfl) hrole hs hbig

end cluster

namespace cluster

open gostd

/-- C23: `fetchNodes` uses every slot of a master as an index of the
16384-entry table without a bound check, and `parseSlotField` accepts slot
numbers of any size: whenever a master of the node map lists a slot of
16384 or more, building the table panics with an index out of range.
`parseSlots` produces such node maps: from a master line with the slot
field `16384`, and from one with the slot field `0-20000` (on every runtime
that grants a slice of 20001 slots). -/
theorem fetchNodes_slot_outside_table :
    (∀ (nm : List node) (n : node) (s : Int), n ∈ nm → n.role = roleMaster → s ∈ n.slots →
      16384 ≤ s → buildSnapshot nm = none) ∧
    (∀ maxCap : Nat, parseSlotField maxCap "16384" = Run.done ([16384], true)) ∧
    (∀ maxCap : Nat, 20001 ≤ maxCap →
      parseSlotField maxCap "0-20000" = Run.done (slotRun 0 20000, true)) ∧
    (∀ maxCap : Nat,
      parseSlots maxCap
          ("828c400ea2b55c43e5af67af94bec4943b7b3d93 172.17.0.2:7002@17002 master - 0 " ++
            "1532770704000 3 connected 16384") =
        Run.done
          ([{ ID := "828c400ea2b55c43e5af67af94bec4943b7b3d93", addr := "172.17.0.2:7002",
              gossipAddr := "172.17.0.217002", role := "master", flags := ["master"],
              slaveOf := "-", pingSent := 0, pongRecv := 1532770704000, configEpoch := 3,
              linkState := "connected", slots := [16384] }],
           none)) ∧
    buildSnapshot
        [{ ID := "828c400ea2b55c43e5af67af94bec4943b7b3d93", addr := "172.17.0.2:7002",
           gossipAddr := "172.17.0.217002", role := "master", flags := ["master"],
           slaveOf := "-", pingSent := 0, pongRecv := 1532770704000, configEpoch := 3,
           linkState := "connected", slots := [16384] }] = none ∧
    (∀ maxCap : Nat, 20001 ≤ maxCap →
      ∃ n : node,
        parseSlots maxCap
            ("b1798ba2171a4bd765846ddb5d5bdc9f3ca6fdf3 172.17.0.2:7000@17000 master - 0 " ++
              "1532770705458 1 connected 0-20000") = Run.done ([n], none) ∧
        n.role = roleMaster ∧ n.slots = slotRun 0 20000 ∧ buildSnapshot [n] = none) ∧
    (20000 : Int) ∈ slotRun 0 20000 := by
  have hone : ∀ maxCap : Nat, parseSlotField maxCap "16384" = Run.done ([16384], true) :=
    fun maxCap => (parseSlotField_accepts maxCap "16384" _).mpr
      (Or.inl ⟨by decide, 16384, by decide, rfl⟩)
  have hrange : ∀ maxCap : Nat, 20001 ≤ maxCap →
      parseSlotField maxCap "0-20000" = Run.done (slotRun 0 20000, true) :=
    fun maxCap hcap => (parseSlotField_accepts maxCap "0-20000" _).mpr
      (Or.inr ⟨"0", "20000", 0, 20000, by decide, by decide, by decide, by decide, by decide,
        by decide, by omega, rfl⟩)
  have hmem : (20000 : Int) ∈ slotRun 0 20000 := (mem_slotRun 0 20000 20000).mpr (by decide)
  refine ⟨fun nm n s hn hr hs hbig => buildSnapshot_none nm n s hn hr hs hbig, hone, hrange,
    ?_, ?_, ?_, hmem⟩
  · intro maxCap
    have hnode := parseNode_fields maxCap
      ("828c400ea2b55c43e5af67af94bec4943b7b3d93 172.17.0.2:7002@17002 master - 0 " ++
        "1532770704000 3 connected 16384")
      "828c400ea2b55c43e5af67af94bec4943b7b3d93" "172.17.0.2:7002@17002" "master" "-" "0"
      "1532770704000" "3" "connected" ["16384"] [16384] (by decide) (by decide)
      (setSlots_one maxCap "16384" _ (hone maxCap))
    have hrec :
        ({ ID := TrimSpace "828c400ea2b55c43e5af67af94bec4943b7b3d93",
           addr := (setAddr "172.17.0.2:7002@17002").1,
           gossipAddr := (setAddr "172.17.0.2:7002@17002").2,
           flags := (setFlags "master").1,
           role := (setFlags "master").2,
           slaveOf := "-",
           pingSent := (Atoi "0").1,
           pongRecv := (Atoi "1532770704000").1,
           configEpoch := (Atoi "3").1,
           linkState := "connected",
           slots := [16384] } : node) =
        { ID := "828c400ea2b55c43e5af67af94bec4943b7b3d93", addr := "172.17.0.2:7002",
          gossipAddr := "172.17.0.217002", role := "master", flags := ["master"],
          slaveOf := "-", pingSent := 0, pongRecv := 1532770704000, configEpoch := 3,
          linkState := "connected", slots := [16384] } := by decide
    rw [hrec] at hnode
    exact parseSlots_one_line maxCap _ _ (by decide) hnode
  · exact buildSnapshot_none _ _ 16384 (List.mem_singleton.mpr rfl) rfl
      (List.mem_singleton.mpr rfl) (le_refl _)
  · intro maxCap hcap
    have hsplit : SplitCRLF ("b1798ba2171a4bd765846ddb5d5bdc9f3ca6fdf3 172.17.0.2:7000@17000 " ++
        "master - 0 1532770705458 1 connected 0-20000") =
        ["b1798ba2171a4bd765846ddb5d5bdc9f3ca6fdf3 172.17.0.2:7000@17000 " ++
          "master - 0 1532770705458 1 connected 0-20000"] := by decide
    have htrim : ¬ (TrimSpace ("b1798ba2171a4bd765846ddb5d5bdc9f3ca6fdf3 172.17.0.2:7000@17000 " ++
        "master - 0 1532770705458 1 connected 0-20000")).length = 0 := by decide
    have hfields : Fields ("b1798ba2171a4bd765846ddb5d5bdc9f3ca6fdf3 172.17.0.2:7000@17000 " ++
        "master - 0 1532770705458 1 connected 0-20000") =
        ["b1798ba2171a4bd765846ddb5d5bdc9f3ca6fdf3", "172.17.0.2:7000@17000", "master", "-", "0",
          "1532770705458", "1", "connected", "0-20000"] := by decide
    exact parseSlots_master_line maxCap _ _ _ _ _ _ _ _ _ _ _ 20000 hsplit htrim hfields
      (hrange maxCap hcap) (by decide) hmem (by decide)

end cluster

namespace cluster

open gostd

/-- C12: for every payload, `parseSlots` on the payload followed by the
terminating CRLF never returns a nil error: whenever it returns, it returns
`errNodesRespType`, because cutting at `"\r\n"` leaves an empty last
piece, which `parseNode` rejects. On a master line of the documented form
followed by CRLF the node is parsed and stored, and the error is returned
all the same (on every runtime that grants a slice of six slots). -/
theorem parseSlots_crlf_terminated :
    (∀ (maxCap : Nat) (payload : String) (r : List node × Option Err),
      parseSlots maxCap (payload ++ "\r\n") = Run.done r →
      r.2 = some Err.errNodesRespType) ∧
    (∀ maxCap : Nat, 6 ≤ maxCap →
      parseSlots maxCap
          ("b1798ba2171a4bd765846ddb5d5bdc9f3ca6fdf3 172.17.0.2:7000@17000 master - 0 " ++
            "1532770705458 1 connected 0-5\r\n") =
        Run.done
          ([{ ID := "b1798ba2171a4bd765846ddb5d5bdc9f3ca6fdf3", addr := "172.17.0.2:7000",
              gossipAddr := "172.17.0.217000", role := "master", flags := ["master"],
              slaveOf := "-", pingSent := 0, pongRecv := 1532770705458, configEpoch := 1,
              linkState := "connected",
              slots := [0, 1, 2, 3, 4, 5] }],
           some Err.errNodesRespType)) := by
  constructor
  · intro maxCap payload r h
    obtain ⟨first, init, e⟩ := splitCRLF_terminated payload.data.length payload.data rfl
    have hd : (payload ++ "\r\n").data = payload.data ++ ['\r', '\n'] := by
      simp [String.data_append]
    have hs : SplitCRLF (payload ++ "\r\n") = (first :: init).map String.mk ++ [""] := by
      simp only [SplitCRLF, hd, e, List.map_append, List.map_cons, List.map_nil]
    rw [parseSlots, hs] at h
    exact parseLines_last_empty maxCap _ _ r h
  · intro maxCap hcap
    have hrange : parseSlotField maxCap "0-5" = Run.done (slotRun 0 5, true) :=
      (parseSlotField_accepts maxCap "0-5" _).mpr
        (Or.inr ⟨"0", "5", 0, 5, by decide, by decide, by decide, by decide, by decide,
          by decide, by omega, rfl⟩)
    have hnode := parseNode_fields maxCap
      ("b1798ba2171a4bd765846ddb5d5bdc9f3ca6fdf3 172.17.0.2:7000@17000 master - 0 " ++
        "1532770705458 1 connected 0-5")
      "b1798ba2171a4bd765846ddb5d5bdc9f3ca6fdf3" "172.17.0.2:7000@17000" "master" "-" "0"
      "1532770705458" "1" "connected" ["0-5"] (slotRun 0 5) (by decide) (by decide)
      (setSlots_one maxCap "0-5" _ hrange)
    have hrec :
        ({ ID := TrimSpace "b1798ba2171a4bd765846ddb5d5bdc9f3ca6fdf3",
           addr := (setAddr "172.17.0.2:7000@17000").1,
           gossipAddr := (setAddr "172.17.0.2:7000@17000").2,
           flags := (setFlags "master").1,
           role := (setFlags "master").2,
           slaveOf := "-",
           pingSent := (Atoi "0").1,
           pongRecv := (Atoi "1532770705458").1,
           configEpoch := (Atoi "1").1,
           linkState := "connected",
           slots := slotRun 0 5 } : node) =
        { ID := "b1798ba2171a4bd765846ddb5d5bdc9f3ca6fdf3", addr := "172.17.0.2:7000",
          gossipAddr := "172.17.0.217000", role := "master", flags := ["master"],
          slaveOf := "-", pingSent := 0, pongRecv := 1532770705458, configEpoch := 1,
          linkState := "connected",
          slots := [0, 1, 2, 3, 4, 5] } := by decide
    rw [hrec] at hnode
    exact parseSlots_line_crlf maxCap _ _ _ (by decide) hnode

end cluster
